import Mathlib

/-!
The quantitative analytics engine of jijin.

A shallow embedding of `internal/service/indicator.go`,
`internal/service/risk.go`, `internal/service/prediction.go`,
`internal/service/strategy.go`, `internal/service/calculator.go`,
`internal/service/portfolio.go` and `internal/service/alert.go`, and the
properties of the indicator, risk, strategy, investment, holding, prediction
and alert computations.

Modelling conventions.

* `float64` is idealised as exact rational arithmetic (`ℚ`): rounding, NaN and
  infinities are outside the model. Division by zero, which yields an infinity
  or NaN in Go, is `0` in `ℚ`: the theorems about computed values are stated
  where the divisors of the code are non-zero or guarded by the code itself.
  The divisions of `portfolio.go` are followed one by one instead.
* `math.Sqrt` is a parameter `sqrt : ℚ → ℚ` of the functions that call it.
* A Go slice is a `List`; indices are `Int`, as Go's `int`. Indexing and
  slicing are checked: an index out of range is the run-time panic, the outer
  `none` of a result. A `nil` slice or pointer returned by a function is the
  inner `none`.
* A counting `for` loop whose body changes neither its counter nor its bound
  runs its body once per counter value, in order.
-/

namespace Jijin

/-! ## Go slices and loops -/

/-- The read `a[i]`; `none` is the index-out-of-range panic. -/
def idx {α : Type} (a : List α) (i : Int) : Option α :=
  if 0 ≤ i then a.get? i.toNat else none

/-- The write `a[i] = v`; `none` is the index-out-of-range panic. -/
def setIdx {α : Type} (a : List α) (i : Int) (v : α) : Option (List α) :=
  if 0 ≤ i ∧ i < a.length then some (a.set i.toNat v) else none

/-- The allocation `make([]float64, n)`: `n` zeros. -/
def make (n : Nat) : List ℚ := List.replicate n 0

/-- The elements of a slice that may be `nil`: a nil slice has none. -/
def elems (s : Option (List ℚ)) : List ℚ := s.getD []

/-- The slice expression `a[lo:]`; `none` is the slice-bounds panic. -/
def sliceFrom (a : List ℚ) (lo : Int) : Option (List ℚ) :=
  if 0 ≤ lo ∧ lo ≤ a.length then some (a.drop lo.toNat) else none

/-- The value of `a[i]`, and `0` where the index is out of range (for stating
properties of slices whose length is known). -/
def nth (a : List ℚ) (i : Int) : ℚ := (idx a i).getD 0

/-- Runs `body j`, then `body (j+1)`, ... : `n` iterations in all. -/
def forUpAux {σ : Type} (body : Int → σ → Option σ) : Nat → Int → σ → Option σ
  | 0, _, s => some s
  | n + 1, j, s => (body j s).bind fun s' => forUpAux body n (j + 1) s'

/-- The loop `for j := lo; j < hi; j++ { body }` on the state `s`. -/
def forUp {σ : Type} (lo hi : Int) (body : Int → σ → Option σ) (s : σ) : Option σ :=
  forUpAux body (hi - lo).toNat lo s

/-- Runs `body i`, then `body (i-1)`, ... : `n` iterations in all. -/
def forDownAux {σ : Type} (body : Int → σ → Option σ) : Nat → Int → σ → Option σ
  | 0, _, s => some s
  | n + 1, i, s => (body i s).bind fun s' => forDownAux body n (i - 1) s'

/-- The loop `for i := hi; i >= 0; i-- { body }` on the state `s`. -/
def forDown {σ : Type} (hi : Int) (body : Int → σ → Option σ) (s : σ) : Option σ :=
  forDownAux body (hi + 1).toNat hi s

/-! ## internal/service/indicator.go -/

/-- The struct `MACDResult`; `Signal` may be a nil slice. -/
structure MACDResult where
  MACD : List ℚ
  Signal : Option (List ℚ)
  Hist : List ℚ
  deriving DecidableEq, Repr

/-- The struct `KDJResult`. -/
structure KDJResult where
  K : List ℚ
  D : List ℚ
  J : List ℚ
  deriving DecidableEq, Repr

/-- The struct `BollingerResult`. -/
structure BollingerResult where
  Upper : List ℚ
  Middle : List ℚ
  Lower : List ℚ
  deriving DecidableEq, Repr

/-- The method `IndicatorService.CalculateEMA`. -/
def CalculateEMA (prices : List ℚ) (period : Int) : Option (Option (List ℚ)) :=
  if (prices.length : Int) < period then some none else do
    let ema := make prices.length
    let multiplier : ℚ := 2 / ((period + 1 : Int) : ℚ)
    let sum ← forUp 0 period (fun j sum => do
      let p ← idx prices j
      pure (sum + p)) (0 : ℚ)
    let ema ← setIdx ema (period - 1) (sum / ((period : Int) : ℚ))
    let ema ← forUp period prices.length (fun j ema => do
      let pj ← idx prices j
      let e1 ← idx ema (j - 1)
      setIdx ema j ((pj - e1) * multiplier + e1)) ema
    pure (some ema)

/-- The method `IndicatorService.CalculateMACD`. -/
def CalculateMACD (prices : List ℚ) : Option (Option MACDResult) :=
  if (prices.length : Int) < 26 then some none else do
    let ema12 ← CalculateEMA prices 12
    let ema26 ← CalculateEMA prices 26
    let macd := make prices.length
    let macd ← forUp 25 prices.length (fun j macd => do
      let a ← idx (elems ema12) j
      let b ← idx (elems ema26) j
      setIdx macd j (a - b)) macd
    let tail ← sliceFrom macd 25
    let signal ← CalculateEMA tail 9
    let hist := make prices.length
    let hist ← forUp 0 (elems signal).length (fun j hist => do
      let m ← idx macd (j + 25)
      let s ← idx (elems signal) j
      setIdx hist (j + 25) (m - s)) hist
    pure (some { MACD := macd, Signal := signal, Hist := hist })

/-- The method `IndicatorService.CalculateRSI`. -/
def CalculateRSI (prices : List ℚ) (period : Int) : Option (Option (List ℚ)) :=
  if (prices.length : Int) < period + 1 then some none else do
    let rsi := make prices.length
    let gains := make prices.length
    let losses := make prices.length
    let (gains, losses) ← forUp 1 prices.length (fun j (gl : List ℚ × List ℚ) => do
      let pj ← idx prices j
      let pj1 ← idx prices (j - 1)
      let change := pj - pj1
      if change > 0 then do
        let g ← setIdx gl.1 j change
        pure (g, gl.2)
      else do
        let l ← setIdx gl.2 j (-change)
        pure (gl.1, l)) (gains, losses)
    let (avgGain, avgLoss) ← forUp 1 (period + 1) (fun j (s : ℚ × ℚ) => do
      let g ← idx gains j
      let l ← idx losses j
      pure (s.1 + g, s.2 + l)) ((0 : ℚ), (0 : ℚ))
    let avgGain := avgGain / ((period : Int) : ℚ)
    let avgLoss := avgLoss / ((period : Int) : ℚ)
    let rsi ← if avgLoss = 0 then setIdx rsi period 100
      else setIdx rsi period (100 - 100 / (1 + avgGain / avgLoss))
    let (_, _, rsi) ← forUp (period + 1) prices.length
      (fun j (s : ℚ × ℚ × List ℚ) => do
        let g ← idx gains j
        let avgGain := (s.1 * ((period - 1 : Int) : ℚ) + g) / ((period : Int) : ℚ)
        let l ← idx losses j
        let avgLoss := (s.2.1 * ((period - 1 : Int) : ℚ) + l) / ((period : Int) : ℚ)
        let rsi ← if avgLoss = 0 then setIdx s.2.2 j 100
          else setIdx s.2.2 j (100 - 100 / (1 + avgGain / avgLoss))
        pure (avgGain, avgLoss, rsi)) (avgGain, avgLoss, rsi)
    pure (some rsi)

/-- The inner loop of `CalculateKDJ`: the high and the low of the `period`
prices ending at `i`, starting from `prices[i]`. -/
def highLow (prices : List ℚ) (period i : Int) (start : ℚ) : Option (ℚ × ℚ) :=
  forUp 0 period (fun p (hl : ℚ × ℚ) => do
    let x ← idx prices (i - p)
    let high := if x > hl.1 then x else hl.1
    let y ← idx prices (i - p)
    let low := if y < hl.2 then y else hl.2
    pure (high, low)) (start, start)

/-- The method `IndicatorService.CalculateKDJ`. -/
def CalculateKDJ (prices : List ℚ) (period : Int) : Option (Option KDJResult) :=
  if (prices.length : Int) < period then some none else do
    let n : Int := prices.length
    let k := make prices.length
    let d := make prices.length
    let j := make prices.length
    let (k, d, j) ← forUp (period - 1) n (fun i (s : List ℚ × List ℚ × List ℚ) => do
      let start ← idx prices i
      let (high, low) ← highLow prices period i start
      let rsv ← if high ≠ low then do
          let c ← idx prices i
          pure ((c - low) / (high - low) * 100)
        else pure (0 : ℚ)
      let (k, d) ← if i = period - 1 then do
          let k ← setIdx s.1 i rsv
          let d ← setIdx s.2.1 i rsv
          pure (k, d)
        else do
          let k1 ← idx s.1 (i - 1)
          let k ← setIdx s.1 i (2 / 3 * k1 + 1 / 3 * rsv)
          let d1 ← idx s.2.1 (i - 1)
          let ki ← idx k i
          let d ← setIdx s.2.1 i (2 / 3 * d1 + 1 / 3 * ki)
          pure (k, d)
      let ki ← idx k i
      let di ← idx d i
      let j ← setIdx s.2.2 i (3 * ki - 2 * di)
      pure (k, d, j)) (k, d, j)
    pure (some { K := k, D := d, J := j })

/-- The first inner loop of `CalculateBollinger`: the sum of the `period`
prices ending at `i`. -/
def windowSum (prices : List ℚ) (period i : Int) : Option ℚ :=
  forUp 0 period (fun p sum => do
    let x ← idx prices (i - p)
    pure (sum + x)) (0 : ℚ)

/-- The second inner loop of `CalculateBollinger`: the sum of the squared
distances to `ma` of the `period` prices ending at `i`. -/
def windowVariance (prices : List ℚ) (period i : Int) (ma : ℚ) : Option ℚ :=
  forUp 0 period (fun p variance => do
    let x ← idx prices (i - p)
    let y ← idx prices (i - p)
    pure (variance + (x - ma) * (y - ma))) (0 : ℚ)

/-- The method `IndicatorService.CalculateBollinger`, over `math.Sqrt`. -/
def CalculateBollinger (sqrt : ℚ → ℚ) (prices : List ℚ) (period : Int) :
    Option (Option BollingerResult) :=
  if (prices.length : Int) < period then some none else do
    let n : Int := prices.length
    let upper := make prices.length
    let middle := make prices.length
    let lower := make prices.length
    let (upper, middle, lower) ← forUp (period - 1) n
      (fun i (s : List ℚ × List ℚ × List ℚ) => do
        let sum ← windowSum prices period i
        let ma := sum / ((period : Int) : ℚ)
        let variance ← windowVariance prices period i ma
        let std := sqrt (variance / ((period : Int) : ℚ))
        let middle ← setIdx s.2.1 i ma
        let upper ← setIdx s.1 i (ma + 2 * std)
        let lower ← setIdx s.2.2 i (ma - 2 * std)
        pure (upper, middle, lower)) (upper, middle, lower)
    pure (some { Upper := upper, Middle := middle, Lower := lower })

/-! ## internal/service/risk.go -/

/-- The struct `model.NetValueHistory`; `Date` is a day number. -/
structure NetValueHistory where
  ID : Nat
  FundCode : String
  NetValue : ℚ
  TotalValue : ℚ
  DayGrowth : ℚ
  Date : Int
  deriving DecidableEq, Repr

/-- A history record with the given net value (the other fields blank). -/
def navPoint (v : ℚ) : NetValueHistory :=
  { ID := 0, FundCode := "", NetValue := v, TotalValue := 0, DayGrowth := 0, Date := 0 }

/-- The method `RiskService.CalculateMaxDrawdown`, given what
`repository.GetNetValueHistory(fundCode, days)` returned: the records,
newest first, and the error (`none` is a nil error). -/
def CalculateMaxDrawdown (histories : List NetValueHistory) (err : Option String) :
    Option (ℚ × Option String) :=
  if err ≠ none ∨ histories.length < 2 then some (0, err) else do
    let maxDrawdown : ℚ := 0
    let last ← idx histories ((histories.length : Int) - 1)
    let peak := last.NetValue
    let (maxDrawdown, _) ← forDown ((histories.length : Int) - 2)
      (fun i (s : ℚ × ℚ) => do
        let h ← idx histories i
        let peak := if h.NetValue > s.2 then h.NetValue else s.2
        let h' ← idx histories i
        let drawdown := (peak - h'.NetValue) / peak * 100
        let maxDrawdown := if drawdown > s.1 then drawdown else s.1
        pure (maxDrawdown, peak)) (maxDrawdown, peak)
    pure (maxDrawdown, none)

/-! ## Reference definitions, following the wording of the specification

Each is compared below with what the code computes. -/

/-- The gain of day `j`: `max(prices[j] - prices[j-1], 0)`. -/
def gainSpec (prices : List ℚ) (j : Int) : ℚ := max (nth prices j - nth prices (j - 1)) 0

/-- The loss of day `j`: `max(prices[j-1] - prices[j], 0)`. -/
def lossSpec (prices : List ℚ) (j : Int) : ℚ := max (nth prices (j - 1) - nth prices j) 0

/-- Wilder smoothing of the series `x`, at index `period + n`: the seed (at
index `period`) is the simple mean of `x[1..period]`, and each later value is
`(avg*(period-1) + new)/period`. -/
def wilderAvg (x : Int → ℚ) (period : Int) : Nat → ℚ
  | 0 => ((List.range period.toNat).map fun (i : Nat) => x ((i : Int) + 1)).sum / (period : ℚ)
  | n + 1 => (wilderAvg x period n * ((period : ℚ) - 1) + x (period + n + 1)) / (period : ℚ)

/-- The RSI of an average gain and an average loss. -/
def rsiValue (avgGain avgLoss : ℚ) : ℚ :=
  if avgLoss = 0 then 100 else 100 - 100 / (1 + avgGain / avgLoss)

/-- The RSI at index `period + n`: `100` when the average loss is exactly `0`,
and `100 - 100/(1 + avgGain/avgLoss)` otherwise. -/
def rsiSpec (prices : List ℚ) (period : Int) (n : Nat) : ℚ :=
  if wilderAvg (lossSpec prices) period n = 0 then 100
  else 100 - 100 / (1 + wilderAvg (gainSpec prices) period n
    / wilderAvg (lossSpec prices) period n)

/-- The high of the `period` prices ending at index `i`. -/
def windowHigh (prices : List ℚ) (period i : Int) : ℚ :=
  ((List.range period.toNat).map fun (p : Nat) => nth prices (i - p)).foldr max (nth prices i)

/-- The low of the `period` prices ending at index `i`. -/
def windowLow (prices : List ℚ) (period i : Int) : ℚ :=
  ((List.range period.toNat).map fun (p : Nat) => nth prices (i - p)).foldr min (nth prices i)

/-- The raw stochastic value at index `i`: `(close-low)/(high-low)*100`, and
`0` when `high == low`. -/
def rsvSpec (prices : List ℚ) (period i : Int) : ℚ :=
  if windowHigh prices period i = windowLow prices period i then 0
  else (nth prices i - windowLow prices period i)
    / (windowHigh prices period i - windowLow prices period i) * 100

/-- The simple mean of the `period` prices ending at index `i`. -/
def windowMean (prices : List ℚ) (period i : Int) : ℚ :=
  ((List.range period.toNat).map fun (p : Nat) => nth prices (i - p)).sum / (period : ℚ)

/-- The population variance of the `period` prices ending at index `i`. -/
def windowVar (prices : List ℚ) (period i : Int) : ℚ :=
  ((List.range period.toNat).map fun (p : Nat) =>
    (nth prices (i - p) - windowMean prices period i)
      * (nth prices (i - p) - windowMean prices period i)).sum / (period : ℚ)

/-! ## Concrete inputs -/

/-- A computable stand-in for `math.Sqrt`: the square root rounded down to six
decimals (and `0` on negative numbers). -/
def ratSqrt (x : ℚ) : ℚ :=
  (Nat.sqrt (x.num.toNat * x.den * 10 ^ 12) : ℚ) / ((x.den : ℚ) * 10 ^ 6)

/-- The NAV history of the specification's EMA scenario, oldest first. -/
def scenarioPrices : List ℚ := [1.00, 1.05, 1.10, 1.08, 1.15]

/-- Twenty-six prices rising by one a day. -/
def steadyPrices : List ℚ :=
  [0, 1, 2, 3, 4, 5, 6, 7, 8, 9, 10, 11, 12, 13, 14, 15, 16, 17, 18, 19, 20, 21, 22, 23, 24,
   25]

/-- Thirty-four strictly increasing prices: ten a day for the first 26 days,
then one a day. -/
def slowingPrices : List ℚ :=
  [0, 10, 20, 30, 40, 50, 60, 70, 80, 90, 100, 110, 120, 130, 140, 150, 160, 170, 180, 190,
   200, 210, 220, 230, 240, 250, 251, 252, 253, 254, 255, 256, 257, 258]

/-! ## Conversions and library functions

`int(x)` on a `float64` truncates toward zero, into an `int64`;
`math.Round` rounds to the nearest integer, halves away from zero. `math.Pow` and `Time.AddDate(0, 1, 0)`
are parameters of the functions that call them. A `time.Time` is an instant,
in nanoseconds, in a location whose clock never changes: its
`Format("2006-01-02")` is its day number, `AddDate(0, 0, k)` moves it by `k`
days. Durations beyond the range of `time.Duration` are outside the model. A Go map keyed by formatted dates is a
function from day numbers to `Option`. A `for` loop on a condition takes
fuel, and is `none` when the fuel runs out before the condition fails. -/

/-- The conversion `int(x)` of a `float64` to Go's 64-bit `int`: the
truncation toward zero when that is an `int64`. Beyond the range of `int64`
the language leaves the result to the implementation: the value here, `-2^63`,
is the one that the conversion instruction of amd64 yields. -/
def goInt (x : ℚ) : Int :=
  let t : Int := if 0 ≤ x then ⌊x⌋ else -⌊-x⌋
  if -(2 ^ 63) ≤ t ∧ t < 2 ^ 63 then t else -(2 ^ 63)

/-- The function `math.Round`: the nearest integer, halves away from zero. -/
def goRound (x : ℚ) : ℚ := if 0 ≤ x then ((⌊x + 1 / 2⌋ : Int) : ℚ) else -((⌊-x + 1 / 2⌋ : Int) : ℚ)

/-- The conversion `rune(n)` of an `int`: the low 32 bits, signed. -/
def goRune (n : Int) : Int := (n + 2 ^ 31) % 2 ^ 32 - 2 ^ 31

/-- The conversion `string(r)` of a rune: the character of that code point,
and U+FFFD when there is none. -/
def runeString (r : Int) : String :=
  if (0 ≤ r ∧ r < 0xD800) ∨ (0xE000 ≤ r ∧ r ≤ 0x10FFFF) then String.singleton (Char.ofNat r.toNat)
  else "\uFFFD"

/-- Nanoseconds in a day. -/
def nsPerDay : Int := 86400 * 10 ^ 9

/-- The call `t.Format("2006-01-02")`, as the day number of the instant. -/
def formatDate (t : Int) : Int := t / nsPerDay

/-- The call `t.AddDate(0, 0, k)`. -/
def addDays (t k : Int) : Int := t + k * nsPerDay

/-- The call `t.Sub(u).Hours()`. -/
def hoursBetween (t u : Int) : ℚ := ((t - u : Int) : ℚ) / (3600 * 10 ^ 9)

/-! ## internal/service/risk.go, continued -/

/-- The return loop of `CalculateVolatility` and of
`calculateHistoricalReturn` (the same statements in both): `returns[i]` is set
where `histories[i+1].NetValue > 0` and left as allocated elsewhere. -/
def dailyReturns (histories : List NetValueHistory) : Option (List ℚ) :=
  forUp 0 ((histories.length : Int) - 1) (fun i returns => do
    let h1 ← idx histories (i + 1)
    if h1.NetValue > 0 then do
      let h0 ← idx histories i
      let a ← idx histories (i + 1)
      let b ← idx histories (i + 1)
      setIdx returns i ((h0.NetValue - a.NetValue) / b.NetValue * 100)
    else pure returns) (make (histories.length - 1))

/-- The method `RiskService.CalculateVolatility`, over `math.Sqrt`, given what
`repository.GetNetValueHistory(fundCode, days)` returned. -/
def CalculateVolatility (sqrt : ℚ → ℚ) (histories : List NetValueHistory)
    (err : Option String) : Option (ℚ × Option String) :=
  if err ≠ none ∨ histories.length < 2 then some (0, err) else do
    let returns ← dailyReturns histories
    let sum := returns.foldl (fun sum ret => sum + ret) (0 : ℚ)
    let mean := sum / (returns.length : ℚ)
    let variance := returns.foldl (fun variance ret => variance + (ret - mean) * (ret - mean))
      (0 : ℚ)
    pure (sqrt (variance / (returns.length : ℚ)) * sqrt 250, none)

/-- The struct `model.Fund`; `FundType` is its field `Type`, `UpdatedAt` is an
instant. -/
structure Fund where
  Code : String
  Name : String
  FundType : String
  NetValue : ℚ
  TotalValue : ℚ
  DayGrowth : ℚ
  EstValue : ℚ
  EstGrowth : ℚ
  UpdatedAt : Int
  deriving DecidableEq, Repr

/-- The struct `RiskResult`. -/
structure RiskResult where
  FundCode : String
  FundName : String
  RiskLevel : Int
  RiskScore : ℚ
  MaxDrawdown : ℚ
  Volatility : ℚ
  Suggestion : String
  deriving DecidableEq, Repr

/-- The method `RiskService.AnalyzeFundRisk`, over `math.Sqrt`, given what
`repository.GetFund(fundCode)` returned (`fund`, `fundErr`) and what the
history query returned to `CalculateMaxDrawdown` and to `CalculateVolatility`.
Reading the name of a nil fund is the nil-pointer panic. -/
def AnalyzeFundRisk (sqrt : ℚ → ℚ) (fundCode : String) (fund : Option Fund)
    (fundErr : Option String) (drawdownQuery volatilityQuery : List NetValueHistory × Option String) :
    Option (Option RiskResult × Option String) :=
  if fundErr ≠ none then some (none, fundErr) else do
    let (maxDrawdown, _) ← CalculateMaxDrawdown drawdownQuery.1 drawdownQuery.2
    let (volatility, _) ← CalculateVolatility sqrt volatilityQuery.1 volatilityQuery.2
    let riskScore := maxDrawdown * 0.4 + volatility * 0.6
    let riskLevel := goInt (riskScore / 20) + 1
    let riskLevel := if riskLevel > 5 then 5 else riskLevel
    let suggestion := if riskLevel ≥ 4 then "风险较高，建议谨慎"
      else if riskLevel ≤ 2 then "风险较低，适合稳健投资"
      else "风险适中"
    let f ← fund
    pure (some { FundCode := fundCode, FundName := f.Name, RiskLevel := riskLevel,
                 RiskScore := riskScore, MaxDrawdown := maxDrawdown, Volatility := volatility,
                 Suggestion := suggestion }, none)

/-! ## internal/service/prediction.go -/

/-- The method `PredictionService.calculateHistoricalReturn`, over
`math.Sqrt`, given what `repository.GetNetValueHistory(fundCode, days)`
returned: the mean, the standard deviation and the error. -/
def calculateHistoricalReturn (sqrt : ℚ → ℚ) (histories : List NetValueHistory)
    (err : Option String) : Option (ℚ × ℚ × Option String) :=
  if err ≠ none ∨ histories.length < 30 then some (0, 0, err) else do
    let returns ← dailyReturns histories
    let sum := returns.foldl (fun sum r => sum + r) (0 : ℚ)
    let mean := sum / (returns.length : ℚ)
    let variance := returns.foldl (fun variance r => variance + (r - mean) * (r - mean)) (0 : ℚ)
    let std := sqrt (variance / (returns.length : ℚ))
    pure (mean, std, none)

/-! ## internal/model/model.go -/

/-- The struct `model.Holding`; of the embedded `gorm.Model`, `ID` and
`CreatedAt` (an instant). -/
structure Holding where
  ID : Nat
  CreatedAt : Int
  FundCode : String
  FundName : String
  Shares : ℚ
  Cost : ℚ
  CostPrice : ℚ
  CurrentNav : ℚ
  deriving DecidableEq, Repr

/-- The method `Holding.MarketValue`. -/
def Holding.MarketValue (h : Holding) : ℚ := h.Shares * h.CurrentNav

/-- The method `Holding.Profit`. -/
def Holding.Profit (h : Holding) : ℚ := h.MarketValue - h.Cost

/-- The method `Holding.ProfitRate`. -/
def Holding.ProfitRate (h : Holding) : ℚ :=
  if h.Cost = 0 then 0 else (h.MarketValue - h.Cost) / h.Cost * 100

/-! ## internal/service/strategy.go -/

/-- The struct `MADeviationParams`. -/
structure MADeviationParams where
  MAPeriod : Int
  MaxMultiplier : ℚ
  MinMultiplier : ℚ
  deriving DecidableEq, Repr

/-- The struct `ValuationParams`. -/
structure ValuationParams where
  LowPE : ℚ
  HighPE : ℚ
  MaxMultiplier : ℚ
  MinMultiplier : ℚ
  deriving DecidableEq, Repr

/-- The struct `TargetValueParams`. -/
structure TargetValueParams where
  TargetValue : ℚ
  GrowthRate : ℚ
  deriving DecidableEq, Repr

/-- The struct `StrategyResult`. -/
structure StrategyResult where
  BaseAmount : ℚ
  SuggestAmount : ℚ
  Multiplier : ℚ
  Reason : String
  deriving DecidableEq, Repr

/-- The method `StrategyService.CalculateMADeviation`, given what
`GetFundAPI().GetFundHistory(fundCode, params.MAPeriod+10)` returned: the
records, newest first, and the error. -/
def CalculateMADeviation (histories : List NetValueHistory) (err : Option String)
    (baseAmount : ℚ) (params : MADeviationParams) :
    Option (Option StrategyResult × Option String) :=
  if err ≠ none ∨ (histories.length : Int) < params.MAPeriod then
    some (some { BaseAmount := baseAmount, SuggestAmount := baseAmount, Multiplier := 1.0,
                 Reason := "数据不足，使用基准金额" }, none)
  else do
    let sum ← forUp 0 params.MAPeriod (fun i sum => do
      let h ← idx histories i
      pure (sum + h.NetValue)) (0 : ℚ)
    let ma := sum / ((params.MAPeriod : Int) : ℚ)
    let h0 ← idx histories 0
    let currentNav := h0.NetValue
    let deviation := (currentNav - ma) / ma
    let multiplier := 1.0 - deviation * 2
    let multiplier := if multiplier > params.MaxMultiplier then params.MaxMultiplier
      else multiplier
    let multiplier := if multiplier < params.MinMultiplier then params.MinMultiplier
      else multiplier
    let suggestAmount := baseAmount * multiplier
    let reason := if deviation < -0.1 then "低于均线10%以上，建议加倍定投"
      else if deviation < 0 then "低于均线，建议适当增加"
      else if deviation > 0.1 then "高于均线10%以上，建议减少定投"
      else "接近均线，正常定投"
    pure (some { BaseAmount := baseAmount,
                 SuggestAmount := goRound (suggestAmount * 100) / 100,
                 Multiplier := goRound (multiplier * 100) / 100,
                 Reason := reason }, none)

/-- The method `StrategyService.CalculateValuation`. -/
def CalculateValuation (baseAmount currentPE : ℚ) (params : ValuationParams) :
    Option StrategyResult × Option String :=
  let mr : ℚ × String :=
    if currentPE ≤ params.LowPE then (params.MaxMultiplier, "估值低估，建议大幅加仓")
    else if currentPE ≥ params.HighPE then (params.MinMultiplier, "估值高估，建议减少定投")
    else
      let ratio := (currentPE - params.LowPE) / (params.HighPE - params.LowPE)
      (params.MaxMultiplier - ratio * (params.MaxMultiplier - params.MinMultiplier),
        "估值适中，正常定投")
  let multiplier := mr.1
  let reason := mr.2
  let suggestAmount := baseAmount * multiplier
  (some { BaseAmount := baseAmount,
          SuggestAmount := goRound (suggestAmount * 100) / 100,
          Multiplier := goRound (multiplier * 100) / 100,
          Reason := reason }, none)

/-- The function `formatMoney`. -/
def formatMoney (amount : ℚ) : String :=
  if amount ≥ 10000 then "¥" ++ runeString (goRune (goInt (amount / 10000))) ++ "万"
  else "¥" ++ runeString (goRune (goInt amount))

/-- The method `StrategyService.CalculateTargetValue`, over `math.Pow`; a nil
`holding` is the nil-pointer panic. -/
def CalculateTargetValue (pow : ℚ → ℚ → ℚ) (holding : Option Holding)
    (params : TargetValueParams) (periods : Int) :
    Option (Option StrategyResult × Option String) := do
  let targetValue := params.TargetValue * pow (1 + params.GrowthRate / 100) ((periods : Int) : ℚ)
  let h ← holding
  let currentValue := h.MarketValue
  let suggestAmount := targetValue - currentValue
  let suggestAmount := if suggestAmount < 0 then 0 else suggestAmount
  let reason := if currentValue ≥ targetValue then "已达目标市值，本期无需定投"
    else "距目标市值还差" ++ formatMoney (targetValue - currentValue)
  pure (some { BaseAmount := params.TargetValue,
               SuggestAmount := goRound (suggestAmount * 100) / 100,
               Multiplier := suggestAmount / params.TargetValue,
               Reason := reason }, none)

/-! ## internal/service/calculator.go -/

/-- The struct `InvestmentResult`; the dates are instants. -/
structure InvestmentResult where
  TotalInvest : ℚ
  TotalShares : ℚ
  CurrentValue : ℚ
  TotalProfit : ℚ
  ProfitRate : ℚ
  AnnualReturn : ℚ
  InvestCount : Int
  StartDate : Int
  EndDate : Int
  AvgCost : ℚ
  deriving DecidableEq, Repr

/-- The loop of `findNearestNav`, `for i := i; ...; i++` with `n` iterations
left: the first NAV found walking back from `date`, and the final `return 0`
when there is none. -/
def findNearestNavLoop (navMap : Int → Option ℚ) (date : Int) : Nat → Int → ℚ
  | 0, _ => 0
  | n + 1, i =>
    match navMap (formatDate (addDays date (-i))) with
    | some nav => nav
    | none => findNearestNavLoop navMap date n (i + 1)

/-- The method `CalculatorService.findNearestNav`. -/
def findNearestNav (navMap : Int → Option ℚ) (date : Int) (_histories : List NetValueHistory) :
    ℚ :=
  match navMap (formatDate date) with
  | some nav => nav
  | none => findNearestNavLoop navMap date 7 1

/-- The `switch frequency` of `CalculateInvestment`: the next contribution
date, over `AddDate(0, 1, 0)`. -/
def nextInvestDate (addMonth : Int → Int) (frequency : String) (current : Int) : Int :=
  match frequency with
  | "daily" => addDays current 1
  | "weekly" => addDays current 7
  | "monthly" => addMonth current
  | _ => addMonth current

/-- The loop `for !current.After(endDate)` of `CalculateInvestment`, on fuel. -/
def investLoop (addMonth : Int → Int) (navMap : Int → Option ℚ)
    (histories : List NetValueHistory) (amount : ℚ) (frequency : String) (endDate : Int) :
    Nat → Int → InvestmentResult → Option InvestmentResult
  | 0, current, result => if current > endDate then some result else none
  | fuel + 1, current, result =>
    if current > endDate then some result
    else
      let nav := findNearestNav navMap current histories
      let result :=
        if nav > 0 then
          let shares := amount / nav
          { result with TotalInvest := result.TotalInvest + amount,
                        TotalShares := result.TotalShares + shares,
                        InvestCount := result.InvestCount + 1 }
        else result
      investLoop addMonth navMap histories amount frequency endDate fuel
        (nextInvestDate addMonth frequency current) result

/-- The map built by `CalculateInvestment`: each record's date to its net
value, a later record overwriting an earlier one of the same date. -/
def buildNavMap (histories : List NetValueHistory) : Int → Option ℚ :=
  histories.foldl (fun navMap h => fun dateStr =>
    if dateStr = h.Date then some h.NetValue else navMap dateStr) (fun _ => none)

/-- The method `CalculatorService.CalculateInvestment`, over `AddDate(0, 1, 0)`
and `math.Pow`, on fuel, given what `GetFundAPI().GetFundHistory(fundCode,
days)` returned: the records, newest first, and the error. -/
def CalculateInvestment (addMonth : Int → Int) (pow : ℚ → ℚ → ℚ) (fuel : Nat)
    (histories : List NetValueHistory) (err : Option String) (amount : ℚ) (frequency : String)
    (startDate endDate : Int) : Option (Option InvestmentResult × Option String) :=
  if err ≠ none then some (none, err)
  else if histories.length = 0 then some (none, none)
  else do
    let navMap := buildNavMap histories
    let result : InvestmentResult :=
      { TotalInvest := 0, TotalShares := 0, CurrentValue := 0, TotalProfit := 0,
        ProfitRate := 0, AnnualReturn := 0, InvestCount := 0, StartDate := startDate,
        EndDate := endDate, AvgCost := 0 }
    let result ← investLoop addMonth navMap histories amount frequency endDate fuel startDate
      result
    if histories.length > 0 ∧ result.TotalShares > 0 then do
      let h0 ← idx histories 0
      let latestNav := h0.NetValue
      let result := { result with CurrentValue := result.TotalShares * latestNav }
      let result := { result with TotalProfit := result.CurrentValue - result.TotalInvest }
      let result := { result with AvgCost := result.TotalInvest / result.TotalShares }
      let result :=
        if result.TotalInvest > 0 then
          { result with ProfitRate := result.TotalProfit / result.TotalInvest * 100 }
        else result
      let years := hoursBetween endDate startDate / 24 / 365
      let result :=
        if years > 0 ∧ result.TotalInvest > 0 then
          { result with AnnualReturn :=
              (pow (result.CurrentValue / result.TotalInvest) (1 / years) - 1) * 100 }
        else result
      pure (some result, none)
    else pure (some result, none)

/-! ## Reference definitions for the risk, strategy and calculator claims -/

/-- The net values of a history, in its order. -/
def navs (histories : List NetValueHistory) : List ℚ := histories.map fun h => h.NetValue

/-- The return series of a newest-first NAV list in which a pair with
`nav[i+1] == 0` has no entry at all: `(nav[i]-nav[i+1])/nav[i+1]*100` for
each other adjacent pair. -/
def skipReturns : List ℚ → List ℚ
  | a :: b :: rest =>
    if b ≠ 0 then ((a - b) / b * 100) :: skipReturns (b :: rest) else skipReturns (b :: rest)
  | _ => []

/-- The return series of a newest-first NAV list with one entry per adjacent
pair: `(nav[i]-nav[i+1])/nav[i+1]*100` where `nav[i+1] > 0`, and `0`
elsewhere. -/
def returnSeries : List ℚ → List ℚ
  | a :: b :: rest => (if b > 0 then (a - b) / b * 100 else 0) :: returnSeries (b :: rest)
  | _ => []

/-- The mean of a series. -/
def popMean (r : List ℚ) : ℚ := r.sum / (r.length : ℚ)

/-- The population variance of a series: the mean squared distance to its
mean. -/
def popVar (r : List ℚ) : ℚ :=
  (r.map fun x => (x - popMean r) * (x - popMean r)).sum / (r.length : ℚ)

/-- A number rounded to two decimals, halves away from zero. -/
def round2 (x : ℚ) : ℚ := goRound (x * 100) / 100

/-- The mean of the first `period` net values of a newest-first history. -/
def movingAverage (histories : List NetValueHistory) (period : Int) : ℚ :=
  ((navs histories).take period.toNat).sum / (period : ℚ)

/-- The deviation of the newest net value from the moving average:
`(currentNav - ma)/ma`. -/
def maDeviation (histories : List NetValueHistory) (period : Int) : ℚ :=
  (nth (navs histories) 0 - movingAverage histories period) / movingAverage histories period

/-- A multiplier clamped to `[lo, hi]`. -/
def clampTo (lo hi x : ℚ) : ℚ := max lo (min x hi)

/-- The rationale of the moving-average policy for a deviation. -/
def maReason (deviation : ℚ) : String :=
  if deviation < -0.1 then "低于均线10%以上，建议加倍定投"
  else if -0.1 ≤ deviation ∧ deviation < 0 then "低于均线，建议适当增加"
  else if deviation > 0.1 then "高于均线10%以上，建议减少定投"
  else "接近均线，正常定投"

/-! ## Concrete inputs, continued -/

/-- A computable stand-in for `math.Pow`: exact on integer exponents, and on
any other exponent the power at the exponent rounded down. -/
def ratPow (x y : ℚ) : ℚ := x ^ (⌊y⌋ : Int)

/-- A stand-in for `AddDate(0, 1, 0)`: thirty days later. -/
def thirtyDaysLater (t : Int) : Int := addDays t 30

/-- A newest-first history with a zero NAV in the middle. -/
def gapHistory : List NetValueHistory := [navPoint 2, navPoint 0, navPoint 1]

/-- A newest-first history of two records, of day 10 and of day 8. -/
def twoDayHistory : List NetValueHistory :=
  [{ navPoint 2 with Date := 10 }, { navPoint 1 with Date := 8 }]

/-- A fund record named `x`. -/
def sampleFund : Fund :=
  { Code := "000001", Name := "x", FundType := "", NetValue := 0, TotalValue := 0,
    DayGrowth := 0, EstValue := 0, EstGrowth := 0, UpdatedAt := 0 }

/-- A holding of two shares at a NAV of one. -/
def sampleHolding : Holding :=
  { ID := 0, CreatedAt := 0, FundCode := "000001", FundName := "x", Shares := 2, Cost := 0,
    CostPrice := 0, CurrentNav := 1 }

/-- Valuation parameters whose largest multiplier has three decimals. -/
def tightValuation : ValuationParams :=
  { LowPE := 10, HighPE := 20, MaxMultiplier := 1.006, MinMultiplier := 0.5 }

/-- Moving-average parameters of period 3 with multipliers between 0.5 and
2. -/
def sampleMAParams : MADeviationParams :=
  { MAPeriod := 3, MaxMultiplier := 2, MinMultiplier := 0.5 }

/-- A newest-first history of three records. -/
def threeDayHistory : List NetValueHistory := [navPoint 1.0, navPoint 1.1, navPoint 1.2]

/-- A simulation result with nothing bought, over days 30 to 31. -/
def freshResult : InvestmentResult :=
  { TotalInvest := 0, TotalShares := 0, CurrentValue := 0, TotalProfit := 0, ProfitRate := 0,
    AnnualReturn := 0, InvestCount := 0, StartDate := 30 * nsPerDay, EndDate := 31 * nsPerDay,
    AvgCost := 0 }

/-! ## internal/service/calculator.go, continued -/

/-- The method `CalculatorService.CalculateCurrentProfit`: the pair
`(profit, profitRate)`; `none` is the nil-pointer panic on a nil holding. -/
def CalculateCurrentProfit (holding : Option Holding) : Option (ℚ × ℚ) := do
  let holding ← holding
  if holding.Cost = 0 then pure (0, 0)
  else
    let currentValue := holding.Shares * holding.CurrentNav
    let profit := currentValue - holding.Cost
    let profitRate := profit / holding.Cost * 100
    pure (profit, profitRate)

/-! ## internal/service/portfolio.go

The divisions of `Buy` and `Sell` are followed here one by one: a division by
zero does not panic in Go, it yields an infinity or a NaN, which no rational
number stands for. `quotient` is `none` there, and the operation then ends as
`Booking.notANumber`: the holding it hands to `SaveHolding` has a field that is
not a number. The transaction record that `Buy` and `Sell` save afterwards is
not part of the model. -/

/-- The float64 quotient `x / y`: `none` when `y` is zero. -/
def quotient (x y : ℚ) : Option ℚ := if y = 0 then none else some (x / y)

/-- How a bookkeeping operation ends: with an error before anything is
changed, with a holding handed to `repository.SaveHolding`, or with a holding
of which a field is an infinity or NaN. -/
inductive Booking where
  | rejected (err : String)
  | saved (holding : Holding)
  | notANumber
  deriving DecidableEq, Repr

/-- The outcome of an update that may have divided by zero. -/
def Booking.ofUpdate : Option Holding → Booking
  | some holding => Booking.saved holding
  | none => Booking.notANumber

/-- The method `PortfolioService.AddHolding`, given what
`repository.GetHoldingByFundCode(fundCode)` found (`none` for nil) and the
error of `repository.SaveHolding`. -/
def AddHolding (existing : Option Holding) (saveErr : Option String)
    (fundCode fundName : String) : Option Holding × Option String :=
  match existing with
  | some existing => (some existing, none)
  | none =>
    let holding : Holding :=
      { ID := 0, CreatedAt := 0, FundCode := fundCode, FundName := fundName, Shares := 0,
        Cost := 0, CostPrice := 0, CurrentNav := 0 }
    if saveErr ≠ none then (none, saveErr) else (some holding, none)

/-- The method `PortfolioService.Buy`, given the holding that
`repository.GetHoldingByFundCode(fundCode)` returned (`none` when it returned
an error). -/
def Buy (holding : Option Holding) (amount netValue fee : ℚ) : Booking :=
  match holding with
  | none => Booking.rejected "持仓不存在，请先添加持仓"
  | some holding => Booking.ofUpdate (do
    let actualAmount := amount - fee
    let shares ← quotient actualAmount netValue
    let holding := { holding with Shares := holding.Shares + shares }
    let holding := { holding with Cost := holding.Cost + amount }
    let holding ← if holding.Shares > (0 : ℚ) then do
        let costPrice ← quotient holding.Cost holding.Shares
        pure { holding with CostPrice := costPrice }
      else pure holding
    pure { holding with CurrentNav := netValue })

/-- The method `PortfolioService.Sell`, given the holding that
`repository.GetHoldingByFundCode(fundCode)` returned (`none` when it returned
an error). -/
def Sell (holding : Option Holding) (shares netValue _fee : ℚ) : Booking :=
  match holding with
  | none => Booking.rejected "持仓不存在"
  | some holding =>
    if holding.Shares < shares then Booking.rejected "卖出份额超过持有份额"
    else Booking.ofUpdate (do
      let costRatio ← quotient shares holding.Shares
      let holding := { holding with Cost := holding.Cost - holding.Cost * costRatio }
      let holding := { holding with Shares := holding.Shares - shares }
      let holding ← if holding.Shares > (0 : ℚ) then do
          let costPrice ← quotient holding.Cost holding.Shares
          pure { holding with CostPrice := costPrice }
        else pure { holding with CostPrice := 0 }
      pure { holding with CurrentNav := netValue })

/-! ### The holding in the repository

`Buy` and `Sell` end with `repository.SaveHolding(holding)`, and the next
operation reads the holding back with `repository.GetHoldingByFundCode`. The
database (SQLite, behind gorm) keeps a float64 column as it is written, except
a NaN: a NaN is stored as NULL, and a NULL column is read back as `0`. To say
what is read back, the arithmetic of `Buy` and `Sell` is followed below on
values that may be a NaN or an infinity: `0/0` is a NaN, `x/0` is an infinity
for `x ≠ 0`, an operation on a NaN gives a NaN, zero times an infinity is a
NaN, and a comparison with a NaN is false. The sign of an infinity is not
followed (it is the sign of a zero, which a rational number does not have): a
holding with an infinite field has no stored form here, `none`. -/

/-- A float64 that a division by zero may have produced: a number, a NaN, or an
infinity of either sign. -/
inductive Value where
  | num (x : ℚ)
  | nan
  | inf
  deriving DecidableEq, Repr

/-- The quotient `x / y` of two numbers. -/
def Value.quot (x y : ℚ) : Value :=
  if y = 0 then (if x = 0 then Value.nan else Value.inf) else Value.num (x / y)

/-- The product `x * v` of a number and a value. -/
def Value.scale (x : ℚ) : Value → Value
  | Value.num y => Value.num (x * y)
  | Value.nan => Value.nan
  | Value.inf => if x = 0 then Value.nan else Value.inf

/-- The difference `x - v` of a number and a value. -/
def Value.subFrom (x : ℚ) : Value → Value
  | Value.num y => Value.num (x - y)
  | Value.nan => Value.nan
  | Value.inf => Value.inf

/-- The sum `x + v` of a number and a value. -/
def Value.addTo (x : ℚ) : Value → Value
  | Value.num y => Value.num (x + y)
  | Value.nan => Value.nan
  | Value.inf => Value.inf

/-- The quotient `v / y` of a value by a number that is not zero. -/
def Value.over (v : Value) (y : ℚ) : Value :=
  match v with
  | Value.num x => Value.quot x y
  | Value.nan => Value.nan
  | Value.inf => Value.inf

/-- What is read back of a stored value: the number itself, `0` for a NaN
(stored as NULL), and no number for an infinity. -/
def Value.stored : Value → Option ℚ
  | Value.num x => some x
  | Value.nan => some 0
  | Value.inf => none

/-- The method `PortfolioService.Buy` followed by the next read of the holding:
what the repository holds after `Buy` on the holding it found, given the error
of `repository.SaveHolding` (on an error nothing is stored). -/
def BuyStored (holding : Holding) (saveErr : Option String) (amount netValue fee : ℚ) :
    Option Holding :=
  let actualAmount := amount - fee
  let shares := Value.quot actualAmount netValue
  let newShares := Value.addTo holding.Shares shares
  let newCost := holding.Cost + amount
  if saveErr ≠ none then some holding
  else
    match newShares with
    | Value.inf => none
    | Value.nan => some { holding with Shares := 0, Cost := newCost, CurrentNav := netValue }
    | Value.num s => do
      let costPrice ← if s > 0 then (Value.quot newCost s).stored else some holding.CostPrice
      pure { holding with Shares := s, Cost := newCost, CostPrice := costPrice,
                          CurrentNav := netValue }

/-- The method `PortfolioService.Sell` followed by the next read of the
holding: what the repository holds after `Sell` on the holding it found, given
the error of `repository.SaveHolding`. A rejected sale stores nothing. -/
def SellStored (holding : Holding) (saveErr : Option String) (shares netValue _fee : ℚ) :
    Option Holding :=
  if holding.Shares < shares then some holding
  else
    let costRatio := Value.quot shares holding.Shares
    let newCost := Value.subFrom holding.Cost (Value.scale holding.Cost costRatio)
    let newShares := holding.Shares - shares
    let costPrice := if newShares > 0 then Value.over newCost newShares else Value.num 0
    if saveErr ≠ none then some holding
    else do
      let cost ← newCost.stored
      let costPrice ← costPrice.stored
      pure { holding with Shares := newShares, Cost := cost, CostPrice := costPrice,
                          CurrentNav := netValue }

/-! ## internal/service/prediction.go, continued

The random draws are an input: `draws n` is what the `n`-th call of
`rand.NormFloat64()` returns, and a simulation carries the number of draws
made so far. -/

/-- The inner loop of `monteCarloSimulation`,
`for cumReturn < lossRate && day < 1000`, on fuel, from the draw position
`pos`: the position and the day count it ends with (`none`: out of fuel). -/
def recoveryTrial (draws : Nat → ℚ) (lossRate mean std : ℚ) :
    Nat → Nat → ℚ → Int → Option (Nat × Int)
  | 0, pos, cumReturn, day =>
    if cumReturn < lossRate ∧ day < 1000 then none else some (pos, day)
  | fuel + 1, pos, cumReturn, day =>
    if cumReturn < lossRate ∧ day < 1000 then
      let dailyReturn := draws pos * std + mean
      recoveryTrial draws lossRate mean std fuel (pos + 1) (cumReturn + dailyReturn) (day + 1)
    else some (pos, day)

/-- The method `PredictionService.monteCarloSimulation`: the pair
`(days, confidence)`; `none` is the panic of `make` on a negative capacity. -/
def monteCarloSimulation (draws : Nat → ℚ) (lossRate mean std : ℚ) (simulations : Int) :
    Option (Int × ℚ) :=
  if simulations < 0 then none else do
    let recoveryDays : List Int := []
    let (recoveryDays, _) ← forUp 0 simulations (fun _ (s : List Int × Nat) => do
      let (pos, day) ← recoveryTrial draws lossRate mean std 1000 s.2 0 0
      if day < 1000 then pure (s.1 ++ [day], pos) else pure (s.1, pos)) (recoveryDays, 0)
    if recoveryDays.length = 0 then pure (999, 0)
    else
      let sum := recoveryDays.foldl (fun sum d => sum + d) (0 : Int)
      let days := Int.tdiv sum recoveryDays.length
      let confidence := (recoveryDays.length : ℚ) / ((simulations : Int) : ℚ) * 100
      pure (days, confidence)

/-- The struct `ProbabilityResult`. -/
structure ProbabilityResult where
  Period : Int
  ProfitProb : ℚ
  ExpectedReturn : ℚ
  WorstCase : ℚ
  BestCase : ℚ
  deriving DecidableEq, Repr

/-- The loop `for d := 0; d < period; d++` of `CalculateProfitProbability`:
the cumulative return of `period` draws from the position `pos`, and the
position after them. -/
def periodReturn (draws : Nat → ℚ) (mean std : ℚ) (period : Int) (pos : Nat) :
    Option (ℚ × Nat) :=
  forUp 0 period (fun _ (c : ℚ × Nat) =>
    pure (c.1 + (draws c.2 * std + mean), c.2 + 1)) ((0 : ℚ), pos)

/-- The loop `for j := 0; j < 1000; j++` of `CalculateProfitProbability`: the
profit count, the 1000 cumulative returns and the draw position after them. -/
def periodTrials (draws : Nat → ℚ) (mean std : ℚ) (period : Int) (pos : Nat) :
    Option (Int × List ℚ × Nat) :=
  forUp 0 1000 (fun j (t : Int × List ℚ × Nat) => do
    let (cumReturn, pos) ← periodReturn draws mean std period t.2.2
    let returns ← setIdx t.2.1 j cumReturn
    let profitCount := if cumReturn > 0 then t.1 + 1 else t.1
    pure (profitCount, returns, pos)) ((0 : Int), make 1000, pos)

/-- The method `PredictionService.CalculateProfitProbability`, over
`math.Sqrt`, given what `repository.GetNetValueHistory(fundCode, 250)`
returned. -/
def CalculateProfitProbability (sqrt : ℚ → ℚ) (draws : Nat → ℚ)
    (histories : List NetValueHistory) (histErr : Option String) (periods : List Int) :
    Option (Option (List ProbabilityResult) × Option String) := do
  let (mean, std, err) ← calculateHistoricalReturn sqrt histories histErr
  if err ≠ none then pure (none, err)
  else do
    let results : List ProbabilityResult := List.replicate periods.length
      { Period := 0, ProfitProb := 0, ExpectedReturn := 0, WorstCase := 0, BestCase := 0 }
    let (results, _) ← forUp 0 periods.length
      (fun i (s : List ProbabilityResult × Nat) => do
        let period ← idx periods i
        let (profitCount, returns, pos) ← periodTrials draws mean std period s.2
        let r0 ← idx returns 0
        let (sum, minR, maxR) := returns.foldl (fun (a : ℚ × ℚ × ℚ) r =>
          (a.1 + r, (if r < a.2.1 then r else a.2.1), (if r > a.2.2 then r else a.2.2)))
          ((0 : ℚ), r0, r0)
        let results ← setIdx s.1 i
          { Period := period, ProfitProb := ((profitCount : Int) : ℚ) / 10,
            ExpectedReturn := sum / 1000, WorstCase := minR, BestCase := maxR }
        pure (results, pos)) (results, 0)
    pure (some results, none)

/-! ## internal/service/alert.go -/

/-- The struct `model.AlertRule`; `LastTriggered` is an instant. -/
structure AlertRule where
  ID : Nat
  FundCode : String
  FundName : String
  AlertType : String
  Threshold : ℚ
  Direction : String
  ConsecutiveDays : Int
  Enabled : Bool
  LastTriggered : Int
  deriving DecidableEq, Repr

/-- The struct `model.AlertHistory`; `TriggeredAt` is an instant. -/
structure AlertHistory where
  RuleID : Nat
  FundCode : String
  FundName : String
  AlertType : String
  Message : String
  Value : ℚ
  TriggeredAt : Int
  IsRead : Bool
  deriving DecidableEq, Repr

/-- The constant `AlertTypeConsecutive`. -/
def AlertTypeConsecutive : String := "consecutive"

/-- The method `AlertService.checkConsecutiveAlert`, at the instant `now`,
given what `repository.GetNetValueHistory(rule.FundCode,
rule.ConsecutiveDays+1)` returned: the inner `none` is the nil result, the
outer `none` a panic. -/
def checkConsecutiveAlert (now : Int) (rule : Option AlertRule)
    (histories : List NetValueHistory) (err : Option String) : Option (Option AlertHistory) := do
  let rule ← rule
  if err ≠ none ∨ (histories.length : Int) < rule.ConsecutiveDays then pure none
  else do
    let (upCount, downCount) ← forUp 0 ((histories.length : Int) - 1)
      (fun i (s : Int × Int) => do
        let h ← idx histories i
        if h.DayGrowth > 0 then pure (s.1 + 1, s.2)
        else do
          let h' ← idx histories i
          if h'.DayGrowth < 0 then pure (s.1, s.2 + 1) else pure s) ((0 : Int), (0 : Int))
    let (triggered, message) :=
      if rule.Direction = "up" ∧ upCount ≥ rule.ConsecutiveDays then
        (true, rule.FundName ++ " 连涨" ++ toString upCount ++ "天")
      else if rule.Direction = "down" ∧ downCount ≥ rule.ConsecutiveDays then
        (true, rule.FundName ++ " 连跌" ++ toString downCount ++ "天")
      else (false, "")
    if !triggered then pure none
    else pure (some
      { RuleID := rule.ID, FundCode := rule.FundCode, FundName := rule.FundName,
        AlertType := AlertTypeConsecutive, Message := message, Value := ((upCount : Int) : ℚ),
        TriggeredAt := now, IsRead := false })

/-! ## Reference definitions for the holding, prediction, drawdown and alert
claims -/

/-- The holding invariant: shares and cost are not negative, the cost price is
`Cost/Shares` on a holding with shares, and `0` on one without. -/
def holdingInv (h : Holding) : Prop :=
  0 ≤ h.Shares ∧ 0 ≤ h.Cost ∧ (0 < h.Shares → h.CostPrice = h.Cost / h.Shares) ∧
    (h.Shares = 0 → h.CostPrice = 0)

/-- The cumulative return after `d` days of a trial that starts at the draw
position `pos`: the sum of the daily returns `draw*std + mean`. -/
def cumReturn (draws : Nat → ℚ) (mean std : ℚ) (pos d : Nat) : ℚ :=
  ((List.range d).map fun (k : Nat) => draws (pos + k) * std + mean).sum

/-- The trial that starts at the draw position `pos` ends after `d` days: the
cumulative return is below the threshold on every day before `d`, `d` is at
most 1000, and on day `d` the threshold is reached unless `d` is 1000. -/
def trialEnds (draws : Nat → ℚ) (lossRate mean std : ℚ) (pos d : Nat) : Prop :=
  d ≤ 1000 ∧ (∀ j : Nat, j < d → cumReturn draws mean std pos j < lossRate) ∧
    (d < 1000 → lossRate ≤ cumReturn draws mean std pos d)

/-- The 1000 cumulative returns of a horizon of `period` days whose first
trial starts at the draw position `pos`: trial `j` uses the `period` draws from
`pos + j*period` on. -/
def trialReturns (draws : Nat → ℚ) (mean std : ℚ) (pos : Nat) (period : Int) : List ℚ :=
  (List.range 1000).map fun (j : Nat) =>
    cumReturn draws mean std (pos + j * period.toNat) period.toNat

/-- The draw position at which the horizon `k` of a list of horizons starts:
each horizon before it has made 1000 times its number of days of draws. -/
def horizonStart (periods : List Int) (k : Nat) : Nat :=
  1000 * ((periods.take k).map Int.toNat).sum

/-- The record `r` reports the horizon `period` over the cumulative returns
`R`: the share of positive ones in percent, their mean, their least and their
greatest. -/
def horizonStats (r : ProbabilityResult) (period : Int) (R : List ℚ) : Prop :=
  r.Period = period ∧
    r.ProfitProb = 100 * ((R.filter (fun x => 0 < x)).length : ℚ) / 1000 ∧
    r.ExpectedReturn = R.sum / 1000 ∧
    (r.WorstCase ∈ R ∧ ∀ x ∈ R, r.WorstCase ≤ x) ∧ (r.BestCase ∈ R ∧ ∀ x ∈ R, x ≤ r.BestCase)

/-- The median of a list of day counts: the middle one of the sorted list, and
the mean of the two middle ones when their number is even. -/
def medianSpec (days : List Int) : ℚ :=
  let sorted := days.insertionSort (· ≤ ·)
  if sorted.length % 2 = 1 then ((sorted.getD (sorted.length / 2) 0 : Int) : ℚ)
  else ((sorted.getD (sorted.length / 2 - 1) 0 + sorted.getD (sorted.length / 2) 0 : Int) : ℚ) / 2

/-- The drawdown from the older point `v[j]` to the later point `v[i]` of a
newest-first series, in percent. -/
def pairDrawdown (v : List ℚ) (i j : Nat) : ℚ := (nth v j - nth v i) / nth v j * 100

/-- The naive maximum drawdown of a newest-first series: the greatest of `0`
and of the drawdowns over all pairs of positions `i < j`. -/
def pairwiseDrawdown (v : List ℚ) : ℚ :=
  ((List.range v.length).flatMap fun (j : Nat) =>
    (List.range j).map fun (i : Nat) => pairDrawdown v i j).foldr max 0

/-! ## Concrete inputs, continued -/

/-- The holding of the specification's scenario: 100 shares that cost 1000, at
a net value of 12. -/
def scenarioHolding : Holding :=
  { ID := 0, CreatedAt := 0, FundCode := "000001", FundName := "x", Shares := 100, Cost := 1000,
    CostPrice := 10, CurrentNav := 12 }

/-- A holding of 100 shares that cost nothing, at a net value of 12. -/
def giftedHolding : Holding :=
  { ID := 0, CreatedAt := 0, FundCode := "000001", FundName := "x", Shares := 100, Cost := 0,
    CostPrice := 0, CurrentNav := 12 }

/-- The holding that `AddHolding` creates: no shares, no cost. -/
def emptyHolding : Holding :=
  { ID := 0, CreatedAt := 0, FundCode := "000001", FundName := "x", Shares := 0, Cost := 0,
    CostPrice := 0, CurrentNav := 0 }

/-- A holding without shares whose cost is 5, as `Buy` leaves it after an
amount of 5 with a fee of 5. -/
def feeOnlyHolding : Holding := { emptyHolding with Cost := 5, CurrentNav := 1 }

/-- A sequence of draws: `0` at the positions 2, 3 and 4, and `1` elsewhere. -/
def sampleDraws : Nat → ℚ := fun n => if n = 2 ∨ n = 3 ∨ n = 4 then 0 else 1

/-- A rule that asks for two rising days in a row. -/
def twoUpRule : AlertRule :=
  { ID := 1, FundCode := "000001", FundName := "x", AlertType := "consecutive", Threshold := 0,
    Direction := "up", ConsecutiveDays := 2, Enabled := true, LastTriggered := 0 }

/-- A history record with the given day growth. -/
def growthPoint (g : ℚ) : NetValueHistory := { navPoint 1 with DayGrowth := g }

/-- A newest-first history whose net value falls from `1` to `2^-40` and then
rises to `2^40`. -/
def hugeHistory : List NetValueHistory :=
  [navPoint (2 ^ 40), navPoint (1 / 2 ^ 40), navPoint 1]

/-! ## Slices and loops: basic facts -/

theorem idx_natCast {α : Type} (a : List α) (n : Nat) : idx a (n : Int) = a.get? n := by
  simp [idx]

theorem idx_of_neg {α : Type} (a : List α) (i : Int) (h : i < 0) : idx a i = none := by
  simp [idx, not_le.mpr h]

theorem idx_eq_none_of_le {α : Type} (a : List α) (i : Int) (h : (a.length : Int) ≤ i) :
    idx a i = none := by
  have h0 : 0 ≤ i := le_trans (Int.natCast_nonneg _) h
  lift i to Nat using h0
  rw [idx_natCast]
  exact List.get?_eq_none.mpr (by exact_mod_cast h)

theorem idx_isSome {α : Type} (a : List α) (i : Int) :
    (idx a i).isSome = true ↔ 0 ≤ i ∧ i < a.length := by
  constructor
  · intro h
    by_contra hc
    rw [not_and_or, not_le, not_lt] at hc
    rcases hc with hc | hc
    · rw [idx_of_neg a i hc] at h; simp at h
    · rw [idx_eq_none_of_le a i hc] at h; simp at h
  · rintro ⟨h0, h1⟩
    lift i to Nat using h0
    rw [idx_natCast]
    have h1' : i < a.length := by exact_mod_cast h1
    simp [List.getElem?_eq_getElem h1']

theorem idx_eq_nth (a : List ℚ) (i : Int) (h0 : 0 ≤ i) (h1 : i < a.length) :
    idx a i = some (nth a i) := by
  have h := (idx_isSome a i).mpr ⟨h0, h1⟩
  obtain ⟨v, hv⟩ := Option.isSome_iff_exists.mp h
  simp [nth, hv]

theorem nth_natCast (a : List ℚ) (n : Nat) : nth a (n : Int) = a.getD n 0 := by
  simp [nth, idx_natCast, List.getD_eq_getElem?_getD]

theorem setIdx_eq {α : Type} (a : List α) (i : Int) (v : α) (h0 : 0 ≤ i) (h1 : i < a.length) :
    setIdx a i v = some (a.set i.toNat v) := by
  simp [setIdx, h0, h1]

theorem nth_make (n : Nat) (i : Int) : nth (make n) i = 0 := by
  unfold nth idx make
  split
  · cases h : (List.replicate n (0 : ℚ)).get? i.toNat with
    | none => rfl
    | some v =>
      have := List.get?_eq_some.mp h
      obtain ⟨_, hv⟩ := this
      simp at hv
      simp [hv]
  · rfl

theorem length_make (n : Nat) : (make n).length = n := by simp [make]

theorem nth_set_self (a : List ℚ) (i : Int) (v : ℚ) (h0 : 0 ≤ i) (h1 : i < a.length) :
    nth (a.set i.toNat v) i = v := by
  lift i to Nat using h0
  have h1' : i < a.length := by exact_mod_cast h1
  simp [nth, idx_natCast, h1']

theorem nth_set_ne (a : List ℚ) (i k : Int) (v : ℚ) (h0 : 0 ≤ i) (hne : i ≠ k) :
    nth (a.set i.toNat v) k = nth a k := by
  by_cases hk : 0 ≤ k
  · lift i to Nat using h0
    lift k to Nat using hk
    have hne' : i ≠ k := by intro h; exact hne (by rw [h])
    simp [nth, idx_natCast, List.getElem?_set_ne hne']
  · simp [nth, idx, hk]

theorem forUpAux_inv {σ : Type} (I : Int → σ → Prop) (body : Int → σ → Option σ) :
    ∀ (n : Nat) (j : Int) (s : σ), I j s →
      (∀ k t, j ≤ k → k < j + n → I k t → ∃ t', body k t = some t' ∧ I (k + 1) t') →
      ∃ s', forUpAux body n j s = some s' ∧ I (j + n) s' := by
  intro n
  induction n with
  | zero => intro j s h _; exact ⟨s, rfl, by simpa using h⟩
  | succ n ih =>
    intro j s h hstep
    obtain ⟨t, ht, hI⟩ := hstep j s le_rfl (by push_cast; omega) h
    obtain ⟨s', hs', hI'⟩ := ih (j + 1) t hI (fun k u hk1 hk2 hu =>
      hstep k u (by omega) (by push_cast; omega) hu)
    refine ⟨s', ?_, ?_⟩
    · simp [forUpAux, ht, hs']
    · have : j + ((n + 1 : Nat) : Int) = j + 1 + n := by push_cast; ring
      rw [this]; exact hI'

/-- The invariant rule of a counting loop: total correctness. -/
theorem forUp_inv {σ : Type} (I : Int → σ → Prop) (lo hi : Int) (body : Int → σ → Option σ)
    (s : σ) (hle : lo ≤ hi) (h0 : I lo s)
    (hstep : ∀ j t, lo ≤ j → j < hi → I j t → ∃ t', body j t = some t' ∧ I (j + 1) t') :
    ∃ s', forUp lo hi body s = some s' ∧ I hi s' := by
  have hn : lo + ((hi - lo).toNat : Int) = hi := by
    rw [Int.toNat_of_nonneg (by omega)]; ring
  obtain ⟨s', hs', hI⟩ := forUpAux_inv I body (hi - lo).toNat lo s h0
    (fun k t h1 h2 ht => hstep k t h1 (by omega) ht)
  exact ⟨s', hs', by rwa [hn] at hI⟩

theorem forUp_of_le {σ : Type} (lo hi : Int) (body : Int → σ → Option σ) (s : σ)
    (h : hi ≤ lo) : forUp lo hi body s = some s := by
  have : (hi - lo).toNat = 0 := by omega
  simp [forUp, this, forUpAux]

/-! ## CalculateEMA -/

theorem emaSum_eq (prices : List ℚ) (period : Int) (h0 : 0 ≤ period)
    (h1 : period ≤ prices.length) :
    forUp 0 period (fun j sum => do
      let p ← idx prices j
      pure (sum + p)) (0 : ℚ) = some ((prices.take period.toNat).sum) := by
  obtain ⟨s, hs, -, hI⟩ := forUp_inv (fun j (s : ℚ) => 0 ≤ j ∧ s = (prices.take j.toNat).sum)
    0 period (fun j sum => do
      let p ← idx prices j
      pure (sum + p)) 0 h0 (by simp) (by
    rintro j t hj0 hj1 ⟨-, ht⟩
    lift j to Nat using hj0
    have hj : j < prices.length := by exact_mod_cast lt_of_lt_of_le hj1 h1
    refine ⟨t + prices[j], ?_, by omega, ?_⟩
    · simp [idx_natCast, List.getElem?_eq_getElem hj]
    · have : ((j : Int) + 1).toNat = j + 1 := by omega
      rw [this, List.sum_take_succ _ _ hj, ht]
      simp)
  rw [hs, hI]

theorem emaLoop_spec (prices : List ℚ) (period : Int) (m seed : ℚ) (hp : 1 ≤ period)
    (hlen : period ≤ prices.length) :
    ∃ e, forUp period prices.length (fun j ema => do
        let pj ← idx prices j
        let e1 ← idx ema (j - 1)
        setIdx ema j ((pj - e1) * m + e1))
        ((make prices.length).set (period - 1).toNat seed) = some e ∧
      e.length = prices.length ∧
      (∀ i : Int, i < period - 1 → nth e i = 0) ∧ nth e (period - 1) = seed ∧
      ∀ k : Int, period ≤ k → k < prices.length →
        nth e k = (nth prices k - nth e (k - 1)) * m + nth e (k - 1) := by
  obtain ⟨e, he, hI⟩ := forUp_inv
    (fun j (e : List ℚ) => e.length = prices.length ∧
      (∀ i : Int, i < period - 1 → nth e i = 0) ∧ nth e (period - 1) = seed ∧
      ∀ k : Int, period ≤ k → k < j →
        nth e k = (nth prices k - nth e (k - 1)) * m + nth e (k - 1))
    period prices.length (fun j ema => do
      let pj ← idx prices j
      let e1 ← idx ema (j - 1)
      setIdx ema j ((pj - e1) * m + e1))
    ((make prices.length).set (period - 1).toNat seed) hlen
    (by
      refine ⟨by simp [length_make], ?_, ?_, ?_⟩
      · intro i hi
        rw [nth_set_ne _ _ _ _ (by omega) (by omega), nth_make]
      · exact nth_set_self _ _ _ (by omega) (by rw [length_make]; omega)
      · intro k hk1 hk2; omega)
    (by
      rintro j t hj0 hj1 ⟨hl, hz, hs, hr⟩
      refine ⟨t.set j.toNat ((nth prices j - nth t (j - 1)) * m + nth t (j - 1)), ?_, ?_⟩
      · show (idx prices j).bind (fun pj => (idx t (j - 1)).bind fun e1 =>
          setIdx t j ((pj - e1) * m + e1)) = _
        rw [idx_eq_nth prices j (by omega) hj1,
          idx_eq_nth t (j - 1) (by omega) (by rw [hl]; omega)]
        exact setIdx_eq _ _ _ (by omega) (by rw [hl]; omega)
      · refine ⟨by simp [hl], ?_, ?_, ?_⟩
        · intro i hi
          rw [nth_set_ne _ _ _ _ (by omega) (by omega)]; exact hz i hi
        · rw [nth_set_ne _ _ _ _ (by omega) (by omega)]; exact hs
        · intro k hk1 hk2
          by_cases hkj : k = j
          · subst hkj
            rw [nth_set_self _ _ _ (by omega) (by rw [hl]; omega),
              nth_set_ne _ _ _ _ (by omega) (by omega)]
          · rw [nth_set_ne _ _ _ _ (by omega) (fun h => hkj h.symm),
              nth_set_ne _ _ _ _ (by omega) (by omega)]
            exact hr k hk1 (by omega))
  exact ⟨e, he, hI⟩

/-- What `CalculateEMA` returns on sufficient data. -/
theorem CalculateEMA_char (prices : List ℚ) (period : Int) (hp : 1 ≤ period)
    (hlen : period ≤ prices.length) :
    ∃ e, CalculateEMA prices period = some (some e) ∧ e.length = prices.length ∧
      (∀ i : Int, i < period - 1 → nth e i = 0) ∧
      nth e (period - 1) = (prices.take period.toNat).sum / (period : ℚ) ∧
      ∀ j : Int, period ≤ j → j < prices.length →
        nth e j = (nth prices j - nth e (j - 1)) * (2 / ((period : ℚ) + 1)) + nth e (j - 1) := by
  have hset : setIdx (make prices.length) (period - 1)
      ((prices.take period.toNat).sum / ((period : Int) : ℚ))
      = some ((make prices.length).set (period - 1).toNat
        ((prices.take period.toNat).sum / ((period : Int) : ℚ))) :=
    setIdx_eq _ _ _ (by omega) (by rw [length_make]; omega)
  obtain ⟨e, he, hl, hz, hs, hr⟩ := emaLoop_spec prices period (2 / ((period + 1 : Int) : ℚ))
    ((prices.take period.toNat).sum / ((period : Int) : ℚ)) hp hlen
  refine ⟨e, ?_, hl, hz, hs, ?_⟩
  · have hsum := emaSum_eq prices period (by omega) hlen
    have hnot : ¬ ((prices.length : Int) < period) := by omega
    unfold CalculateEMA
    rw [if_neg hnot]
    simp only [Option.bind_eq_bind, Option.pure_def] at hsum he ⊢
    simp only [hsum, hset, he, Option.some_bind]
  · intro j hj1 hj2
    rw [hr j hj1 hj2]
    push_cast
    ring

/-! ## CalculateRSI -/

theorem rsiGainLoss_spec (prices : List ℚ) (hlen : 1 ≤ prices.length) :
    ∃ g l, forUp 1 prices.length (fun j (gl : List ℚ × List ℚ) => do
      let pj ← idx prices j
      let pj1 ← idx prices (j - 1)
      let change := pj - pj1
      if change > 0 then do
        let g ← setIdx gl.1 j change
        pure (g, gl.2)
      else do
        let l ← setIdx gl.2 j (-change)
        pure (gl.1, l)) (make prices.length, make prices.length) = some (g, l) ∧
      g.length = prices.length ∧ l.length = prices.length ∧
      ∀ k : Int, 1 ≤ k → k < prices.length →
        nth g k = gainSpec prices k ∧ nth l k = lossSpec prices k := by
  obtain ⟨⟨g, l⟩, he, hI⟩ := forUp_inv
    (fun j (gl : List ℚ × List ℚ) => gl.1.length = prices.length ∧
      gl.2.length = prices.length ∧
      (∀ i : Int, j ≤ i → nth gl.1 i = 0 ∧ nth gl.2 i = 0) ∧
      ∀ k : Int, 1 ≤ k → k < j →
        nth gl.1 k = gainSpec prices k ∧ nth gl.2 k = lossSpec prices k)
    1 prices.length (fun j (gl : List ℚ × List ℚ) => do
      let pj ← idx prices j
      let pj1 ← idx prices (j - 1)
      let change := pj - pj1
      if change > 0 then do
        let g ← setIdx gl.1 j change
        pure (g, gl.2)
      else do
        let l ← setIdx gl.2 j (-change)
        pure (gl.1, l)) (make prices.length, make prices.length) (by omega)
    (by
      refine ⟨length_make _, length_make _, ?_, ?_⟩
      · intro i _; exact ⟨nth_make _ _, nth_make _ _⟩
      · intro k hk1 hk2; omega)
    (by
      rintro j ⟨g, l⟩ hj0 hj1 ⟨hg, hl, hz, hr⟩
      simp only at hg hl hz hr
      have h1 := idx_eq_nth prices j (by omega) hj1
      have h2 := idx_eq_nth prices (j - 1) (by omega) (by omega)
      have h3 := fun v => setIdx_eq g j v (by omega) (by rw [hg]; omega)
      have h4 := fun v => setIdx_eq l j v (by omega) (by rw [hl]; omega)
      by_cases hc : nth prices j - nth prices (j - 1) > 0
      · refine ⟨(g.set j.toNat (nth prices j - nth prices (j - 1)), l), ?_, ?_⟩
        · simp only [Option.bind_eq_bind, Option.pure_def, h1, h2, h3, Option.some_bind,
            if_pos hc]
        · refine ⟨by simp [hg], hl, ?_, ?_⟩
          · intro i hi
            rw [nth_set_ne _ _ _ _ (by omega) (by omega)]
            exact ⟨(hz i (by omega)).1, (hz i (by omega)).2⟩
          · intro k hk1 hk2
            by_cases hkj : k = j
            · subst hkj
              rw [nth_set_self _ _ _ (by omega) (by rw [hg]; omega), (hz k le_rfl).2]
              constructor
              · rw [gainSpec, max_eq_left (le_of_lt hc)]
              · rw [lossSpec, max_eq_right (by linarith)]
            · rw [nth_set_ne _ _ _ _ (by omega) (fun h => hkj h.symm)]
              exact hr k hk1 (by omega)
      · refine ⟨(g, l.set j.toNat (-(nth prices j - nth prices (j - 1)))), ?_, ?_⟩
        · simp only [Option.bind_eq_bind, Option.pure_def, h1, h2, h4, Option.some_bind,
            if_neg hc]
        · refine ⟨hg, by simp [hl], ?_, ?_⟩
          · intro i hi
            rw [nth_set_ne _ _ _ _ (by omega) (by omega)]
            exact ⟨(hz i (by omega)).1, (hz i (by omega)).2⟩
          · intro k hk1 hk2
            by_cases hkj : k = j
            · subst hkj
              rw [nth_set_self _ _ _ (by omega) (by rw [hl]; omega), (hz k le_rfl).1]
              constructor
              · rw [gainSpec, max_eq_right (le_of_not_lt hc)]
              · rw [lossSpec, max_eq_left (by linarith)]; ring
            · rw [nth_set_ne _ _ _ _ (by omega) (fun h => hkj h.symm)]
              exact hr k hk1 (by omega))
  exact ⟨g, l, he, hI.1, hI.2.1, hI.2.2.2⟩

theorem rsiSeed_spec (g l : List ℚ) (period : Int) (hp : 0 ≤ period)
    (hg : period < g.length) (hl : period < l.length) :
    forUp 1 (period + 1) (fun j (s : ℚ × ℚ) => do
      let a ← idx g j
      let b ← idx l j
      pure (s.1 + a, s.2 + b)) ((0 : ℚ), (0 : ℚ)) =
    some (((List.range period.toNat).map fun (i : Nat) => nth g ((i : Int) + 1)).sum,
      ((List.range period.toNat).map fun (i : Nat) => nth l ((i : Int) + 1)).sum) := by
  obtain ⟨s, hs, -, hI⟩ := forUp_inv
    (fun j (s : ℚ × ℚ) => 1 ≤ j ∧
      s = (((List.range (j - 1).toNat).map fun (i : Nat) => nth g ((i : Int) + 1)).sum,
        ((List.range (j - 1).toNat).map fun (i : Nat) => nth l ((i : Int) + 1)).sum))
    1 (period + 1) (fun j (s : ℚ × ℚ) => do
      let a ← idx g j
      let b ← idx l j
      pure (s.1 + a, s.2 + b)) ((0 : ℚ), (0 : ℚ)) (by omega) (by simp)
    (by
      rintro j t hj0 hj1 ⟨-, ht⟩
      have h1 := idx_eq_nth g j (by omega) (by omega)
      have h2 := idx_eq_nth l j (by omega) (by omega)
      refine ⟨(t.1 + nth g j, t.2 + nth l j), ?_, by omega, ?_⟩
      · simp only [Option.bind_eq_bind, Option.pure_def, h1, h2, Option.some_bind]
      · have hn : (j + 1 - 1).toNat = (j - 1).toNat + 1 := by omega
        have hc : (((j - 1).toNat : Int) + 1) = j := by omega
        rw [hn, List.range_succ, List.map_append, List.sum_append, List.map_append,
          List.sum_append, ht]
        simp only [List.map_cons, List.map_nil, List.sum_cons, List.sum_nil, add_zero, hc])
  rw [hs, hI]
  simp

theorem wilderAvg_congr (x y : Int → ℚ) (period : Int) (hp : 0 ≤ period) :
    ∀ n : Nat, (∀ k : Int, 1 ≤ k → k ≤ period + n → x k = y k) →
      wilderAvg x period n = wilderAvg y period n := by
  intro n
  induction n with
  | zero =>
    intro h
    simp only [wilderAvg]
    congr 2
    apply List.map_congr_left
    intro i hi
    have hi' := List.mem_range.mp hi
    exact h _ (by omega) (by push_cast; omega)
  | succ n ih =>
    intro h
    simp only [wilderAvg]
    rw [ih (fun k h1 h2 => h k h1 (by push_cast; omega)),
      h (period + n + 1) (by omega) (by push_cast; omega)]

theorem rsiLoop_spec (g l : List ℚ) (period : Int) (len : Nat) (v0 : ℚ) (hp : 1 ≤ period)
    (hlen : period + 1 ≤ len) (hg : g.length = len) (hl : l.length = len) :
    ∃ a b r, forUp (period + 1) len
      (fun j (s : ℚ × ℚ × List ℚ) => do
        let x ← idx g j
        let avgGain := (s.1 * ((period - 1 : Int) : ℚ) + x) / ((period : Int) : ℚ)
        let y ← idx l j
        let avgLoss := (s.2.1 * ((period - 1 : Int) : ℚ) + y) / ((period : Int) : ℚ)
        let rsi ← if avgLoss = 0 then setIdx s.2.2 j 100
          else setIdx s.2.2 j (100 - 100 / (1 + avgGain / avgLoss))
        pure (avgGain, avgLoss, rsi))
      (wilderAvg (nth g) period 0, wilderAvg (nth l) period 0,
        (make len).set period.toNat v0) = some (a, b, r) ∧
      r.length = len ∧ (∀ i : Int, i < period → nth r i = 0) ∧ nth r period = v0 ∧
      ∀ n : Nat, period + (n + 1 : Nat) < len →
        nth r (period + (n + 1 : Nat)) =
          rsiValue (wilderAvg (nth g) period (n + 1)) (wilderAvg (nth l) period (n + 1)) := by
  obtain ⟨⟨a, b, r⟩, he, hI⟩ := forUp_inv
    (fun j (s : ℚ × ℚ × List ℚ) =>
      s.1 = wilderAvg (nth g) period (j - period - 1).toNat ∧
      s.2.1 = wilderAvg (nth l) period (j - period - 1).toNat ∧
      s.2.2.length = len ∧ (∀ i : Int, i < period → nth s.2.2 i = 0) ∧
      nth s.2.2 period = v0 ∧
      ∀ n : Nat, period + (n + 1 : Nat) < j →
        nth s.2.2 (period + (n + 1 : Nat)) =
          rsiValue (wilderAvg (nth g) period (n + 1)) (wilderAvg (nth l) period (n + 1)))
    (period + 1) len
    (fun j (s : ℚ × ℚ × List ℚ) => do
        let x ← idx g j
        let avgGain := (s.1 * ((period - 1 : Int) : ℚ) + x) / ((period : Int) : ℚ)
        let y ← idx l j
        let avgLoss := (s.2.1 * ((period - 1 : Int) : ℚ) + y) / ((period : Int) : ℚ)
        let rsi ← if avgLoss = 0 then setIdx s.2.2 j 100
          else setIdx s.2.2 j (100 - 100 / (1 + avgGain / avgLoss))
        pure (avgGain, avgLoss, rsi))
    (wilderAvg (nth g) period 0, wilderAvg (nth l) period 0, (make len).set period.toNat v0)
    hlen
    (by
      have h0 : (period + 1 - period - 1).toNat = 0 := by omega
      refine ⟨by rw [h0], by rw [h0], by simp [length_make], ?_, ?_, ?_⟩
      · intro i hi
        rw [nth_set_ne _ _ _ _ (by omega) (by omega), nth_make]
      · exact nth_set_self _ _ _ (by omega) (by rw [length_make]; omega)
      · intro n hn; exfalso; push_cast at hn; omega)
    (by
      rintro j ⟨a, b, r⟩ hj0 hj1 ⟨ha, hb, hr, hz, hv, hrec⟩
      simp only at ha hb hr hz hv hrec
      have h1 := idx_eq_nth g j (by omega) (by rw [hg]; omega)
      have h2 := idx_eq_nth l j (by omega) (by rw [hl]; omega)
      have h3 := fun v => setIdx_eq r j v (by omega) (by rw [hr]; omega)
      have hn : (j + 1 - period - 1).toNat = (j - period - 1).toNat + 1 := by omega
      have hj : period + ((j - period - 1).toNat : Int) + 1 = j := by omega
      have ha' : (a * ((period - 1 : Int) : ℚ) + nth g j) / ((period : Int) : ℚ)
          = wilderAvg (nth g) period ((j - period - 1).toNat + 1) := by
        simp only [wilderAvg]; rw [hj, ha]; push_cast; rfl
      have hb' : (b * ((period - 1 : Int) : ℚ) + nth l j) / ((period : Int) : ℚ)
          = wilderAvg (nth l) period ((j - period - 1).toNat + 1) := by
        simp only [wilderAvg]; rw [hj, hb]; push_cast; rfl
      refine ⟨((a * ((period - 1 : Int) : ℚ) + nth g j) / ((period : Int) : ℚ),
        (b * ((period - 1 : Int) : ℚ) + nth l j) / ((period : Int) : ℚ),
        r.set j.toNat (rsiValue ((a * ((period - 1 : Int) : ℚ) + nth g j) / ((period : Int) : ℚ))
          ((b * ((period - 1 : Int) : ℚ) + nth l j) / ((period : Int) : ℚ)))), ?_, ?_⟩
      · simp only [Option.bind_eq_bind, Option.pure_def, h1, h2, h3, Option.some_bind,
          rsiValue]
        split_ifs <;> rfl
      · simp only
        refine ⟨by rw [hn, ha'], by rw [hn, hb'], by simp [hr], ?_, ?_, ?_⟩
        · intro i hi
          rw [nth_set_ne _ _ _ _ (by omega) (by omega)]; exact hz i hi
        · rw [nth_set_ne _ _ _ _ (by omega) (by omega)]; exact hv
        · intro n hn'
          by_cases hnj : period + ((n + 1 : Nat) : Int) = j
          · rw [hnj, nth_set_self _ _ _ (by omega) (by rw [hr]; omega), ha', hb']
            have : (j - period - 1).toNat = n := by push_cast at hnj; omega
            rw [this]
          · rw [nth_set_ne _ _ _ _ (by omega) (fun h => hnj h.symm)]
            exact hrec n (by omega))
  exact ⟨a, b, r, he, hI.2.2.1, hI.2.2.2.1, hI.2.2.2.2.1, hI.2.2.2.2.2⟩

/-- What `CalculateRSI` returns on sufficient data. -/
theorem CalculateRSI_char (prices : List ℚ) (period : Int) (hp : 1 ≤ period)
    (hlen : period + 1 ≤ prices.length) :
    ∃ r, CalculateRSI prices period = some (some r) ∧ r.length = prices.length ∧
      (∀ i : Int, i < period → nth r i = 0) ∧
      ∀ n : Nat, period + n < prices.length → nth r (period + n) = rsiSpec prices period n := by
  obtain ⟨g, l, hgl, hg, hl, hk⟩ := rsiGainLoss_spec prices (by omega)
  have hseed := rsiSeed_spec g l period (by omega) (by rw [hg]; omega) (by rw [hl]; omega)
  have hwg : ∀ n : Nat, period + n < prices.length →
      wilderAvg (nth g) period n = wilderAvg (gainSpec prices) period n := fun n hn =>
    wilderAvg_congr _ _ period (by omega) n (fun k h1 h2 => (hk k h1 (by omega)).1)
  have hwl : ∀ n : Nat, period + n < prices.length →
      wilderAvg (nth l) period n = wilderAvg (lossSpec prices) period n := fun n hn =>
    wilderAvg_congr _ _ period (by omega) n (fun k h1 h2 => (hk k h1 (by omega)).2)
  obtain ⟨a, b, r, hloop, hr, hz, hv, hrec⟩ := rsiLoop_spec g l period prices.length
    (rsiValue (wilderAvg (nth g) period 0) (wilderAvg (nth l) period 0)) hp hlen hg hl
  have hset : (if wilderAvg (nth l) period 0 = 0 then setIdx (make prices.length) period 100
      else setIdx (make prices.length) period
        (100 - 100 / (1 + wilderAvg (nth g) period 0 / wilderAvg (nth l) period 0)))
      = some ((make prices.length).set period.toNat
        (rsiValue (wilderAvg (nth g) period 0) (wilderAvg (nth l) period 0))) := by
    rw [rsiValue]
    split_ifs
    · exact setIdx_eq _ _ _ (by omega) (by rw [length_make]; omega)
    · exact setIdx_eq _ _ _ (by omega) (by rw [length_make]; omega)
  refine ⟨r, ?_, hr, hz, ?_⟩
  · have hnot : ¬ ((prices.length : Int) < period + 1) := by omega
    unfold CalculateRSI
    rw [if_neg hnot]
    simp only [wilderAvg] at hloop hset
    simp only [Option.bind_eq_bind, Option.pure_def] at hgl hseed hloop ⊢
    simp only [hgl, hseed, Option.some_bind]
    by_cases hc : ((List.range period.toNat).map fun (i : Nat) => nth l ((i : Int) + 1)).sum
        / (period : ℚ) = 0
    · simp only [if_pos hc] at hset ⊢
      simp only [hset, hloop, Option.some_bind]
    · simp only [if_neg hc] at hset ⊢
      simp only [hset, hloop, Option.some_bind]
  · intro n hn
    have e1 := hwg n hn
    have e2 := hwl n hn
    cases n with
    | zero =>
      simp only [Nat.cast_zero, add_zero] at hn ⊢
      rw [hv, e1, e2]; rfl
    | succ n =>
      rw [hrec n hn, e1, e2]; rfl

/-! ## CalculateMACD -/

theorem CalculateEMA_nil (prices : List ℚ) (period : Int) (h : (prices.length : Int) < period) :
    CalculateEMA prices period = some none := by
  unfold CalculateEMA
  rw [if_pos h]

theorem macdLoop_spec (e12 e26 : List ℚ) (len : Nat) (h12 : e12.length = len)
    (h26 : e26.length = len) (hlen : (25 : Int) ≤ len) :
    ∃ m, forUp 25 len (fun j macd => do
      let a ← idx e12 j
      let b ← idx e26 j
      setIdx macd j (a - b)) (make len) = some m ∧ m.length = len ∧
      (∀ j : Int, j < 25 → nth m j = 0) ∧
      ∀ j : Int, 25 ≤ j → j < len → nth m j = nth e12 j - nth e26 j := by
  obtain ⟨m, he, hI⟩ := forUp_inv
    (fun j (m : List ℚ) => m.length = len ∧ (∀ i : Int, i < 25 → nth m i = 0) ∧
      ∀ k : Int, 25 ≤ k → k < j → nth m k = nth e12 k - nth e26 k)
    25 len (fun j macd => do
      let a ← idx e12 j
      let b ← idx e26 j
      setIdx macd j (a - b)) (make len) hlen
    ⟨length_make _, fun i _ => nth_make _ _, fun k h1 h2 => by omega⟩
    (by
      rintro j t hj0 hj1 ⟨hl, hz, hr⟩
      have h1 := idx_eq_nth e12 j (by omega) (by rw [h12]; omega)
      have h2 := idx_eq_nth e26 j (by omega) (by rw [h26]; omega)
      have h3 := fun v => setIdx_eq t j v (by omega) (by rw [hl]; omega)
      refine ⟨t.set j.toNat (nth e12 j - nth e26 j), ?_, by simp [hl], ?_, ?_⟩
      · simp only [Option.bind_eq_bind, h1, h2, h3, Option.some_bind]
      · intro i hi
        rw [nth_set_ne _ _ _ _ (by omega) (by omega)]; exact hz i hi
      · intro k hk1 hk2
        by_cases hkj : k = j
        · subst hkj
          rw [nth_set_self _ _ _ (by omega) (by rw [hl]; omega)]
        · rw [nth_set_ne _ _ _ _ (by omega) (fun h => hkj h.symm)]
          exact hr k hk1 (by omega))
  exact ⟨m, he, hI⟩

theorem histLoop_spec (m sg : List ℚ) (len : Nat) (hm : m.length = len)
    (hsg : (sg.length : Int) + 25 ≤ len) :
    ∃ h, forUp 0 sg.length (fun j hist => do
      let a ← idx m (j + 25)
      let s ← idx sg j
      setIdx hist (j + 25) (a - s)) (make len) = some h ∧ h.length = len ∧
      (∀ j : Int, j < 25 → nth h j = 0) ∧
      (∀ j : Int, 25 ≤ j → j < 25 + sg.length → nth h j = nth m j - nth sg (j - 25)) ∧
      ∀ j : Int, 25 + (sg.length : Int) ≤ j → nth h j = 0 := by
  obtain ⟨h, he, hI⟩ := forUp_inv
    (fun j (h : List ℚ) => h.length = len ∧ (∀ i : Int, i < 25 → nth h i = 0) ∧
      (∀ k : Int, 25 ≤ k → k < 25 + j → nth h k = nth m k - nth sg (k - 25)) ∧
      ∀ k : Int, 25 + j ≤ k → nth h k = 0)
    0 sg.length (fun j hist => do
      let a ← idx m (j + 25)
      let s ← idx sg j
      setIdx hist (j + 25) (a - s)) (make len) (by omega)
    ⟨length_make _, fun i _ => nth_make _ _, fun k h1 h2 => by omega, fun k _ => nth_make _ _⟩
    (by
      rintro j t hj0 hj1 ⟨hl, hz, hr, hz'⟩
      have h1 := idx_eq_nth m (j + 25) (by omega) (by rw [hm]; omega)
      have h2 := idx_eq_nth sg j (by omega) (by omega)
      have h3 := fun v => setIdx_eq t (j + 25) v (by omega) (by rw [hl]; omega)
      refine ⟨t.set (j + 25).toNat (nth m (j + 25) - nth sg j), ?_, by simp [hl], ?_, ?_, ?_⟩
      · simp only [Option.bind_eq_bind, h1, h2, h3, Option.some_bind]
      · intro i hi
        rw [nth_set_ne _ _ _ _ (by omega) (by omega)]; exact hz i hi
      · intro k hk1 hk2
        by_cases hkj : k = j + 25
        · subst hkj
          rw [nth_set_self _ _ _ (by omega) (by rw [hl]; omega)]
          congr 2; ring
        · rw [nth_set_ne _ _ _ _ (by omega) (fun h => hkj h.symm)]
          exact hr k hk1 (by omega)
      · intro k hk
        rw [nth_set_ne _ _ _ _ (by omega) (by omega)]; exact hz' k (by omega))
  exact ⟨h, he, hI⟩

/-- What `CalculateMACD` returns on 26 prices or more. -/
theorem CalculateMACD_char (prices : List ℚ) (hlen : (26 : Int) ≤ prices.length) :
    ∃ e12 e26 m sg h,
      CalculateEMA prices 12 = some (some e12) ∧ CalculateEMA prices 26 = some (some e26) ∧
      CalculateEMA (m.drop 25) 9 = some sg ∧
      CalculateMACD prices = some (some { MACD := m, Signal := sg, Hist := h }) ∧
      m.length = prices.length ∧ h.length = prices.length ∧
      (∀ j : Int, j < 25 → nth m j = 0) ∧
      (∀ j : Int, 25 ≤ j → j < prices.length → nth m j = nth e12 j - nth e26 j) ∧
      (∀ j : Int, j < 25 → nth h j = 0) ∧
      (∀ j : Int, 25 ≤ j → j < 25 + (elems sg).length →
        nth h j = nth m j - nth (elems sg) (j - 25)) ∧
      (∀ j : Int, 25 + ((elems sg).length : Int) ≤ j → nth h j = 0) ∧
      ((prices.length : Int) < 34 → sg = none) ∧
      ((34 : Int) ≤ prices.length → ∃ s, sg = some s ∧ (s.length : Int) = prices.length - 25) := by
  obtain ⟨e12, h12, hl12, -⟩ := CalculateEMA_char prices 12 (by omega) (by omega)
  obtain ⟨e26, h26, hl26, -⟩ := CalculateEMA_char prices 26 (by omega) (by omega)
  obtain ⟨m, hm, hml, hmz, hmr⟩ := macdLoop_spec e12 e26 prices.length hl12 hl26 (by omega)
  have hslice : sliceFrom m 25 = some (m.drop 25) := by
    have : (0 : Int) ≤ 25 ∧ (25 : Int) ≤ m.length := ⟨by omega, by rw [hml]; omega⟩
    simp only [sliceFrom, if_pos this]; rfl
  have hdl : ((m.drop 25).length : Int) = prices.length - 25 := by
    rw [List.length_drop, hml]; omega
  have hsig : ∃ sg, CalculateEMA (m.drop 25) 9 = some sg ∧
      ((elems sg).length : Int) + 25 ≤ prices.length ∧
      ((prices.length : Int) < 34 → sg = none) ∧
      ((34 : Int) ≤ prices.length →
        ∃ s, sg = some s ∧ (s.length : Int) = prices.length - 25) := by
    by_cases h9 : ((m.drop 25).length : Int) < 9
    · refine ⟨none, CalculateEMA_nil _ _ h9, by simp [elems]; omega, fun _ => rfl, ?_⟩
      intro h; omega
    · obtain ⟨s, hs, hsl, -⟩ := CalculateEMA_char (m.drop 25) 9 (by omega) (by omega)
      refine ⟨some s, hs, ?_, ?_, ?_⟩
      · simp only [elems, Option.getD_some, hsl]; omega
      · intro h; omega
      · intro _; exact ⟨s, rfl, by rw [hsl]; exact hdl⟩
  obtain ⟨sg, hsg, hsgl, hsmall, hbig⟩ := hsig
  obtain ⟨h, hh, hhl, hhz, hhr, hhz'⟩ := histLoop_spec m (elems sg) prices.length hml hsgl
  refine ⟨e12, e26, m, sg, h, h12, h26, hsg, ?_, hml, hhl, hmz, hmr, hhz, hhr, hhz', hsmall,
    hbig⟩
  have hnot : ¬ ((prices.length : Int) < 26) := by omega
  unfold CalculateMACD
  rw [if_neg hnot]
  simp only [Option.bind_eq_bind, Option.pure_def] at hm hh ⊢
  simp only [h12, h26, Option.some_bind, elems, Option.getD_some] at hm hh ⊢
  simp only [hm, hslice, hsg, hh, Option.some_bind]

/-! ## CalculateKDJ -/

theorem foldr_max_comm (l : List ℚ) (x b : ℚ) :
    l.foldr max (max x b) = max x (l.foldr max b) := by
  induction l with
  | nil => rfl
  | cons a l ih => simp only [List.foldr_cons, ih, max_left_comm]

theorem foldr_min_comm (l : List ℚ) (x b : ℚ) :
    l.foldr min (min x b) = min x (l.foldr min b) := by
  induction l with
  | nil => rfl
  | cons a l ih => simp only [List.foldr_cons, ih, min_left_comm]

theorem highLow_spec (prices : List ℚ) (period i : Int) (hp : 0 ≤ period)
    (hi0 : period - 1 ≤ i) (hi1 : i < prices.length) :
    highLow prices period i (nth prices i) =
      some (windowHigh prices period i, windowLow prices period i) := by
  obtain ⟨s, hs, -, hI⟩ := forUp_inv
    (fun p (hl : ℚ × ℚ) => 0 ≤ p ∧
      hl = (windowHigh prices p i, windowLow prices p i))
    0 period (fun p (hl : ℚ × ℚ) => do
      let x ← idx prices (i - p)
      let high := if x > hl.1 then x else hl.1
      let y ← idx prices (i - p)
      let low := if y < hl.2 then y else hl.2
      pure (high, low)) (nth prices i, nth prices i) hp
    (by simp [windowHigh, windowLow])
    (by
      rintro p t hp0 hp1 ⟨-, ht⟩
      have h1 := idx_eq_nth prices (i - p) (by omega) (by omega)
      refine ⟨(if nth prices (i - p) > t.1 then nth prices (i - p) else t.1,
        if nth prices (i - p) < t.2 then nth prices (i - p) else t.2), ?_, by omega, ?_⟩
      · simp only [Option.bind_eq_bind, Option.pure_def, h1, Option.some_bind]
      · have hn : (p + 1).toNat = p.toNat + 1 := by omega
        have hc : ((p.toNat : Nat) : Int) = p := by omega
        rw [ht]
        simp only [windowHigh, windowLow, hn, List.range_succ, List.map_append,
          List.foldr_append, List.map_cons, List.map_nil, List.foldr_cons, List.foldr_nil, hc,
          foldr_max_comm, foldr_min_comm]
        congr 1
        · split_ifs with h
          · exact (max_eq_left (le_of_lt h)).symm
          · exact (max_eq_right (le_of_not_lt h)).symm
        · split_ifs with h
          · exact (min_eq_left (le_of_lt h)).symm
          · exact (min_eq_right (le_of_not_lt h)).symm)
  unfold highLow
  rw [hs, hI]

/-- What `CalculateKDJ` returns on sufficient data. -/
theorem CalculateKDJ_char (prices : List ℚ) (period : Int) (hp : 1 ≤ period)
    (hlen : period ≤ prices.length) :
    ∃ k d j, CalculateKDJ prices period = some (some { K := k, D := d, J := j }) ∧
      k.length = prices.length ∧ d.length = prices.length ∧ j.length = prices.length ∧
      (∀ t : Int, t < period - 1 → nth k t = 0 ∧ nth d t = 0 ∧ nth j t = 0) ∧
      nth k (period - 1) = rsvSpec prices period (period - 1) ∧
      nth d (period - 1) = rsvSpec prices period (period - 1) ∧
      (∀ t : Int, period ≤ t → t < prices.length →
        nth k t = 2 / 3 * nth k (t - 1) + 1 / 3 * rsvSpec prices period t ∧
        nth d t = 2 / 3 * nth d (t - 1) + 1 / 3 * nth k t) ∧
      ∀ t : Int, period - 1 ≤ t → t < prices.length → nth j t = 3 * nth k t - 2 * nth d t := by
  obtain ⟨⟨k, d, j⟩, he, hI⟩ := forUp_inv
    (fun i (s : List ℚ × List ℚ × List ℚ) =>
      s.1.length = prices.length ∧ s.2.1.length = prices.length ∧
      s.2.2.length = prices.length ∧
      (∀ t : Int, t < period - 1 → nth s.1 t = 0 ∧ nth s.2.1 t = 0 ∧ nth s.2.2 t = 0) ∧
      (period - 1 < i → nth s.1 (period - 1) = rsvSpec prices period (period - 1) ∧
        nth s.2.1 (period - 1) = rsvSpec prices period (period - 1)) ∧
      (∀ t : Int, period ≤ t → t < i →
        nth s.1 t = 2 / 3 * nth s.1 (t - 1) + 1 / 3 * rsvSpec prices period t ∧
        nth s.2.1 t = 2 / 3 * nth s.2.1 (t - 1) + 1 / 3 * nth s.1 t) ∧
      ∀ t : Int, period - 1 ≤ t → t < i → nth s.2.2 t = 3 * nth s.1 t - 2 * nth s.2.1 t)
    (period - 1) prices.length
    (fun i (s : List ℚ × List ℚ × List ℚ) => do
      let start ← idx prices i
      let (high, low) ← highLow prices period i start
      let rsv ← if high ≠ low then do
          let c ← idx prices i
          pure ((c - low) / (high - low) * 100)
        else pure (0 : ℚ)
      let (k, d) ← if i = period - 1 then do
          let k ← setIdx s.1 i rsv
          let d ← setIdx s.2.1 i rsv
          pure (k, d)
        else do
          let k1 ← idx s.1 (i - 1)
          let k ← setIdx s.1 i (2 / 3 * k1 + 1 / 3 * rsv)
          let d1 ← idx s.2.1 (i - 1)
          let ki ← idx k i
          let d ← setIdx s.2.1 i (2 / 3 * d1 + 1 / 3 * ki)
          pure (k, d)
      let ki ← idx k i
      let di ← idx d i
      let j ← setIdx s.2.2 i (3 * ki - 2 * di)
      pure (k, d, j)) (make prices.length, make prices.length, make prices.length)
    (by omega)
    (by
      refine ⟨length_make _, length_make _, length_make _,
        fun t _ => ⟨nth_make _ _, nth_make _ _, nth_make _ _⟩, fun h => by omega,
        fun t h1 h2 => by omega, fun t h1 h2 => by omega⟩)
    (by
      rintro i ⟨k, d, j⟩ hi0 hi1 ⟨hk, hd, hj, hz, hs, hr, hjr⟩
      simp only at hk hd hj hz hs hr hjr
      have h1 := idx_eq_nth prices i (by omega) hi1
      have h2 := highLow_spec prices period i (by omega) hi0 hi1
      have hrsv : ∃ rv, rv = rsvSpec prices period i ∧
          ((windowHigh prices period i = windowLow prices period i ∧ rv = 0) ∨
           (windowHigh prices period i ≠ windowLow prices period i ∧
            rv = (nth prices i - windowLow prices period i)
              / (windowHigh prices period i - windowLow prices period i) * 100)) := by
        refine ⟨_, rfl, ?_⟩
        unfold rsvSpec
        by_cases h : windowHigh prices period i = windowLow prices period i
        · left; exact ⟨h, by rw [if_pos h]⟩
        · right; exact ⟨h, by rw [if_neg h]⟩
      obtain ⟨rv, hrv, hcase⟩ := hrsv
      have hset : ∀ (a : List ℚ) (v : ℚ), a.length = prices.length →
          setIdx a i v = some (a.set i.toNat v) := fun a v ha =>
        setIdx_eq a i v (by omega) (by rw [ha]; omega)
      have hget : ∀ (a : List ℚ) (v : ℚ), a.length = prices.length →
          idx (a.set i.toNat v) i = some v := fun a v ha => by
        rw [idx_eq_nth _ _ (by omega) (by simp [ha]; omega),
          nth_set_self _ _ _ (by omega) (by rw [ha]; omega)]
      by_cases hfirst : i = period - 1
      · refine ⟨(k.set i.toNat (rv),
          d.set i.toNat (rv),
          j.set i.toNat (3 * rv - 2 * rv)), ?_, ?_⟩
        · rcases hcase with ⟨hc, hv⟩ | ⟨hc, hv⟩
          · simp only [Option.bind_eq_bind, Option.pure_def, h1, h2, Option.some_bind, ne_eq, hc,
              not_true_eq_false, if_false, hv,
              if_pos hfirst, hset k _ hk, hset d _ hd, hset j _ hj, hget k _ hk, hget d _ hd]
          · simp only [Option.bind_eq_bind, Option.pure_def, h1, h2, Option.some_bind, ne_eq, hc,
              not_false_eq_true, if_true, hv,
              if_pos hfirst, hset k _ hk, hset d _ hd, hset j _ hj, hget k _ hk, hget d _ hd]
        · simp only
          refine ⟨by simp [hk], by simp [hd], by simp [hj], ?_, ?_, ?_, ?_⟩
          · intro t ht
            rw [nth_set_ne _ _ _ _ (by omega) (by omega),
              nth_set_ne _ _ _ _ (by omega) (by omega),
              nth_set_ne _ _ _ _ (by omega) (by omega)]
            exact hz t ht
          · intro _
            rw [← hfirst, nth_set_self k _ _ (by omega) (by rw [hk]; omega),
              nth_set_self d _ _ (by omega) (by rw [hd]; omega)]
            exact ⟨hrv, hrv⟩
          · intro t ht1 ht2; omega
          · intro t ht1 ht2
            have : t = i := by omega
            rw [this, nth_set_self k _ _ (by omega) (by rw [hk]; omega),
              nth_set_self d _ _ (by omega) (by rw [hd]; omega),
              nth_set_self j _ _ (by omega) (by rw [hj]; omega)]
      · have h3 := idx_eq_nth k (i - 1) (by omega) (by rw [hk]; omega)
        have h4 := idx_eq_nth d (i - 1) (by omega) (by rw [hd]; omega)
        refine ⟨(k.set i.toNat (2 / 3 * nth k (i - 1) + 1 / 3 * rv),
          d.set i.toNat (2 / 3 * nth d (i - 1)
            + 1 / 3 * (2 / 3 * nth k (i - 1) + 1 / 3 * rv)),
          j.set i.toNat (3 * (2 / 3 * nth k (i - 1) + 1 / 3 * rv)
            - 2 * (2 / 3 * nth d (i - 1)
              + 1 / 3 * (2 / 3 * nth k (i - 1) + 1 / 3 * rv)))), ?_, ?_⟩
        · rcases hcase with ⟨hc, hv⟩ | ⟨hc, hv⟩
          · simp only [Option.bind_eq_bind, Option.pure_def, h1, h2, Option.some_bind, ne_eq, hc,
              not_true_eq_false, if_false, hv,
              if_neg hfirst, h3, h4, hset k _ hk, hset d _ hd, hset j _ hj, hget k _ hk,
              hget d _ hd]
          · simp only [Option.bind_eq_bind, Option.pure_def, h1, h2, Option.some_bind, ne_eq, hc,
              not_false_eq_true, if_true, hv,
              if_neg hfirst, h3, h4, hset k _ hk, hset d _ hd, hset j _ hj, hget k _ hk,
              hget d _ hd]
        · simp only
          refine ⟨by simp [hk], by simp [hd], by simp [hj], ?_, ?_, ?_, ?_⟩
          · intro t ht
            rw [nth_set_ne _ _ _ _ (by omega) (by omega),
              nth_set_ne _ _ _ _ (by omega) (by omega),
              nth_set_ne _ _ _ _ (by omega) (by omega)]
            exact hz t ht
          · intro _
            rw [nth_set_ne _ _ _ _ (by omega) (by omega),
              nth_set_ne _ _ _ _ (by omega) (by omega)]
            exact hs (by omega)
          · intro t ht1 ht2
            by_cases hti : t = i
            · subst hti
              rw [nth_set_self k _ _ (by omega) (by rw [hk]; omega),
                nth_set_self d _ _ (by omega) (by rw [hd]; omega),
                nth_set_ne _ _ _ _ (by omega) (by omega),
                nth_set_ne _ _ _ _ (by omega) (by omega), hrv]
              exact ⟨rfl, rfl⟩
            · rw [nth_set_ne _ _ _ _ (by omega) (fun h => hti h.symm),
                nth_set_ne _ _ _ _ (by omega) (fun h => hti h.symm),
                nth_set_ne _ _ _ _ (by omega) (by omega),
                nth_set_ne _ _ _ _ (by omega) (by omega)]
              exact hr t ht1 (by omega)
          · intro t ht1 ht2
            by_cases hti : t = i
            · subst hti
              rw [nth_set_self k _ _ (by omega) (by rw [hk]; omega),
                nth_set_self d _ _ (by omega) (by rw [hd]; omega),
                nth_set_self j _ _ (by omega) (by rw [hj]; omega)]
            · rw [nth_set_ne _ _ _ _ (by omega) (fun h => hti h.symm),
                nth_set_ne _ _ _ _ (by omega) (fun h => hti h.symm),
                nth_set_ne _ _ _ _ (by omega) (fun h => hti h.symm)]
              exact hjr t ht1 (by omega))
  obtain ⟨hk, hd, hj, hz, hs, hr, hjr⟩ := hI
  simp only at hk hd hj hz hs hr hjr
  refine ⟨k, d, j, ?_, hk, hd, hj, hz, (hs (by omega)).1, (hs (by omega)).2, hr, hjr⟩
  have hnot : ¬ ((prices.length : Int) < period) := by omega
  unfold CalculateKDJ
  rw [if_neg hnot]
  simp only [Option.bind_eq_bind, Option.pure_def, Option.some_bind] at he ⊢
  simp only [he, Option.some_bind]

/-! ## CalculateBollinger -/

theorem windowFold_spec (prices : List ℚ) (period i : Int) (f : ℚ → ℚ) (hp : 0 ≤ period)
    (hi0 : period - 1 ≤ i) (hi1 : i < prices.length) :
    forUp 0 period (fun p acc => do
      let x ← idx prices (i - p)
      pure (acc + f x)) (0 : ℚ) =
    some (((List.range period.toNat).map fun (p : Nat) => f (nth prices (i - p))).sum) := by
  obtain ⟨s, hs, -, hI⟩ := forUp_inv
    (fun p (s : ℚ) => 0 ≤ p ∧
      s = ((List.range p.toNat).map fun (q : Nat) => f (nth prices (i - q))).sum)
    0 period (fun p acc => do
      let x ← idx prices (i - p)
      pure (acc + f x)) (0 : ℚ) hp (by simp)
    (by
      rintro p t hp0 hp1 ⟨-, ht⟩
      have h1 := idx_eq_nth prices (i - p) (by omega) (by omega)
      refine ⟨t + f (nth prices (i - p)), ?_, by omega, ?_⟩
      · simp only [Option.bind_eq_bind, Option.pure_def, h1, Option.some_bind]
      · have hn : (p + 1).toNat = p.toNat + 1 := by omega
        have hc : ((p.toNat : Nat) : Int) = p := by omega
        rw [hn, List.range_succ, List.map_append, List.sum_append, ht]
        simp only [List.map_cons, List.map_nil, List.sum_cons, List.sum_nil, add_zero, hc])
  rw [hs, hI]

theorem windowSum_spec (prices : List ℚ) (period i : Int) (hp : 0 ≤ period)
    (hi0 : period - 1 ≤ i) (hi1 : i < prices.length) :
    windowSum prices period i =
      some (((List.range period.toNat).map fun (p : Nat) => nth prices (i - p)).sum) := by
  have h := windowFold_spec prices period i (fun x => x) hp hi0 hi1
  unfold windowSum
  simp only [Option.bind_eq_bind, Option.pure_def] at h ⊢
  exact h

theorem windowVariance_spec (prices : List ℚ) (period i : Int) (ma : ℚ) (hp : 0 ≤ period)
    (hi0 : period - 1 ≤ i) (hi1 : i < prices.length) :
    windowVariance prices period i ma =
      some (((List.range period.toNat).map fun (p : Nat) =>
        (nth prices (i - p) - ma) * (nth prices (i - p) - ma)).sum) := by
  have h := windowFold_spec prices period i (fun x => (x - ma) * (x - ma)) hp hi0 hi1
  have h1 : ∀ p : Int, 0 ≤ p → p < period → idx prices (i - p) = some (nth prices (i - p)) :=
    fun p h0 h1 => idx_eq_nth prices (i - p) (by omega) (by omega)
  unfold windowVariance
  rw [← h]
  unfold forUp
  generalize (0 : ℚ) = a
  have key : ∀ (n : Nat) (j : Int) (a : ℚ), 0 ≤ j → j + n ≤ period →
      forUpAux (fun p variance => do
        let x ← idx prices (i - p)
        let y ← idx prices (i - p)
        pure (variance + (x - ma) * (y - ma))) n j a =
      forUpAux (fun p acc => do
        let x ← idx prices (i - p)
        pure (acc + (fun x => (x - ma) * (x - ma)) x)) n j a := by
    intro n
    induction n with
    | zero => intro j a _ _; rfl
    | succ n ih =>
      intro j a hj0 hj1
      simp only [forUpAux, Option.bind_eq_bind, Option.pure_def,
        h1 j hj0 (by push_cast at hj1; omega), Option.some_bind]
      have := ih (j + 1) (a + (nth prices (i - j) - ma) * (nth prices (i - j) - ma))
        (by omega) (by push_cast at hj1 ⊢; omega)
      simp only [Option.bind_eq_bind, Option.pure_def] at this
      exact this
  exact key _ 0 a le_rfl (by omega)

/-- What `CalculateBollinger` returns on sufficient data. -/
theorem CalculateBollinger_char (sqrt : ℚ → ℚ) (prices : List ℚ) (period : Int)
    (hp : 1 ≤ period) (hlen : period ≤ prices.length) :
    ∃ u m l, CalculateBollinger sqrt prices period =
        some (some { Upper := u, Middle := m, Lower := l }) ∧
      u.length = prices.length ∧ m.length = prices.length ∧ l.length = prices.length ∧
      (∀ t : Int, t < period - 1 → nth u t = 0 ∧ nth m t = 0 ∧ nth l t = 0) ∧
      ∀ t : Int, period - 1 ≤ t → t < prices.length →
        nth m t = windowMean prices period t ∧
        nth u t = windowMean prices period t + 2 * sqrt (windowVar prices period t) ∧
        nth l t = windowMean prices period t - 2 * sqrt (windowVar prices period t) := by
  obtain ⟨⟨u, m, l⟩, he, hI⟩ := forUp_inv
    (fun i (s : List ℚ × List ℚ × List ℚ) =>
      s.1.length = prices.length ∧ s.2.1.length = prices.length ∧
      s.2.2.length = prices.length ∧
      (∀ t : Int, t < period - 1 → nth s.1 t = 0 ∧ nth s.2.1 t = 0 ∧ nth s.2.2 t = 0) ∧
      ∀ t : Int, period - 1 ≤ t → t < i →
        nth s.2.1 t = windowMean prices period t ∧
        nth s.1 t = windowMean prices period t + 2 * sqrt (windowVar prices period t) ∧
        nth s.2.2 t = windowMean prices period t - 2 * sqrt (windowVar prices period t))
    (period - 1) prices.length
    (fun i (s : List ℚ × List ℚ × List ℚ) => do
        let sum ← windowSum prices period i
        let ma := sum / ((period : Int) : ℚ)
        let variance ← windowVariance prices period i ma
        let std := sqrt (variance / ((period : Int) : ℚ))
        let middle ← setIdx s.2.1 i ma
        let upper ← setIdx s.1 i (ma + 2 * std)
        let lower ← setIdx s.2.2 i (ma - 2 * std)
        pure (upper, middle, lower))
    (make prices.length, make prices.length, make prices.length) (by omega)
    (by
      refine ⟨length_make _, length_make _, length_make _,
        fun t _ => ⟨nth_make _ _, nth_make _ _, nth_make _ _⟩, fun t h1 h2 => by omega⟩)
    (by
      rintro i ⟨u, m, l⟩ hi0 hi1 ⟨hu, hm, hl, hz, hr⟩
      simp only at hu hm hl hz hr
      have h1 := windowSum_spec prices period i (by omega) hi0 hi1
      have h2 := fun ma => windowVariance_spec prices period i ma (by omega) hi0 hi1
      have hset : ∀ (a : List ℚ) (v : ℚ), a.length = prices.length →
          setIdx a i v = some (a.set i.toNat v) := fun a v ha =>
        setIdx_eq a i v (by omega) (by rw [ha]; omega)
      refine ⟨(u.set i.toNat (windowMean prices period i
          + 2 * sqrt (windowVar prices period i)),
        m.set i.toNat (windowMean prices period i),
        l.set i.toNat (windowMean prices period i
          - 2 * sqrt (windowVar prices period i))), ?_, ?_⟩
      · simp only [Option.bind_eq_bind, Option.pure_def, h1, h2, Option.some_bind,
          hset u _ hu, hset m _ hm, hset l _ hl]
        rfl
      · simp only
        refine ⟨by simp [hu], by simp [hm], by simp [hl], ?_, ?_⟩
        · intro t ht
          rw [nth_set_ne _ _ _ _ (by omega) (by omega),
            nth_set_ne _ _ _ _ (by omega) (by omega),
            nth_set_ne _ _ _ _ (by omega) (by omega)]
          exact hz t ht
        · intro t ht1 ht2
          by_cases hti : t = i
          · rw [hti, nth_set_self u _ _ (by omega) (by rw [hu]; omega),
              nth_set_self m _ _ (by omega) (by rw [hm]; omega),
              nth_set_self l _ _ (by omega) (by rw [hl]; omega)]
            exact ⟨rfl, rfl, rfl⟩
          · rw [nth_set_ne _ _ _ _ (by omega) (fun h => hti h.symm),
              nth_set_ne _ _ _ _ (by omega) (fun h => hti h.symm),
              nth_set_ne _ _ _ _ (by omega) (fun h => hti h.symm)]
            exact hr t ht1 (by omega))
  obtain ⟨hu, hm, hl, hz, hr⟩ := hI
  simp only at hu hm hl hz hr
  refine ⟨u, m, l, ?_, hu, hm, hl, hz, hr⟩
  have hnot : ¬ ((prices.length : Int) < period) := by omega
  unfold CalculateBollinger
  rw [if_neg hnot]
  simp only [Option.bind_eq_bind, Option.pure_def, Option.some_bind] at he ⊢
  simp only [he, Option.some_bind]

/-! ## CalculateMaxDrawdown -/

theorem forDownAux_inv {σ : Type} (I : Int → σ → Prop) (body : Int → σ → Option σ) :
    ∀ (n : Nat) (i : Int) (s : σ), I i s →
      (∀ k t, k ≤ i → i - n < k → I k t → ∃ t', body k t = some t' ∧ I (k - 1) t') →
      ∃ s', forDownAux body n i s = some s' ∧ I (i - n) s' := by
  intro n
  induction n with
  | zero => intro i s h _; exact ⟨s, rfl, by simpa using h⟩
  | succ n ih =>
    intro i s h hstep
    obtain ⟨t, ht, hI⟩ := hstep i s le_rfl (by push_cast; omega) h
    obtain ⟨s', hs', hI'⟩ := ih (i - 1) t hI (fun k u hk1 hk2 hu =>
      hstep k u (by omega) (by push_cast; omega) hu)
    refine ⟨s', ?_, ?_⟩
    · simp [forDownAux, ht, hs']
    · have : i - ((n + 1 : Nat) : Int) = i - 1 - n := by push_cast; ring
      rw [this]; exact hI'

/-- The invariant rule of a loop counting down to `0`: total correctness. -/
theorem forDown_inv {σ : Type} (I : Int → σ → Prop) (hi : Int) (body : Int → σ → Option σ)
    (s : σ) (hle : -1 ≤ hi) (h0 : I hi s)
    (hstep : ∀ k t, 0 ≤ k → k ≤ hi → I k t → ∃ t', body k t = some t' ∧ I (k - 1) t') :
    ∃ s', forDown hi body s = some s' ∧ I (-1) s' := by
  have hn : hi - ((hi + 1).toNat : Int) = -1 := by
    rw [Int.toNat_of_nonneg (by omega)]; ring
  obtain ⟨s', hs', hI⟩ := forDownAux_inv I body (hi + 1).toNat hi s h0
    (fun k t h1 h2 ht => hstep k t (by omega) h1 ht)
  exact ⟨s', hs', by rwa [hn] at hI⟩

theorem idx_eq_get {α : Type} (a : List α) (i : Int) (h0 : 0 ≤ i) (h1 : i < a.length) :
    idx a i = some (a.get ⟨i.toNat, by omega⟩) := by
  have h2 : i.toNat < a.length := by omega
  simp [idx, h0, List.getElem?_eq_getElem h2]

/-- What `CalculateMaxDrawdown` returns on positive net values. -/
theorem CalculateMaxDrawdown_char (histories : List NetValueHistory)
    (hpos : ∀ h ∈ histories, 0 < h.NetValue) :
    ∃ d, CalculateMaxDrawdown histories none = some (d, none) ∧ 0 ≤ d ∧ d ≤ 100 ∧
      ((histories.length < 2 ∨ histories.Pairwise (fun a b => b.NetValue ≤ a.NetValue)) →
        d = 0) := by
  by_cases hlen : histories.length < 2
  · refine ⟨0, ?_, le_rfl, by norm_num, fun _ => rfl⟩
    unfold CalculateMaxDrawdown
    rw [if_pos (Or.inr hlen)]
  have hlast := idx_eq_get histories ((histories.length : Int) - 1) (by omega) (by omega)
  set last := histories.get ⟨((histories.length : Int) - 1).toNat, by omega⟩ with hlastdef
  obtain ⟨⟨d, pk⟩, he, hI⟩ := forDown_inv
    (fun i (s : ℚ × ℚ) => 0 ≤ s.1 ∧ s.1 ≤ 100 ∧ 0 < s.2 ∧
      (histories.Pairwise (fun a b => b.NetValue ≤ a.NetValue) →
        s.1 = 0 ∧ ∃ h, idx histories (i + 1) = some h ∧ s.2 = h.NetValue))
    ((histories.length : Int) - 2)
    (fun i (s : ℚ × ℚ) => do
        let h ← idx histories i
        let peak := if h.NetValue > s.2 then h.NetValue else s.2
        let h' ← idx histories i
        let drawdown := (peak - h'.NetValue) / peak * 100
        let maxDrawdown := if drawdown > s.1 then drawdown else s.1
        pure (maxDrawdown, peak)) ((0 : ℚ), last.NetValue) (by omega)
    (by
      refine ⟨le_rfl, by norm_num, hpos _ (List.get_mem _ _ _), fun _ => ⟨rfl, last, ?_, rfl⟩⟩
      have : (histories.length : Int) - 2 + 1 = histories.length - 1 := by ring
      rw [this]; exact hlast)
    (by
      rintro i ⟨md, pk⟩ hi0 hi1 ⟨hmd0, hmd1, hpk, hmono⟩
      simp only at hmd0 hmd1 hpk hmono
      have hget := idx_eq_get histories i hi0 (by omega)
      set h := histories.get ⟨i.toNat, by omega⟩ with hdef
      have hv : 0 < h.NetValue := hpos _ (List.get_mem _ _ _)
      set peak := if h.NetValue > pk then h.NetValue else pk with hpeak
      have hpeak_pos : 0 < peak := by
        rw [hpeak]; split_ifs <;> assumption
      have hpeak_ge : h.NetValue ≤ peak := by
        rw [hpeak]; split_ifs with hc
        · exact le_rfl
        · exact le_of_not_lt hc
      have hdd0 : 0 ≤ (peak - h.NetValue) / peak * 100 :=
        mul_nonneg (div_nonneg (by linarith) hpeak_pos.le) (by norm_num)
      have hdd1 : (peak - h.NetValue) / peak * 100 ≤ 100 := by
        have : (peak - h.NetValue) / peak ≤ 1 := by
          rw [div_le_one hpeak_pos]; linarith
        linarith
      refine ⟨(if (peak - h.NetValue) / peak * 100 > md then (peak - h.NetValue) / peak * 100
        else md, peak), ?_, ?_, ?_, hpeak_pos, ?_⟩
      · simp only [Option.bind_eq_bind, Option.pure_def, hget, Option.some_bind]
      · simp only; split_ifs <;> assumption
      · simp only; split_ifs <;> assumption
      · intro hpw
        obtain ⟨hmd, h', hh', hpk'⟩ := hmono hpw
        have hi2 : i + 1 < histories.length := by omega
        rw [idx_eq_get histories (i + 1) (by omega) hi2] at hh'
        have hh'' := Option.some.inj hh'
        have hrel : h'.NetValue ≤ h.NetValue := by
          rw [← hh'', hdef]
          have := List.pairwise_iff_get.mp hpw ⟨i.toNat, by omega⟩ ⟨(i + 1).toNat, by omega⟩
            (by simp only [Fin.mk_lt_mk]; omega)
          exact this
        have hpk_eq : peak = h.NetValue := by
          rw [hpeak]; split_ifs with hc
          · rfl
          · rw [hpk']; linarith [le_of_not_lt hc, hpk']
        simp only
        refine ⟨?_, h, ?_, hpk_eq⟩
        · rw [hpk_eq, sub_self, zero_div, zero_mul, hmd]; simp
        · rw [sub_add_cancel]; exact hget)
  obtain ⟨hd0, hd1, -, hm⟩ := hI
  simp only at hd0 hd1 hm
  refine ⟨d, ?_, hd0, hd1, ?_⟩
  · have hnot : ¬ ((none : Option String) ≠ none ∨ histories.length < 2) := by
      rintro (h | h)
      · exact h rfl
      · exact hlen h
    unfold CalculateMaxDrawdown
    rw [if_neg hnot]
    simp only [Option.bind_eq_bind, Option.pure_def, Option.some_bind] at he ⊢
    simp only [hlast, he, Option.some_bind]
  · rintro (h | h)
    · exact absurd h hlen
    · exact (hm h).1

/-! ## Monotone series: the MACD line -/

/-- Index form of a non-decreasing price list. -/
theorem nth_mono_of_pairwise (prices : List ℚ) (h : prices.Pairwise (fun a b => a ≤ b)) :
    ∀ i j : Int, 0 ≤ i → i ≤ j → j < prices.length → nth prices i ≤ nth prices j := by
  intro i j hi hij hj
  rcases eq_or_lt_of_le hij with heq | hlt
  · rw [heq]
  · lift i to Nat using hi
    lift j to Nat using (by omega)
    have hi' : i < prices.length := by omega
    have hj' : j < prices.length := by omega
    have := List.pairwise_iff_get.mp h ⟨i, hi'⟩ ⟨j, hj'⟩ (by simp only [Fin.mk_lt_mk]; omega)
    simp only [nth_natCast, List.getD_eq_getElem?_getD, List.getElem?_eq_getElem hi',
      List.getElem?_eq_getElem hj', Option.getD_some]
    exact this

theorem sum_take_le (prices : List ℚ) (x : ℚ) :
    ∀ k : Nat, k ≤ prices.length → (∀ i : Nat, i < k → nth prices i ≤ x) →
      (prices.take k).sum ≤ k * x := by
  intro k
  induction k with
  | zero => intro _ _; simp
  | succ k ih =>
    intro hk hx
    have hk' : k < prices.length := by omega
    rw [List.sum_take_succ _ _ hk']
    have h1 := ih (by omega) (fun i hi => hx i (by omega))
    have h2 := hx k (by omega)
    simp only [nth_natCast, List.getD_eq_getElem?_getD, List.getElem?_eq_getElem hk',
      Option.getD_some] at h2
    push_cast
    linarith

theorem sum_take_succ_nth (prices : List ℚ) (k : Nat) (hk : k < prices.length) :
    (prices.take (k + 1)).sum = (prices.take k).sum + nth prices k := by
  rw [List.sum_take_succ _ _ hk]
  simp only [nth_natCast, List.getD_eq_getElem?_getD, List.getElem?_eq_getElem hk,
    Option.getD_some]

/-- On a non-decreasing series an EMA never exceeds the current price. -/
theorem ema_le_price (prices e : List ℚ) (period : Int) (hp : 1 ≤ period)
    (hlen : period ≤ prices.length)
    (hmono : ∀ i j : Int, 0 ≤ i → i ≤ j → j < prices.length → nth prices i ≤ nth prices j)
    (hseed : nth e (period - 1) = (prices.take period.toNat).sum / (period : ℚ))
    (hrec : ∀ j : Int, period ≤ j → j < prices.length →
      nth e j = (nth prices j - nth e (j - 1)) * (2 / ((period : ℚ) + 1)) + nth e (j - 1)) :
    ∀ j : Int, period - 1 ≤ j → j < prices.length → nth e j ≤ nth prices j := by
  have hpq : (0 : ℚ) < (period : ℚ) := by exact_mod_cast (by omega : 0 < period)
  have hp1 : (1 : ℚ) ≤ (period : ℚ) := by exact_mod_cast hp
  have hm0 : (0 : ℚ) ≤ 2 / ((period : ℚ) + 1) := by positivity
  have hm1 : 2 / ((period : ℚ) + 1) ≤ 1 := by
    rw [div_le_one (by linarith)]; linarith
  intro j hj
  refine Int.le_induction (P := fun j => j < prices.length → nth e j ≤ nth prices j)
    ?_ ?_ j hj
  · intro hlt
    rw [hseed, div_le_iff₀ hpq]
    have h := sum_take_le prices (nth prices (period - 1)) period.toNat (by omega)
      (fun i hi => hmono i (period - 1) (by omega) (by omega) (by omega))
    have hc : ((period.toNat : Nat) : ℚ) = (period : ℚ) := by
      have : ((period.toNat : Nat) : Int) = period := by omega
      exact_mod_cast this
    rw [hc] at h
    linarith
  · intro j hj ih hlt
    have h1 := ih (by omega)
    have h2 := hmono j (j + 1) (by omega) (by omega) hlt
    rw [hrec (j + 1) (by omega) hlt, add_sub_cancel_right]
    nlinarith

/-- On a non-decreasing series the mean of the first `k` prices is at most the
price at index `k`. -/
theorem running_mean_le (prices : List ℚ)
    (hmono : ∀ i j : Int, 0 ≤ i → i ≤ j → j < prices.length → nth prices i ≤ nth prices j)
    (k : Nat) (hk : k < prices.length) :
    (prices.take k).sum ≤ k * nth prices k :=
  sum_take_le prices (nth prices k) k (by omega)
    (fun i hi => hmono i k (by omega) (by exact_mod_cast hi.le) (by exact_mod_cast hk))

/-- On a non-decreasing series the 12-period EMA is at least the mean of all
prices so far. -/
theorem ema12_ge_running_mean (prices e : List ℚ)
    (hmono : ∀ i j : Int, 0 ≤ i → i ≤ j → j < prices.length → nth prices i ≤ nth prices j)
    (hseed : nth e ((12 : Int) - 1) = (prices.take (12 : Int).toNat).sum / ((12 : Int) : ℚ))
    (hrec : ∀ j : Int, 12 ≤ j → j < prices.length →
      nth e j = (nth prices j - nth e (j - 1)) * (2 / (((12 : Int) : ℚ) + 1)) + nth e (j - 1)) :
    ∀ k : Nat, 11 ≤ k → k < prices.length →
      (prices.take (k + 1)).sum / ((k : ℚ) + 1) ≤ nth e k := by
  intro k hk
  induction k, hk using Nat.le_induction with
  | base =>
    intro _
    have h1 : (((11 : Nat) : Int)) = (12 : Int) - 1 := by norm_num
    have h2 : (12 : Int).toNat = 12 := rfl
    rw [h1, hseed, h2]
    apply le_of_eq
    norm_num
  | succ k hk ih =>
    intro hlt
    have h1 := ih (by omega)
    have hkq : (11 : ℚ) ≤ (k : ℚ) := by exact_mod_cast hk
    have h2 := running_mean_le prices hmono (k + 1) hlt
    have h3 := hrec ((k + 1 : Nat) : Int) (by push_cast; omega) (by exact_mod_cast hlt)
    have hc : (((k + 1 : Nat) : Int) - 1) = (k : Int) := by push_cast; ring
    rw [hc] at h3
    rw [h3, sum_take_succ_nth prices (k + 1) hlt]
    rw [div_le_iff₀ (by positivity)] at h1 ⊢
    push_cast at h1 h2 ⊢
    generalize (prices.take (k + 1)).sum = S at h1 h2 ⊢
    generalize nth prices ((k : Int) + 1) = p at h2 ⊢
    generalize nth e (k : Int) = a at h1 ⊢
    have hk1 : (0 : ℚ) < (k : ℚ) + 1 := by positivity
    have e1 : ((p - a) * (2 / (12 + 1)) + a) * ((k : ℚ) + 1 + 1) - (S + p)
        = (11 / 13 * ((k : ℚ) + 2) * (a * ((k : ℚ) + 1) - S)
          + (2 * (k : ℚ) - 9) / 13 * (((k : ℚ) + 1) * p - S)) / ((k : ℚ) + 1) := by
      field_simp
      ring
    have e2 : 0 ≤ (11 / 13 * ((k : ℚ) + 2) * (a * ((k : ℚ) + 1) - S)
          + (2 * (k : ℚ) - 9) / 13 * (((k : ℚ) + 1) * p - S)) / ((k : ℚ) + 1) := by
      apply div_nonneg _ hk1.le
      apply add_nonneg
      · apply mul_nonneg (by positivity) (by linarith)
      · apply mul_nonneg (by linarith) (by linarith)
    linarith

/-- On a non-decreasing series the 12-period EMA is at least the 26-period EMA
from index 25 on. -/
theorem ema12_ge_ema26 (prices e12 e26 : List ℚ) (hlen : (26 : Int) ≤ prices.length)
    (hmono : ∀ i j : Int, 0 ≤ i → i ≤ j → j < prices.length → nth prices i ≤ nth prices j)
    (hseed12 : nth e12 ((12 : Int) - 1)
      = (prices.take (12 : Int).toNat).sum / ((12 : Int) : ℚ))
    (hrec12 : ∀ j : Int, 12 ≤ j → j < prices.length →
      nth e12 j = (nth prices j - nth e12 (j - 1)) * (2 / (((12 : Int) : ℚ) + 1))
        + nth e12 (j - 1))
    (hseed26 : nth e26 ((26 : Int) - 1)
      = (prices.take (26 : Int).toNat).sum / ((26 : Int) : ℚ))
    (hrec26 : ∀ j : Int, 26 ≤ j → j < prices.length →
      nth e26 j = (nth prices j - nth e26 (j - 1)) * (2 / (((26 : Int) : ℚ) + 1))
        + nth e26 (j - 1)) :
    ∀ j : Int, 25 ≤ j → j < prices.length → nth e26 j ≤ nth e12 j := by
  have hA := ema_le_price prices e26 26 (by omega) hlen hmono hseed26 hrec26
  have hB := ema12_ge_running_mean prices e12 hmono hseed12 hrec12
  intro j hj
  refine Int.le_induction (P := fun j => j < prices.length → nth e26 j ≤ nth e12 j)
    ?_ ?_ j hj
  · intro hlt
    have h1 := hB 25 (by omega) (by omega)
    have h2 : (26 : Int).toNat = 26 := rfl
    have h3 : (25 : Int) = (26 : Int) - 1 := by norm_num
    rw [h3, hseed26, h2]
    have h4 : (((25 : Nat) : Int)) = (26 : Int) - 1 := by norm_num
    rw [h4] at h1
    refine le_trans (le_of_eq ?_) h1
    norm_num
  · intro j hj ih hlt
    have h1 := ih (by omega)
    have h2 := hA j (by omega) (by omega)
    have h3 := hmono j (j + 1) (by omega) (by omega) hlt
    rw [hrec12 (j + 1) (by omega) hlt, hrec26 (j + 1) (by omega) hlt, add_sub_cancel_right]
    push_cast
    linarith

/-! ## Constant series -/

theorem nth_replicate (n : Nat) (c : ℚ) (i : Int) (h0 : 0 ≤ i) (h1 : i < n) :
    nth (List.replicate n c) i = c := by
  lift i to Nat using h0
  have h1' : i < n := by exact_mod_cast h1
  simp [nth_natCast, List.getD_eq_getElem?_getD, h1']

theorem sum_map_range_const (k : Nat) (f : Nat → ℚ) (c : ℚ) (h : ∀ p : Nat, p < k → f p = c) :
    ((List.range k).map f).sum = k * c := by
  have : (List.range k).map f = (List.range k).map (fun _ => c) :=
    List.map_congr_left (fun p hp => h p (List.mem_range.mp hp))
  rw [this]
  simp

theorem ema_constant (n : Nat) (c : ℚ) (period : Int) (hp : 1 ≤ period) (hlen : period ≤ n) :
    ∃ e, CalculateEMA (List.replicate n c) period = some (some e) ∧
      ∀ j : Int, period - 1 ≤ j → j < n → nth e j = c := by
  obtain ⟨e, he, -, -, hs, hr⟩ := CalculateEMA_char (List.replicate n c) period hp
    (by simpa using hlen)
  refine ⟨e, he, ?_⟩
  have hpq : (period : ℚ) ≠ 0 := by
    have : (0 : ℚ) < (period : ℚ) := by exact_mod_cast (by omega : 0 < period)
    exact this.ne'
  intro j hj
  refine Int.le_induction (P := fun j => j < (n : Int) → nth e j = c) ?_ ?_ j hj
  · intro _
    rw [hs, List.take_replicate, List.sum_replicate, nsmul_eq_mul]
    have hmin : min period.toNat n = period.toNat := by omega
    have hc : ((period.toNat : Nat) : ℚ) = (period : ℚ) := by
      have : ((period.toNat : Nat) : Int) = period := by omega
      exact_mod_cast this
    rw [hmin, hc]
    field_simp
  · intro j hj ih hlt
    rw [hr (j + 1) (by omega) (by simpa using hlt), add_sub_cancel_right, ih (by omega),
      nth_replicate n c (j + 1) (by omega) hlt]
    ring

theorem windowMean_constant (n : Nat) (c : ℚ) (period t : Int) (hp : 1 ≤ period)
    (ht0 : period - 1 ≤ t) (ht1 : t < n) : windowMean (List.replicate n c) period t = c := by
  have hpq : (period : ℚ) ≠ 0 := by
    have : (0 : ℚ) < (period : ℚ) := by exact_mod_cast (by omega : 0 < period)
    exact this.ne'
  have hc : ((period.toNat : Nat) : ℚ) = (period : ℚ) := by
    have : ((period.toNat : Nat) : Int) = period := by omega
    exact_mod_cast this
  unfold windowMean
  rw [sum_map_range_const period.toNat _ c
    (fun p hp' => nth_replicate n c (t - p) (by omega) (by omega)), hc]
  field_simp

theorem windowVar_constant (n : Nat) (c : ℚ) (period t : Int) (hp : 1 ≤ period)
    (ht0 : period - 1 ≤ t) (ht1 : t < n) : windowVar (List.replicate n c) period t = 0 := by
  unfold windowVar
  rw [windowMean_constant n c period t hp ht0 ht1, sum_map_range_const period.toNat _ 0
    (fun p hp' => by rw [nth_replicate n c (t - p) (by omega) (by omega)]; ring)]
  simp

theorem bollinger_constant (sqrt : ℚ → ℚ) (hsqrt : sqrt 0 = 0) (n : Nat) (c : ℚ)
    (period : Int) (hp : 1 ≤ period) (hlen : period ≤ n) :
    ∃ b, CalculateBollinger sqrt (List.replicate n c) period = some (some b) ∧
      ∀ j : Int, period - 1 ≤ j → j < n →
        nth b.Upper j = c ∧ nth b.Middle j = c ∧ nth b.Lower j = c := by
  obtain ⟨u, m, l, he, -, -, -, -, hr⟩ := CalculateBollinger_char sqrt (List.replicate n c)
    period hp (by simpa using hlen)
  refine ⟨_, he, ?_⟩
  intro j hj0 hj1
  obtain ⟨h1, h2, h3⟩ := hr j hj0 (by simpa using hj1)
  rw [windowMean_constant n c period j hp hj0 hj1] at h1 h2 h3
  rw [windowVar_constant n c period j hp hj0 hj1, hsqrt] at h2 h3
  refine ⟨?_, h1, ?_⟩
  · rw [h2]; ring
  · rw [h3]; ring

theorem wilderAvg_zero (period : Int) : ∀ n : Nat, wilderAvg (fun _ => 0) period n = 0 := by
  intro n
  induction n with
  | zero => simp [wilderAvg]
  | succ n ih => simp [wilderAvg, ih]

theorem rsi_constant (n : Nat) (c : ℚ) (period : Int) (hp : 1 ≤ period)
    (hlen : period + 1 ≤ n) :
    ∃ r, CalculateRSI (List.replicate n c) period = some (some r) ∧
      ∀ j : Int, period ≤ j → j < n → nth r j = 100 := by
  obtain ⟨r, he, -, -, hr⟩ := CalculateRSI_char (List.replicate n c) period hp
    (by simpa using hlen)
  refine ⟨r, he, ?_⟩
  intro j hj0 hj1
  have hj : j = period + ((j - period).toNat : Nat) := by omega
  rw [hj, hr _ (by simp only [List.length_replicate]; omega)]
  have hl : wilderAvg (lossSpec (List.replicate n c)) period (j - period).toNat = 0 := by
    rw [wilderAvg_congr _ (fun _ => 0) period (by omega) _ (fun k hk1 hk2 => by
      rw [lossSpec, nth_replicate n c k (by omega) (by omega),
        nth_replicate n c (k - 1) (by omega) (by omega)]
      simp)]
    exact wilderAvg_zero period _
  rw [rsiSpec, if_pos hl]

/-! ## Lengths of the returned slices -/

theorem forUpAux_preserves {σ : Type} (I : σ → Prop) (body : Int → σ → Option σ)
    (hstep : ∀ j t t', I t → body j t = some t' → I t') :
    ∀ (n : Nat) (j : Int) (s s' : σ), I s → forUpAux body n j s = some s' → I s' := by
  intro n
  induction n with
  | zero =>
    intro j s s' h he
    simp only [forUpAux, Option.some.injEq] at he
    rw [← he]; exact h
  | succ n ih =>
    intro j s s' h he
    simp only [forUpAux, Option.bind_eq_some] at he
    obtain ⟨t, ht, he'⟩ := he
    exact ih (j + 1) t s' (hstep j s t h ht) he'

/-- A property kept by every iteration holds of whatever the loop returns. -/
theorem forUp_preserves {σ : Type} (I : σ → Prop) (lo hi : Int) (body : Int → σ → Option σ)
    (s s' : σ) (h : I s) (hstep : ∀ j t t', I t → body j t = some t' → I t')
    (he : forUp lo hi body s = some s') : I s' :=
  forUpAux_preserves I body hstep _ lo s s' h he

theorem setIdx_length {α : Type} (a a' : List α) (i : Int) (v : α)
    (h : setIdx a i v = some a') : a'.length = a.length := by
  unfold setIdx at h
  split at h
  · simp only [Option.some.injEq] at h
    rw [← h]; simp
  · exact absurd h (by simp)

theorem CalculateEMA_length (prices : List ℚ) (period : Int) (e : List ℚ)
    (h : CalculateEMA prices period = some (some e)) : e.length = prices.length := by
  unfold CalculateEMA at h
  split at h
  · exact absurd h (by simp)
  · simp only [Option.bind_eq_bind, Option.pure_def, Option.bind_eq_some, Option.some.injEq]
      at h
    obtain ⟨s, -, e0, h0, e1, h1, rfl⟩ := h
    have hl0 := setIdx_length _ _ _ _ h0
    rw [length_make] at hl0
    refine forUp_preserves (fun t : List ℚ => t.length = prices.length) _ _ _ e0 e1 hl0 ?_ h1
    intro j t t' ht hb
    simp only [Option.bind_eq_some] at hb
    obtain ⟨_, -, _, -, hb'⟩ := hb
    rw [setIdx_length _ _ _ _ hb', ht]

theorem CalculateRSI_length (prices : List ℚ) (period : Int) (r : List ℚ)
    (h : CalculateRSI prices period = some (some r)) : r.length = prices.length := by
  have hstep : ∀ (g l : List ℚ) (j : Int) (t t' : ℚ × ℚ × List ℚ),
      t.2.2.length = prices.length →
      (do
        let x ← idx g j
        let avgGain := (t.1 * ((period - 1 : Int) : ℚ) + x) / ((period : Int) : ℚ)
        let y ← idx l j
        let avgLoss := (t.2.1 * ((period - 1 : Int) : ℚ) + y) / ((period : Int) : ℚ)
        let rsi ← if avgLoss = 0 then setIdx t.2.2 j 100
          else setIdx t.2.2 j (100 - 100 / (1 + avgGain / avgLoss))
        pure (avgGain, avgLoss, rsi)) = some t' →
      t'.2.2.length = prices.length := by
    intro g l j t t' ht hb
    simp only [Option.bind_eq_bind, Option.pure_def, Option.bind_eq_some] at hb
    obtain ⟨x, -, y, -, hb⟩ := hb
    by_cases hc : (t.2.1 * ((period - 1 : Int) : ℚ) + y) / ((period : Int) : ℚ) = 0
    · simp only [if_pos hc, Option.bind_eq_some, Option.some.injEq] at hb
      obtain ⟨r', hr', rfl⟩ := hb
      simp only
      rw [setIdx_length _ _ _ _ hr', ht]
    · simp only [if_neg hc, Option.bind_eq_some, Option.some.injEq] at hb
      obtain ⟨r', hr', rfl⟩ := hb
      simp only
      rw [setIdx_length _ _ _ _ hr', ht]
  unfold CalculateRSI at h
  split at h
  · exact absurd h (by simp)
  · simp only [Option.bind_eq_bind, Option.pure_def, Option.bind_eq_some] at h
    obtain ⟨gl, -, s, -, h⟩ := h
    by_cases hc : s.2 / ((period : Int) : ℚ) = 0
    · simp only [if_pos hc, Option.bind_eq_some, Option.some.injEq] at h
      obtain ⟨r0, h0, ⟨a, b, r1⟩, h1, h2⟩ := h
      simp only at h2
      have hl0 := setIdx_length _ _ _ _ h0
      rw [length_make] at hl0
      have := forUp_preserves (fun t : ℚ × ℚ × List ℚ => t.2.2.length = prices.length) _ _ _
        _ _ hl0 (fun j t t' ht hb => hstep gl.1 gl.2 j t t' ht (by
          simp only [Option.bind_eq_bind, Option.pure_def]; exact hb)) h1
      rw [← h2]; exact this
    · simp only [if_neg hc, Option.bind_eq_some, Option.some.injEq] at h
      obtain ⟨r0, h0, ⟨a, b, r1⟩, h1, h2⟩ := h
      simp only at h2
      have hl0 := setIdx_length _ _ _ _ h0
      rw [length_make] at hl0
      have := forUp_preserves (fun t : ℚ × ℚ × List ℚ => t.2.2.length = prices.length) _ _ _
        _ _ hl0 (fun j t t' ht hb => hstep gl.1 gl.2 j t t' ht (by
          simp only [Option.bind_eq_bind, Option.pure_def]; exact hb)) h1
      rw [← h2]; exact this

theorem CalculateKDJ_length (prices : List ℚ) (period : Int) (r : KDJResult)
    (h : CalculateKDJ prices period = some (some r)) :
    r.K.length = prices.length ∧ r.D.length = prices.length ∧ r.J.length = prices.length := by
  unfold CalculateKDJ at h
  split at h
  · exact absurd h (by simp)
  · simp only [Option.bind_eq_bind, Option.pure_def, Option.bind_eq_some, Option.some.injEq]
      at h
    obtain ⟨⟨k, d, j⟩, h1, h2⟩ := h
    simp only at h2
    have := forUp_preserves (fun t : List ℚ × List ℚ × List ℚ =>
      t.1.length = prices.length ∧ t.2.1.length = prices.length ∧
      t.2.2.length = prices.length) _ _ _ _ _
      ⟨length_make _, length_make _, length_make _⟩ ?_ h1
    · rw [← h2]; exact this
    · rintro i ⟨k, d, j⟩ ⟨k', d', j'⟩ ⟨hk, hd, hj⟩ hb
      simp only at hk hd hj
      simp only [Option.bind_eq_some, Option.some.injEq] at hb
      obtain ⟨start, -, ⟨high, low⟩, -, hb⟩ := hb
      simp only at hb
      by_cases hc : high ≠ low <;> by_cases hf : i = period - 1
      · simp only [if_pos hc, if_pos hf, Option.bind_eq_some, Option.some_bind,
          Option.some.injEq, Prod.mk.injEq] at hb
        obtain ⟨_, -, k1, hk1, d1, hd1, _, -, _, -, j1, hj1, rfl, rfl, rfl⟩ := hb
        exact ⟨by rw [setIdx_length _ _ _ _ hk1, hk], by rw [setIdx_length _ _ _ _ hd1, hd],
          by rw [setIdx_length _ _ _ _ hj1, hj]⟩
      · simp only [if_pos hc, if_neg hf, Option.bind_eq_some, Option.some_bind,
          Option.some.injEq, Prod.mk.injEq] at hb
        obtain ⟨_, -, _, -, k1, hk1, _, -, _, -, d1, hd1, _, -, _, -, j1, hj1, rfl, rfl, rfl⟩ :=
          hb
        exact ⟨by rw [setIdx_length _ _ _ _ hk1, hk], by rw [setIdx_length _ _ _ _ hd1, hd],
          by rw [setIdx_length _ _ _ _ hj1, hj]⟩
      · simp only [if_neg hc, if_pos hf, Option.bind_eq_some, Option.some_bind,
          Option.some.injEq, Prod.mk.injEq] at hb
        obtain ⟨k1, hk1, d1, hd1, _, -, _, -, j1, hj1, rfl, rfl, rfl⟩ := hb
        exact ⟨by rw [setIdx_length _ _ _ _ hk1, hk], by rw [setIdx_length _ _ _ _ hd1, hd],
          by rw [setIdx_length _ _ _ _ hj1, hj]⟩
      · simp only [if_neg hc, if_neg hf, Option.bind_eq_some, Option.some_bind,
          Option.some.injEq, Prod.mk.injEq] at hb
        obtain ⟨_, -, k1, hk1, _, -, _, -, d1, hd1, _, -, _, -, j1, hj1, rfl, rfl, rfl⟩ := hb
        exact ⟨by rw [setIdx_length _ _ _ _ hk1, hk], by rw [setIdx_length _ _ _ _ hd1, hd],
          by rw [setIdx_length _ _ _ _ hj1, hj]⟩

theorem CalculateBollinger_length (sqrt : ℚ → ℚ) (prices : List ℚ) (period : Int)
    (r : BollingerResult) (h : CalculateBollinger sqrt prices period = some (some r)) :
    r.Upper.length = prices.length ∧ r.Middle.length = prices.length ∧
      r.Lower.length = prices.length := by
  unfold CalculateBollinger at h
  split at h
  · exact absurd h (by simp)
  · simp only [Option.bind_eq_bind, Option.pure_def, Option.bind_eq_some, Option.some.injEq]
      at h
    obtain ⟨⟨u, m, l⟩, h1, h2⟩ := h
    simp only at h2
    have := forUp_preserves (fun t : List ℚ × List ℚ × List ℚ =>
      t.1.length = prices.length ∧ t.2.1.length = prices.length ∧
      t.2.2.length = prices.length) _ _ _ _ _
      ⟨length_make _, length_make _, length_make _⟩ ?_ h1
    · rw [← h2]; exact this
    · rintro i ⟨u, m, l⟩ ⟨u', m', l'⟩ ⟨hu, hm, hl⟩ hb
      simp only at hu hm hl
      simp only [Option.bind_eq_some, Option.some.injEq, Prod.mk.injEq] at hb
      obtain ⟨_, -, _, -, m1, hm1, u1, hu1, l1, hl1, rfl, rfl, rfl⟩ := hb
      exact ⟨by rw [setIdx_length _ _ _ _ hu1, hu], by rw [setIdx_length _ _ _ _ hm1, hm],
        by rw [setIdx_length _ _ _ _ hl1, hl]⟩

theorem nth_of_length_le (a : List ℚ) (j : Int) (h : (a.length : Int) ≤ j) : nth a j = 0 := by
  simp [nth, idx_eq_none_of_le a j h]

theorem CalculateRSI_nil (prices : List ℚ) (period : Int)
    (h : (prices.length : Int) < period + 1) : CalculateRSI prices period = some none := by
  unfold CalculateRSI
  rw [if_pos h]

theorem CalculateKDJ_nil (prices : List ℚ) (period : Int) (h : (prices.length : Int) < period) :
    CalculateKDJ prices period = some none := by
  unfold CalculateKDJ
  rw [if_pos h]

theorem CalculateBollinger_nil (sqrt : ℚ → ℚ) (prices : List ℚ) (period : Int)
    (h : (prices.length : Int) < period) : CalculateBollinger sqrt prices period = some none := by
  unfold CalculateBollinger
  rw [if_pos h]

theorem CalculateMACD_nil (prices : List ℚ) (h : (prices.length : Int) < 26) :
    CalculateMACD prices = some none := by
  unfold CalculateMACD
  rw [if_pos h]

/-- On a non-decreasing series of 26 prices or more the MACD line is nowhere
negative, and neither is the histogram before index 33. -/
theorem macd_monotone (prices : List ℚ) (hlen : (26 : Int) ≤ prices.length)
    (hmono : ∀ i j : Int, 0 ≤ i → i ≤ j → j < prices.length → nth prices i ≤ nth prices j) :
    ∃ r, CalculateMACD prices = some (some r) ∧ (∀ j : Int, 0 ≤ nth r.MACD j) ∧
      ∀ j : Int, j < 33 → 0 ≤ nth r.Hist j := by
  obtain ⟨e12, e26, m, sg, h, h12, h26, hsg, hr, hml, hhl, hmz, hmr, hhz, hhr, hhz', hsmall,
    hbig⟩ := CalculateMACD_char prices hlen
  obtain ⟨a12, ha12, -, -, hs12, hr12⟩ := CalculateEMA_char prices 12 (by omega) (by omega)
  obtain ⟨a26, ha26, -, -, hs26, hr26⟩ := CalculateEMA_char prices 26 (by omega) (by omega)
  rw [h12] at ha12
  rw [h26] at ha26
  simp only [Option.some.injEq] at ha12 ha26
  subst ha12 ha26
  have hge := ema12_ge_ema26 prices e12 e26 hlen hmono hs12 hr12 hs26 hr26
  have hm0 : ∀ j : Int, 0 ≤ nth m j := by
    intro j
    by_cases h1 : j < 25
    · rw [hmz j h1]
    · by_cases h2 : j < prices.length
      · rw [hmr j (by omega) h2]
        linarith [hge j (by omega) h2]
      · rw [nth_of_length_le m j (by rw [hml]; omega)]
  refine ⟨_, hr, hm0, ?_⟩
  intro j hj
  show 0 ≤ nth h j
  by_cases h1 : j < 25
  · rw [hhz j h1]
  · by_cases h2 : (prices.length : Int) < 34
    · have hnone := hsmall h2
      subst hnone
      rw [hhz' j (by simp [elems]; omega)]
    · obtain ⟨s, hs, hsl⟩ := hbig (by omega)
      subst hs
      obtain ⟨s', hs', -, hz, -⟩ := CalculateEMA_char (m.drop 25) 9 (by omega)
        (by rw [List.length_drop, hml]; omega)
      rw [hsg] at hs'
      simp only [Option.some.injEq] at hs'
      subst hs'
      have hel : elems (some s) = s := rfl
      rw [hel] at hhr
      rw [hhr j (by omega) (by omega), hz (j - 25) (by omega), sub_zero]
      exact hm0 j

/-! ## The high and the low of a window -/

theorem foldr_max_ge (l : List ℚ) (b : ℚ) :
    b ≤ l.foldr max b ∧ ∀ x ∈ l, x ≤ l.foldr max b := by
  induction l with
  | nil => exact ⟨le_rfl, fun x hx => absurd hx (List.not_mem_nil x)⟩
  | cons a l ih =>
    refine ⟨le_trans ih.1 (le_max_right _ _), ?_⟩
    intro x hx
    rcases List.mem_cons.mp hx with h | h
    · rw [h]; exact le_max_left _ _
    · exact le_trans (ih.2 x h) (le_max_right _ _)

theorem foldr_max_mem (l : List ℚ) (b : ℚ) : l.foldr max b = b ∨ l.foldr max b ∈ l := by
  induction l with
  | nil => exact Or.inl rfl
  | cons a l ih =>
    rcases le_total a (l.foldr max b) with h | h
    · rw [List.foldr_cons, max_eq_right h]
      rcases ih with h1 | h1
      · exact Or.inl h1
      · exact Or.inr (List.mem_cons_of_mem _ h1)
    · rw [List.foldr_cons, max_eq_left h]
      exact Or.inr (List.mem_cons_self _ _)

theorem foldr_min_le (l : List ℚ) (b : ℚ) :
    l.foldr min b ≤ b ∧ ∀ x ∈ l, l.foldr min b ≤ x := by
  induction l with
  | nil => exact ⟨le_rfl, fun x hx => absurd hx (List.not_mem_nil x)⟩
  | cons a l ih =>
    refine ⟨le_trans (min_le_right _ _) ih.1, ?_⟩
    intro x hx
    rcases List.mem_cons.mp hx with h | h
    · rw [h]; exact min_le_left _ _
    · exact le_trans (min_le_right _ _) (ih.2 x h)

theorem foldr_min_mem (l : List ℚ) (b : ℚ) : l.foldr min b = b ∨ l.foldr min b ∈ l := by
  induction l with
  | nil => exact Or.inl rfl
  | cons a l ih =>
    rcases le_total a (l.foldr min b) with h | h
    · rw [List.foldr_cons, min_eq_left h]
      exact Or.inr (List.mem_cons_self _ _)
    · rw [List.foldr_cons, min_eq_right h]
      rcases ih with h1 | h1
      · exact Or.inl h1
      · exact Or.inr (List.mem_cons_of_mem _ h1)

/-- The high of a window is the greatest of its prices, the low the least. -/
theorem window_high_low (prices : List ℚ) (period t : Int) (hp : 1 ≤ period) :
    (∀ p : Nat, (p : Int) < period →
      nth prices (t - p) ≤ windowHigh prices period t ∧
      windowLow prices period t ≤ nth prices (t - p)) ∧
    (∃ p : Nat, (p : Int) < period ∧ nth prices (t - p) = windowHigh prices period t) ∧
    ∃ p : Nat, (p : Int) < period ∧ nth prices (t - p) = windowLow prices period t := by
  have hmem : ∀ p : Nat, (p : Int) < period → nth prices (t - p) ∈
      (List.range period.toNat).map fun (p : Nat) => nth prices (t - p) := fun p hp' =>
    List.mem_map.mpr ⟨p, List.mem_range.mpr (by omega), rfl⟩
  have h0 : nth prices (t - ((0 : Nat) : Int)) = nth prices t := by simp
  refine ⟨fun p hp' => ⟨(foldr_max_ge _ _).2 _ (hmem p hp'), (foldr_min_le _ _).2 _ (hmem p hp')⟩,
    ?_, ?_⟩
  · rcases foldr_max_mem ((List.range period.toNat).map fun (p : Nat) => nth prices (t - p))
      (nth prices t) with h | h
    · exact ⟨0, by omega, by rw [h0]; exact h.symm⟩
    · obtain ⟨p, hp', hv⟩ := List.mem_map.mp h
      exact ⟨p, by have := List.mem_range.mp hp'; omega, hv⟩
  · rcases foldr_min_mem ((List.range period.toNat).map fun (p : Nat) => nth prices (t - p))
      (nth prices t) with h | h
    · exact ⟨0, by omega, by rw [h0]; exact h.symm⟩
    · obtain ⟨p, hp', hv⟩ := List.mem_map.mp h
      exact ⟨p, by have := List.mem_range.mp hp'; omega, hv⟩

/-! ## The properties of the specification -/

/-- Reads a property of the returned value off an evaluation of the call. -/
theorem returns_of_decide {α : Type} (o : Option (Option α)) (P : α → Prop) [DecidablePred P]
    (h : (match o with
      | some (some r) => decide (P r)
      | _ => false) = true) : ∃ r, o = some (some r) ∧ P r := by
  match o, h with
  | some (some r), h => exact ⟨r, rfl, of_decide_eq_true h⟩

/-- C1: on `period >= 1` and at least `period` prices, `CalculateEMA` returns a
list `e` that is `0` before index `period-1`, holds the simple average of the
first `period` prices at index `period-1`, and satisfies
`e[j] = (prices[j] - e[j-1]) * 2/(period+1) + e[j-1]` at every later index. -/
theorem CalculateEMA_spec (prices : List ℚ) (period : Int) (hp : 1 ≤ period)
    (hlen : period ≤ prices.length) :
    ∃ e, CalculateEMA prices period = some (some e) ∧ e.length = prices.length ∧
      (∀ i : Int, 0 ≤ i → i < period - 1 → nth e i = 0) ∧
      nth e (period - 1) = (prices.take period.toNat).sum / (period : ℚ) ∧
      ∀ j : Int, period ≤ j → j < prices.length →
        nth e j = (nth prices j - nth e (j - 1)) * (2 / ((period : ℚ) + 1)) + nth e (j - 1) := by
  obtain ⟨e, he, hl, hz, hs, hr⟩ := CalculateEMA_char prices period hp hlen
  exact ⟨e, he, hl, fun i _ hi => hz i hi, hs, hr⟩

theorem CalculateEMA_spec_witness :
    (1 : Int) ≤ 3 ∧ (3 : Int) ≤ scenarioPrices.length ∧
    ∃ e, CalculateEMA scenarioPrices 3 = some (some e) ∧ e.length = scenarioPrices.length ∧
      (∀ i : Int, 0 ≤ i → i < 3 - 1 → nth e i = 0) ∧
      nth e (3 - 1) = (scenarioPrices.take (3 : Int).toNat).sum / ((3 : Int) : ℚ) ∧
      ∀ j : Int, 3 ≤ j → j < scenarioPrices.length →
        nth e j = (nth scenarioPrices j - nth e (j - 1)) * (2 / (((3 : Int) : ℚ) + 1))
          + nth e (j - 1) :=
  ⟨by decide, by decide, CalculateEMA_spec scenarioPrices 3 (by decide) (by decide)⟩

/-- C2, as stated, fails: on `[1.00, 1.05, 1.10, 1.08, 1.15]` with period 3
the values of `CalculateEMA` at indices 2, 3 and 4 are not all within `1e-3`
of `1.05`, `1.0767` and `1.1133`. -/
theorem CalculateEMA_scenario_counterexample :
    ¬ ∃ e, CalculateEMA [1.00, 1.05, 1.10, 1.08, 1.15] 3 = some (some e) ∧
      |nth e 2 - 1.05| ≤ 1 / 1000 ∧ |nth e 3 - 1.0767| ≤ 1 / 1000 ∧
      |nth e 4 - 1.1133| ≤ 1 / 1000 := by
  rintro ⟨e, he, -, h3, -⟩
  have hv : CalculateEMA [1.00, 1.05, 1.10, 1.08, 1.15] 3
      = some (some [0, 0, 1.05, 1.065, 1.1075]) := by decide!
  rw [hv] at he
  simp only [Option.some.injEq] at he
  subst he
  have h : nth [0, 0, 1.05, 1.065, 1.1075] 3 = 1.065 := by decide!
  rw [h] at h3
  norm_num [abs_le] at h3

/-- C2, amended: on `[1.00, 1.05, 1.10, 1.08, 1.15]` with period 3
`CalculateEMA` returns `[0, 0, 1.05, 1.065, 1.1075]`. -/
theorem CalculateEMA_scenario :
    CalculateEMA [1.00, 1.05, 1.10, 1.08, 1.15] 3 = some (some [0, 0, 1.05, 1.065, 1.1075]) := by
  decide!

/-- C3: on `period >= 1` and at least `period+1` prices, `CalculateRSI` returns
a list that is `0` before index `period` and at index `period + n` holds the
RSI of the Wilder-smoothed averages of the day-over-day gains and losses:
`100` if the average loss is `0`, else `100 - 100/(1 + avgGain/avgLoss)`. -/
theorem CalculateRSI_spec (prices : List ℚ) (period : Int) (hp : 1 ≤ period)
    (hlen : period + 1 ≤ prices.length) :
    ∃ r, CalculateRSI prices period = some (some r) ∧ r.length = prices.length ∧
      (∀ i : Int, 0 ≤ i → i < period → nth r i = 0) ∧
      ∀ n : Nat, period + n < prices.length →
        nth r (period + n) =
          if wilderAvg (lossSpec prices) period n = 0 then 100
          else 100 - 100 / (1 + wilderAvg (gainSpec prices) period n
            / wilderAvg (lossSpec prices) period n) := by
  obtain ⟨r, he, hl, hz, hr⟩ := CalculateRSI_char prices period hp hlen
  exact ⟨r, he, hl, fun i _ hi => hz i hi, hr⟩

theorem CalculateRSI_spec_witness :
    (1 : Int) ≤ 3 ∧ (3 : Int) + 1 ≤ scenarioPrices.length ∧
    ∃ r, CalculateRSI scenarioPrices 3 = some (some r) ∧ r.length = scenarioPrices.length ∧
      (∀ i : Int, 0 ≤ i → i < 3 → nth r i = 0) ∧
      ∀ n : Nat, (3 : Int) + n < scenarioPrices.length →
        nth r (3 + n) =
          if wilderAvg (lossSpec scenarioPrices) 3 n = 0 then 100
          else 100 - 100 / (1 + wilderAvg (gainSpec scenarioPrices) 3 n
            / wilderAvg (lossSpec scenarioPrices) 3 n) :=
  ⟨by decide, by decide, CalculateRSI_spec scenarioPrices 3 (by decide) (by decide)⟩

/-- C4, as stated, fails: on 26 prices rising by one a day `CalculateMACD`
returns a nil `Signal` and a histogram that is `0` at index 25, where the MACD
line is `7`; there is no `Signal[0]` and `Hist[25]` is not `MACD[25]` minus
it. -/
theorem CalculateMACD_counterexample :
    ∃ r, CalculateMACD steadyPrices = some (some r) ∧
      (26 ≤ steadyPrices.length ∧ r.Signal = none ∧ idx (elems r.Signal) (25 - 25) = none ∧
        nth r.MACD 25 = 7 ∧ nth r.Hist 25 = 0 ∧
        nth r.Hist 25 ≠ nth r.MACD 25 - nth (elems r.Signal) (25 - 25)) :=
  returns_of_decide _ _ (by decide!)

/-- C4, amended: on 26 prices or more `CalculateMACD` returns the MACD line
`EMA12[j] - EMA26[j]` from index 25 on and `0` before; `Signal` is
`CalculateEMA(MACD[25:], 9)`, which is nil below 34 prices and has
`len(prices) - 25` entries otherwise; and `Hist[j] = MACD[j] - Signal[j-25]`
exactly for `25 <= j < 25 + len(Signal)`, the histogram being `0` at every
other index. -/
theorem CalculateMACD_spec (prices : List ℚ) (hlen : (26 : Int) ≤ prices.length) :
    ∃ e12 e26 r,
      CalculateEMA prices 12 = some (some e12) ∧ CalculateEMA prices 26 = some (some e26) ∧
      CalculateMACD prices = some (some r) ∧
      r.MACD.length = prices.length ∧ r.Hist.length = prices.length ∧
      (∀ j : Int, 0 ≤ j → j < 25 → nth r.MACD j = 0) ∧
      (∀ j : Int, 25 ≤ j → j < prices.length → nth r.MACD j = nth e12 j - nth e26 j) ∧
      CalculateEMA (r.MACD.drop 25) 9 = some r.Signal ∧
      ((prices.length : Int) < 34 → r.Signal = none) ∧
      ((34 : Int) ≤ prices.length →
        ∃ s, r.Signal = some s ∧ (s.length : Int) = prices.length - 25) ∧
      (∀ j : Int, 25 ≤ j → j < 25 + (elems r.Signal).length →
        nth r.Hist j = nth r.MACD j - nth (elems r.Signal) (j - 25)) ∧
      (∀ j : Int, 0 ≤ j → j < 25 → nth r.Hist j = 0) ∧
      (∀ j : Int, 25 + ((elems r.Signal).length : Int) ≤ j → nth r.Hist j = 0) := by
  obtain ⟨e12, e26, m, sg, h, h12, h26, hsg, hr, hml, hhl, hmz, hmr, hhz, hhr, hhz', hsmall,
    hbig⟩ := CalculateMACD_char prices hlen
  exact ⟨e12, e26, _, h12, h26, hr, hml, hhl, fun j _ hj => hmz j hj, hmr, hsg, hsmall, hbig,
    hhr, fun j _ hj => hhz j hj, hhz'⟩

theorem CalculateMACD_spec_witness :
    (26 : Int) ≤ slowingPrices.length ∧
    ∃ e12 e26 r,
      CalculateEMA slowingPrices 12 = some (some e12) ∧
      CalculateEMA slowingPrices 26 = some (some e26) ∧
      CalculateMACD slowingPrices = some (some r) ∧
      r.MACD.length = slowingPrices.length ∧ r.Hist.length = slowingPrices.length ∧
      (∀ j : Int, 0 ≤ j → j < 25 → nth r.MACD j = 0) ∧
      (∀ j : Int, 25 ≤ j → j < slowingPrices.length → nth r.MACD j = nth e12 j - nth e26 j) ∧
      CalculateEMA (r.MACD.drop 25) 9 = some r.Signal ∧
      ((slowingPrices.length : Int) < 34 → r.Signal = none) ∧
      ((34 : Int) ≤ slowingPrices.length →
        ∃ s, r.Signal = some s ∧ (s.length : Int) = slowingPrices.length - 25) ∧
      (∀ j : Int, 25 ≤ j → j < 25 + (elems r.Signal).length →
        nth r.Hist j = nth r.MACD j - nth (elems r.Signal) (j - 25)) ∧
      (∀ j : Int, 0 ≤ j → j < 25 → nth r.Hist j = 0) ∧
      (∀ j : Int, 25 + ((elems r.Signal).length : Int) ≤ j → nth r.Hist j = 0) :=
  ⟨by decide, CalculateMACD_spec slowingPrices (by decide)⟩

/-- C5: on `period >= 1` and at least `period` prices, `CalculateKDJ` returns
`K`, `D`, `J` with `K = D = RSV` at index `period-1`, with
`K = 2/3*K_prev + 1/3*RSV` and `D = 2/3*D_prev + 1/3*K` at every later index,
and `J = 3K - 2D` at every index from `period-1` on, where `RSV` at an index is
`(price - low)/(high - low)*100` over the high (greatest) and the low (least)
of the trailing `period` prices, and `0` when `high == low`. -/
theorem CalculateKDJ_spec (prices : List ℚ) (period : Int) (hp : 1 ≤ period)
    (hlen : period ≤ prices.length) :
    ∃ r, CalculateKDJ prices period = some (some r) ∧
      r.K.length = prices.length ∧ r.D.length = prices.length ∧
      r.J.length = prices.length ∧
      nth r.K (period - 1) = rsvSpec prices period (period - 1) ∧
      nth r.D (period - 1) = rsvSpec prices period (period - 1) ∧
      (∀ t : Int, period ≤ t → t < prices.length →
        nth r.K t = 2 / 3 * nth r.K (t - 1) + 1 / 3 * rsvSpec prices period t ∧
        nth r.D t = 2 / 3 * nth r.D (t - 1) + 1 / 3 * nth r.K t) ∧
      (∀ t : Int, period - 1 ≤ t → t < prices.length →
        nth r.J t = 3 * nth r.K t - 2 * nth r.D t) ∧
      ∀ t : Int, period - 1 ≤ t → t < prices.length →
        (rsvSpec prices period t =
          if windowHigh prices period t = windowLow prices period t then 0
          else (nth prices t - windowLow prices period t)
            / (windowHigh prices period t - windowLow prices period t) * 100) ∧
        (∀ p : Nat, (p : Int) < period →
          nth prices (t - p) ≤ windowHigh prices period t ∧
          windowLow prices period t ≤ nth prices (t - p)) ∧
        (∃ p : Nat, (p : Int) < period ∧ nth prices (t - p) = windowHigh prices period t) ∧
        ∃ p : Nat, (p : Int) < period ∧ nth prices (t - p) = windowLow prices period t := by
  obtain ⟨k, d, j, he, hkl, hdl, hjl, -, hk, hd, hr, hj⟩ :=
    CalculateKDJ_char prices period hp hlen
  exact ⟨_, he, hkl, hdl, hjl, hk, hd, hr, hj,
    fun t _ _ => ⟨rfl, window_high_low prices period t hp⟩⟩

theorem CalculateKDJ_spec_witness :
    (1 : Int) ≤ 3 ∧ (3 : Int) ≤ scenarioPrices.length ∧
    ∃ r, CalculateKDJ scenarioPrices 3 = some (some r) ∧
      r.K.length = scenarioPrices.length ∧ r.D.length = scenarioPrices.length ∧
      r.J.length = scenarioPrices.length ∧
      nth r.K (3 - 1) = rsvSpec scenarioPrices 3 (3 - 1) ∧
      nth r.D (3 - 1) = rsvSpec scenarioPrices 3 (3 - 1) ∧
      (∀ t : Int, 3 ≤ t → t < scenarioPrices.length →
        nth r.K t = 2 / 3 * nth r.K (t - 1) + 1 / 3 * rsvSpec scenarioPrices 3 t ∧
        nth r.D t = 2 / 3 * nth r.D (t - 1) + 1 / 3 * nth r.K t) ∧
      (∀ t : Int, 3 - 1 ≤ t → t < scenarioPrices.length →
        nth r.J t = 3 * nth r.K t - 2 * nth r.D t) ∧
      ∀ t : Int, 3 - 1 ≤ t → t < scenarioPrices.length →
        (rsvSpec scenarioPrices 3 t =
          if windowHigh scenarioPrices 3 t = windowLow scenarioPrices 3 t then 0
          else (nth scenarioPrices t - windowLow scenarioPrices 3 t)
            / (windowHigh scenarioPrices 3 t - windowLow scenarioPrices 3 t) * 100) ∧
        (∀ p : Nat, (p : Int) < 3 →
          nth scenarioPrices (t - p) ≤ windowHigh scenarioPrices 3 t ∧
          windowLow scenarioPrices 3 t ≤ nth scenarioPrices (t - p)) ∧
        (∃ p : Nat, (p : Int) < 3 ∧ nth scenarioPrices (t - p) = windowHigh scenarioPrices 3 t) ∧
        ∃ p : Nat, (p : Int) < 3 ∧ nth scenarioPrices (t - p) = windowLow scenarioPrices 3 t :=
  ⟨by decide, by decide, CalculateKDJ_spec scenarioPrices 3 (by decide) (by decide)⟩

/-- C6: for `period >= 1` each indicator function returns nil exactly on
insufficient data (`CalculateEMA`, `CalculateKDJ`, `CalculateBollinger`: fewer
than `period` prices; `CalculateRSI`: fewer than `period+1`; `CalculateMACD`:
fewer than 26), and otherwise returns a result, without a run-time panic. -/
theorem insufficient_data (sqrt : ℚ → ℚ) (prices : List ℚ) (period : Int) (hp : 1 ≤ period) :
    (CalculateEMA prices period = some none ↔ (prices.length : Int) < period) ∧
    (period ≤ prices.length → ∃ e, CalculateEMA prices period = some (some e)) ∧
    (CalculateKDJ prices period = some none ↔ (prices.length : Int) < period) ∧
    (period ≤ prices.length → ∃ r, CalculateKDJ prices period = some (some r)) ∧
    (CalculateBollinger sqrt prices period = some none ↔ (prices.length : Int) < period) ∧
    (period ≤ prices.length → ∃ r, CalculateBollinger sqrt prices period = some (some r)) ∧
    (CalculateRSI prices period = some none ↔ (prices.length : Int) < period + 1) ∧
    (period + 1 ≤ prices.length → ∃ r, CalculateRSI prices period = some (some r)) ∧
    (CalculateMACD prices = some none ↔ (prices.length : Int) < 26) ∧
    ((26 : Int) ≤ prices.length → ∃ r, CalculateMACD prices = some (some r)) := by
  have hE : period ≤ prices.length → ∃ e, CalculateEMA prices period = some (some e) :=
    fun h => by
      obtain ⟨e, he, -⟩ := CalculateEMA_char prices period hp h
      exact ⟨e, he⟩
  have hK : period ≤ prices.length → ∃ r, CalculateKDJ prices period = some (some r) :=
    fun h => by
      obtain ⟨k, d, j, he, -⟩ := CalculateKDJ_char prices period hp h
      exact ⟨_, he⟩
  have hB : period ≤ prices.length →
      ∃ r, CalculateBollinger sqrt prices period = some (some r) := fun h => by
    obtain ⟨u, m, l, he, -⟩ := CalculateBollinger_char sqrt prices period hp h
    exact ⟨_, he⟩
  have hR : period + 1 ≤ prices.length → ∃ r, CalculateRSI prices period = some (some r) :=
    fun h => by
      obtain ⟨r, he, -⟩ := CalculateRSI_char prices period hp h
      exact ⟨r, he⟩
  have hM : (26 : Int) ≤ prices.length → ∃ r, CalculateMACD prices = some (some r) :=
    fun h => by
      obtain ⟨e12, e26, m, sg, hh, -, -, -, he, -⟩ := CalculateMACD_char prices h
      exact ⟨_, he⟩
  refine ⟨⟨fun h => ?_, CalculateEMA_nil prices period⟩, hE,
    ⟨fun h => ?_, CalculateKDJ_nil prices period⟩, hK,
    ⟨fun h => ?_, CalculateBollinger_nil sqrt prices period⟩, hB,
    ⟨fun h => ?_, CalculateRSI_nil prices period⟩, hR,
    ⟨fun h => ?_, CalculateMACD_nil prices⟩, hM⟩
  · by_contra hc
    obtain ⟨e, he⟩ := hE (by omega)
    rw [he] at h; simp at h
  · by_contra hc
    obtain ⟨e, he⟩ := hK (by omega)
    rw [he] at h; simp at h
  · by_contra hc
    obtain ⟨e, he⟩ := hB (by omega)
    rw [he] at h; simp at h
  · by_contra hc
    obtain ⟨e, he⟩ := hR (by omega)
    rw [he] at h; simp at h
  · by_contra hc
    obtain ⟨e, he⟩ := hM (by omega)
    rw [he] at h; simp at h

theorem insufficient_data_witness :
    (1 : Int) ≤ 3 ∧
    ((CalculateEMA scenarioPrices 3 = some none ↔ (scenarioPrices.length : Int) < 3) ∧
    ((3 : Int) ≤ scenarioPrices.length → ∃ e, CalculateEMA scenarioPrices 3 = some (some e)) ∧
    (CalculateKDJ scenarioPrices 3 = some none ↔ (scenarioPrices.length : Int) < 3) ∧
    ((3 : Int) ≤ scenarioPrices.length → ∃ r, CalculateKDJ scenarioPrices 3 = some (some r)) ∧
    (CalculateBollinger ratSqrt scenarioPrices 3 = some none
      ↔ (scenarioPrices.length : Int) < 3) ∧
    ((3 : Int) ≤ scenarioPrices.length →
      ∃ r, CalculateBollinger ratSqrt scenarioPrices 3 = some (some r)) ∧
    (CalculateRSI scenarioPrices 3 = some none ↔ (scenarioPrices.length : Int) < 3 + 1) ∧
    ((3 : Int) + 1 ≤ scenarioPrices.length →
      ∃ r, CalculateRSI scenarioPrices 3 = some (some r)) ∧
    (CalculateMACD scenarioPrices = some none ↔ (scenarioPrices.length : Int) < 26) ∧
    ((26 : Int) ≤ scenarioPrices.length →
      ∃ r, CalculateMACD scenarioPrices = some (some r))) :=
  ⟨by decide, insufficient_data ratSqrt scenarioPrices 3 (by decide)⟩

/-- C7, as stated, fails: on 34 prices `CalculateMACD` returns a `Signal` of
9 entries, not 34. -/
theorem result_lengths_counterexample :
    ∃ r, CalculateMACD slowingPrices = some (some r) ∧
      (slowingPrices.length = 34 ∧ (elems r.Signal).length = 9 ∧
        (elems r.Signal).length ≠ slowingPrices.length) :=
  returns_of_decide _ _ (by decide!)

/-- C7, amended: whenever an indicator function returns a result, the EMA
list, the RSI list, KDJ's `K`, `D`, `J`, Bollinger's `Upper`, `Middle`, `Lower`
and MACD's `MACD` and `Hist` have exactly `len(prices)` entries; MACD's
`Signal` is aligned with the prices from index 25 on: it has
`len(prices) - 25` entries on 34 prices or more, and is nil below that. -/
theorem result_lengths (sqrt : ℚ → ℚ) (prices : List ℚ) (period : Int) :
    (∀ e, CalculateEMA prices period = some (some e) → e.length = prices.length) ∧
    (∀ r, CalculateRSI prices period = some (some r) → r.length = prices.length) ∧
    (∀ r, CalculateKDJ prices period = some (some r) →
      r.K.length = prices.length ∧ r.D.length = prices.length ∧
      r.J.length = prices.length) ∧
    (∀ r, CalculateBollinger sqrt prices period = some (some r) →
      r.Upper.length = prices.length ∧ r.Middle.length = prices.length ∧
      r.Lower.length = prices.length) ∧
    (∀ r, CalculateMACD prices = some (some r) →
      r.MACD.length = prices.length ∧ r.Hist.length = prices.length ∧
      ((34 : Int) ≤ prices.length →
        ∃ s, r.Signal = some s ∧ (s.length : Int) = prices.length - 25) ∧
      ((prices.length : Int) < 34 → r.Signal = none)) := by
  refine ⟨CalculateEMA_length prices period, CalculateRSI_length prices period,
    CalculateKDJ_length prices period, CalculateBollinger_length sqrt prices period, ?_⟩
  intro r hr
  by_cases hlen : (prices.length : Int) < 26
  · rw [CalculateMACD_nil prices hlen] at hr
    simp at hr
  · obtain ⟨e12, e26, m, sg, h, -, -, -, he, hml, hhl, -, -, -, -, -, hsmall, hbig⟩ :=
      CalculateMACD_char prices (by omega)
    rw [he] at hr
    simp only [Option.some.injEq] at hr
    subst hr
    exact ⟨hml, hhl, hbig, hsmall⟩

/-- C8: on a constant series (every price `c`) and `period >= 1`, wherever a
result is returned, `CalculateEMA` is `c` at every index from `period-1` on,
`CalculateBollinger` has `Upper = Middle = Lower = c` there (the square root of
`0` being `0`), and `CalculateRSI` is `100` at every index from `period` on. -/
theorem constant_series (sqrt : ℚ → ℚ) (hsqrt : sqrt 0 = 0) (n : Nat) (c : ℚ) (period : Int)
    (hp : 1 ≤ period) :
    (period ≤ n → ∃ e, CalculateEMA (List.replicate n c) period = some (some e) ∧
      ∀ j : Int, period - 1 ≤ j → j < n → nth e j = c) ∧
    (period ≤ n → ∃ b, CalculateBollinger sqrt (List.replicate n c) period = some (some b) ∧
      ∀ j : Int, period - 1 ≤ j → j < n →
        nth b.Upper j = c ∧ nth b.Middle j = c ∧ nth b.Lower j = c) ∧
    (period + 1 ≤ n → ∃ r, CalculateRSI (List.replicate n c) period = some (some r) ∧
      ∀ j : Int, period ≤ j → j < n → nth r j = 100) :=
  ⟨ema_constant n c period hp, bollinger_constant sqrt hsqrt n c period hp,
    rsi_constant n c period hp⟩

theorem constant_series_witness :
    ratSqrt 0 = 0 ∧ (1 : Int) ≤ 3 ∧
    (((3 : Int) ≤ (5 : Nat) →
      ∃ e, CalculateEMA (List.replicate 5 (2 : ℚ)) 3 = some (some e) ∧
        ∀ j : Int, 3 - 1 ≤ j → j < (5 : Nat) → nth e j = 2) ∧
    ((3 : Int) ≤ (5 : Nat) →
      ∃ b, CalculateBollinger ratSqrt (List.replicate 5 (2 : ℚ)) 3 = some (some b) ∧
        ∀ j : Int, 3 - 1 ≤ j → j < (5 : Nat) →
          nth b.Upper j = 2 ∧ nth b.Middle j = 2 ∧ nth b.Lower j = 2) ∧
    ((3 : Int) + 1 ≤ (5 : Nat) →
      ∃ r, CalculateRSI (List.replicate 5 (2 : ℚ)) 3 = some (some r) ∧
        ∀ j : Int, 3 ≤ j → j < (5 : Nat) → nth r j = 100)) :=
  ⟨by decide!, by decide, constant_series ratSqrt (by decide!) 5 2 3 (by decide)⟩

/-- C9, as stated, fails: on 34 strictly increasing prices whose growth slows
down after day 26, the histogram returned by `CalculateMACD` is negative at
index 33. -/
theorem CalculateMACD_increasing_counterexample :
    ∃ r, CalculateMACD slowingPrices = some (some r) ∧
      (26 ≤ slowingPrices.length ∧ slowingPrices.Pairwise (fun a b => a < b) ∧
        nth r.Hist 33 < 0) :=
  returns_of_decide _ _ (by decide!)

/-- C9, amended: on a strictly increasing series of 26 prices or more,
`CalculateMACD` returns a MACD line that is nowhere negative, and a histogram
that is not negative at any index below 33 (where no signal value is computed
yet); from index 33 on the histogram can be negative. -/
theorem CalculateMACD_increasing (prices : List ℚ) (hlen : (26 : Int) ≤ prices.length)
    (hinc : prices.Pairwise (fun a b => a < b)) :
    ∃ r, CalculateMACD prices = some (some r) ∧ (∀ j : Int, 0 ≤ nth r.MACD j) ∧
      ∀ j : Int, j < 33 → 0 ≤ nth r.Hist j :=
  macd_monotone prices hlen
    (nth_mono_of_pairwise prices (hinc.imp (fun h => le_of_lt h)))

theorem CalculateMACD_increasing_witness :
    (26 : Int) ≤ slowingPrices.length ∧ slowingPrices.Pairwise (fun a b => a < b) ∧
    ∃ r, CalculateMACD slowingPrices = some (some r) ∧ (∀ j : Int, 0 ≤ nth r.MACD j) ∧
      ∀ j : Int, j < 33 → 0 ≤ nth r.Hist j :=
  ⟨by decide, by decide!, CalculateMACD_increasing slowingPrices (by decide) (by decide!)⟩

/-- C10: on a newest-first NAV history of any length with all NAVs positive,
`CalculateMaxDrawdown` returns, without error, a value `d` with
`0 <= d <= 100`; and `d = 0` when the history has fewer than 2 points or the
NAVs never fall as time goes on. -/
theorem CalculateMaxDrawdown_spec (histories : List NetValueHistory)
    (hpos : ∀ h ∈ histories, 0 < h.NetValue) :
    ∃ d, CalculateMaxDrawdown histories none = some (d, none) ∧ 0 ≤ d ∧ d ≤ 100 ∧
      ((histories.length < 2 ∨ histories.Pairwise (fun a b => b.NetValue ≤ a.NetValue)) →
        d = 0) :=
  CalculateMaxDrawdown_char histories hpos

theorem CalculateMaxDrawdown_spec_witness :
    (∀ h ∈ [navPoint 3, navPoint 4, navPoint 2, navPoint 1], 0 < h.NetValue) ∧
    ∃ d, CalculateMaxDrawdown [navPoint 3, navPoint 4, navPoint 2, navPoint 1] none
        = some (d, none) ∧ 0 ≤ d ∧ d ≤ 100 ∧
      (([navPoint 3, navPoint 4, navPoint 2, navPoint 1].length < 2 ∨
        [navPoint 3, navPoint 4, navPoint 2, navPoint 1].Pairwise
          (fun a b => b.NetValue ≤ a.NetValue)) → d = 0) :=
  ⟨by decide!, CalculateMaxDrawdown_spec _ (by decide!)⟩

/-! ## CalculateVolatility and calculateHistoricalReturn -/

theorem nth_zero_cons (a : ℚ) (l : List ℚ) : nth (a :: l) 0 = a := by
  simp [nth, idx]

theorem nth_succ_cons (a : ℚ) (l : List ℚ) (i : Int) (hi : 0 ≤ i) :
    nth (a :: l) (i + 1) = nth l i := by
  lift i to Nat using hi
  have h : ((i : Int) + 1) = ((i + 1 : Nat) : Int) := by push_cast; rfl
  rw [h, nth_natCast, nth_natCast]
  simp

theorem returnSeries_length : ∀ l : List ℚ, (returnSeries l).length = l.length - 1
  | [] => rfl
  | [_] => rfl
  | a :: b :: rest => by
    have ih := returnSeries_length (b :: rest)
    simp only [returnSeries, List.length_cons] at ih ⊢
    omega

theorem nth_returnSeries : ∀ (l : List ℚ) (i : Int), 0 ≤ i → i + 1 < l.length →
    nth (returnSeries l) i =
      if nth l (i + 1) > 0 then (nth l i - nth l (i + 1)) / nth l (i + 1) * 100 else 0
  | [], i, _, h => by simp at h; omega
  | [_], i, _, h => by simp at h; omega
  | a :: b :: rest, i, h0, h1 => by
    by_cases hi : i = 0
    · subst hi
      simp only [returnSeries, nth_zero_cons, zero_add]
      have : nth (a :: b :: rest) 1 = b := by
        have := nth_succ_cons a (b :: rest) 0 le_rfl
        rw [zero_add] at this
        rw [this, nth_zero_cons]
      rw [this]
    · have hi' : 0 ≤ i - 1 := by omega
      have e : i = (i - 1) + 1 := by ring
      have ih := nth_returnSeries (b :: rest) (i - 1) hi' (by
        simp only [List.length_cons] at h1 ⊢; push_cast at h1 ⊢; omega)
      rw [returnSeries]
      conv_lhs => rw [e]
      rw [nth_succ_cons _ _ _ hi', ih, nth_succ_cons a (b :: rest) i h0]
      have e2 : nth (a :: b :: rest) i = nth (b :: rest) (i - 1) := by
        conv_lhs => rw [e]
        rw [nth_succ_cons _ _ _ hi']
      rw [e2, sub_add_cancel]

theorem list_eq_of_nth (a b : List ℚ) (hl : a.length = b.length)
    (h : ∀ i : Int, 0 ≤ i → i < a.length → nth a i = nth b i) : a = b := by
  apply List.ext_getElem hl
  intro n h1 h2
  have := h n (by omega) (by exact_mod_cast h1)
  simpa [nth_natCast, List.getD_eq_getElem?_getD, List.getElem?_eq_getElem h1,
    List.getElem?_eq_getElem h2] using this

theorem idx_navs (histories : List NetValueHistory) (i : Int) (h0 : 0 ≤ i)
    (h1 : i < histories.length) :
    ∃ h, idx histories i = some h ∧ h.NetValue = nth (navs histories) i := by
  refine ⟨_, idx_eq_get histories i h0 h1, ?_⟩
  rw [nth, idx_eq_get (navs histories) i h0 (by simpa [navs] using h1)]
  simp [navs]

/-- The return loop builds the return series with one entry per pair. -/
theorem dailyReturns_eq (histories : List NetValueHistory) (hlen : 1 ≤ histories.length) :
    dailyReturns histories = some (returnSeries (navs histories)) := by
  have hnl : (navs histories).length = histories.length := by simp [navs]
  obtain ⟨r, he, hI⟩ := forUp_inv
    (fun i (r : List ℚ) => r.length = histories.length - 1 ∧
      (∀ k : Int, 0 ≤ k → k < i → nth r k = nth (returnSeries (navs histories)) k) ∧
      ∀ k : Int, i ≤ k → nth r k = 0)
    0 ((histories.length : Int) - 1) (fun i returns => do
      let h1 ← idx histories (i + 1)
      if h1.NetValue > 0 then do
        let h0 ← idx histories i
        let a ← idx histories (i + 1)
        let b ← idx histories (i + 1)
        setIdx returns i ((h0.NetValue - a.NetValue) / b.NetValue * 100)
      else pure returns) (make (histories.length - 1)) (by omega)
    ⟨length_make _, fun k h1 h2 => by omega, fun k _ => nth_make _ _⟩
    (by
      rintro i r hi0 hi1 ⟨hl, hr, hz⟩
      obtain ⟨h1, e1, v1⟩ := idx_navs histories (i + 1) (by omega) (by omega)
      obtain ⟨h0, e0, v0⟩ := idx_navs histories i hi0 (by omega)
      have hrs := nth_returnSeries (navs histories) i hi0 (by rw [hnl]; omega)
      by_cases hc : h1.NetValue > 0
      · refine ⟨r.set i.toNat ((h0.NetValue - h1.NetValue) / h1.NetValue * 100), ?_, ?_⟩
        · simp only [Option.bind_eq_bind, Option.pure_def, e1, e0, Option.some_bind, if_pos hc]
          exact setIdx_eq _ _ _ hi0 (by rw [hl]; omega)
        · refine ⟨by simp [hl], ?_, ?_⟩
          · intro k hk0 hk1
            by_cases hki : k = i
            · rw [hki, nth_set_self _ _ _ hi0 (by rw [hl]; omega), hrs, ← v1, ← v0, if_pos hc]
            · rw [nth_set_ne _ _ _ _ hi0 (fun h => hki h.symm)]
              exact hr k hk0 (by omega)
          · intro k hk
            rw [nth_set_ne _ _ _ _ hi0 (by omega)]
            exact hz k (by omega)
      · refine ⟨r, ?_, hl, ?_, fun k hk => hz k (by omega)⟩
        · simp only [Option.bind_eq_bind, Option.pure_def, e1, Option.some_bind, if_neg hc]
        · intro k hk0 hk1
          by_cases hki : k = i
          · rw [hki, hz i le_rfl, hrs, ← v1, if_neg hc]
          · exact hr k hk0 (by omega))
  obtain ⟨hl, hr, -⟩ := hI
  unfold dailyReturns
  rw [he]
  congr 1
  apply list_eq_of_nth
  · rw [hl, returnSeries_length, hnl]
  · intro k hk0 hk1
    exact hr k hk0 (by rw [hl] at hk1; omega)

theorem foldl_add_eq (f : ℚ → ℚ) (l : List ℚ) (a : ℚ) :
    l.foldl (fun s r => s + f r) a = a + (l.map f).sum := by
  induction l generalizing a with
  | nil => simp
  | cons x l ih => simp only [List.foldl_cons, ih, List.map_cons, List.sum_cons]; ring

/-- What `CalculateVolatility` returns on two records or more. -/
theorem CalculateVolatility_char (sqrt : ℚ → ℚ) (histories : List NetValueHistory)
    (hlen : 2 ≤ histories.length) :
    CalculateVolatility sqrt histories none =
      some (sqrt (popVar (returnSeries (navs histories))) * sqrt 250, none) := by
  have hnot : ¬ ((none : Option String) ≠ none ∨ histories.length < 2) := by
    rintro (h | h)
    · exact h rfl
    · omega
  have h1 := foldl_add_eq (fun x => x) (returnSeries (navs histories)) 0
  have h2 := fun m : ℚ => foldl_add_eq (fun x => (x - m) * (x - m))
    (returnSeries (navs histories)) 0
  simp only [List.map_id', zero_add] at h1 h2
  unfold CalculateVolatility
  rw [if_neg hnot, dailyReturns_eq histories (by omega)]
  simp only [Option.bind_eq_bind, Option.pure_def, Option.some_bind, h1, h2]
  rfl

/-- What `calculateHistoricalReturn` returns. -/
theorem calculateHistoricalReturn_char (sqrt : ℚ → ℚ) (histories : List NetValueHistory) :
    (30 ≤ histories.length → calculateHistoricalReturn sqrt histories none =
      some (popMean (returnSeries (navs histories)),
        sqrt (popVar (returnSeries (navs histories))), none)) ∧
    (histories.length < 30 → calculateHistoricalReturn sqrt histories none = some (0, 0, none)) := by
  constructor
  · intro hlen
    have hnot : ¬ ((none : Option String) ≠ none ∨ histories.length < 30) := by
      rintro (h | h)
      · exact h rfl
      · omega
    have h1 := foldl_add_eq (fun x => x) (returnSeries (navs histories)) 0
    have h2 := fun m : ℚ => foldl_add_eq (fun x => (x - m) * (x - m))
      (returnSeries (navs histories)) 0
    simp only [List.map_id', zero_add] at h1 h2
    unfold calculateHistoricalReturn
    rw [if_neg hnot, dailyReturns_eq histories (by omega)]
    simp only [Option.bind_eq_bind, Option.pure_def, Option.some_bind, h1, h2]
    rfl
  · intro hlen
    unfold calculateHistoricalReturn
    rw [if_pos (Or.inr hlen)]

/-! ## Rounding -/

theorem goInt_of_nonneg (x : ℚ) (h : 0 ≤ x) (hx : x < 2 ^ 63) : goInt x = ⌊x⌋ := by
  have h0 : (0 : Int) ≤ ⌊x⌋ := Int.floor_nonneg.mpr h
  have h1 : ⌊x⌋ < 2 ^ 63 := by
    have : (⌊x⌋ : ℚ) < ((2 ^ 63 : Int) : ℚ) := by
      push_cast
      exact lt_of_le_of_lt (Int.floor_le x) hx
    exact_mod_cast this
  simp only [goInt, if_pos h]
  rw [if_pos ⟨by omega, h1⟩]

theorem goInt_of_large (x : ℚ) (hx : 2 ^ 63 ≤ x) : goInt x = -(2 ^ 63) := by
  have h : (0 : ℚ) ≤ x := le_trans (by positivity) hx
  have h1 : ¬ (-(2 ^ 63) ≤ ⌊x⌋ ∧ ⌊x⌋ < 2 ^ 63) := by
    rintro ⟨-, h2⟩
    have : ((2 ^ 63 : Int) : ℚ) ≤ x := by push_cast; exact hx
    have := Int.le_floor.mpr this
    omega
  simp only [goInt, if_pos h]
  rw [if_neg h1]

theorem goRound_isInt (x : ℚ) : ∃ z : Int, goRound x = z := by
  unfold goRound
  split_ifs
  · exact ⟨_, rfl⟩
  · exact ⟨-⌊-x + 1 / 2⌋, by push_cast; rfl⟩

theorem goRound_intCast (z : Int) : goRound (z : ℚ) = z := by
  have hhalf : ⌊(1 / 2 : ℚ)⌋ = 0 := by
    rw [Int.floor_eq_iff]; norm_num
  unfold goRound
  split_ifs with h
  · rw [Int.floor_int_add, hhalf, add_zero]
  · have : -(z : ℚ) = ((-z : Int) : ℚ) := by push_cast; rfl
    rw [this, Int.floor_int_add, hhalf, add_zero]
    push_cast; ring

theorem goRound_sub_le (x : ℚ) : |goRound x - x| ≤ 1 / 2 := by
  unfold goRound
  rw [abs_le]
  split_ifs with h
  · have h1 := Int.floor_le (x + 1 / 2)
    have h2 := Int.lt_floor_add_one (x + 1 / 2)
    constructor <;> linarith
  · have h1 := Int.floor_le (-x + 1 / 2)
    have h2 := Int.lt_floor_add_one (-x + 1 / 2)
    constructor <;> linarith

theorem goRound_mono (x y : ℚ) (h : x ≤ y) : goRound x ≤ goRound y := by
  unfold goRound
  split_ifs with hx hy hy
  · exact_mod_cast Int.floor_mono (show x + 1 / 2 ≤ y + 1 / 2 by linarith)
  · exact absurd (le_trans hx h) hy
  · have h1 : (0 : Int) ≤ ⌊-x + 1 / 2⌋ := Int.floor_nonneg.mpr (by linarith)
    have h2 : (0 : Int) ≤ ⌊y + 1 / 2⌋ := Int.floor_nonneg.mpr (by linarith)
    have h1' : (0 : ℚ) ≤ (⌊-x + 1 / 2⌋ : ℚ) := by exact_mod_cast h1
    have h2' : (0 : ℚ) ≤ (⌊y + 1 / 2⌋ : ℚ) := by exact_mod_cast h2
    linarith
  · have : (⌊-y + 1 / 2⌋ : ℚ) ≤ (⌊-x + 1 / 2⌋ : ℚ) := by
      exact_mod_cast Int.floor_mono (show -y + 1 / 2 ≤ -x + 1 / 2 by linarith)
    linarith

theorem round2_isCents (x : ℚ) : ∃ z : Int, round2 x * 100 = z := by
  obtain ⟨z, hz⟩ := goRound_isInt (x * 100)
  exact ⟨z, by rw [round2, hz]; norm_num⟩

theorem round2_sub_le (x : ℚ) : |round2 x - x| ≤ 1 / 200 := by
  have h := goRound_sub_le (x * 100)
  rw [abs_le] at h ⊢
  unfold round2
  constructor <;> linarith

theorem le_round2 (lo x : ℚ) (hlo : ∃ z : Int, lo * 100 = z) (h : lo ≤ x) : lo ≤ round2 x := by
  obtain ⟨z, hz⟩ := hlo
  have h1 := goRound_mono (lo * 100) (x * 100) (by linarith)
  rw [hz, goRound_intCast, ← hz] at h1
  unfold round2
  linarith

theorem round2_le (hi x : ℚ) (hhi : ∃ z : Int, hi * 100 = z) (h : x ≤ hi) : round2 x ≤ hi := by
  obtain ⟨z, hz⟩ := hhi
  have h1 := goRound_mono (x * 100) (hi * 100) (by linarith)
  rw [hz, goRound_intCast, ← hz] at h1
  unfold round2
  linarith

theorem clampTo_mem (lo hi x : ℚ) (h : lo ≤ hi) : lo ≤ clampTo lo hi x ∧ clampTo lo hi x ≤ hi :=
  ⟨le_max_left _ _, max_le h (min_le_right _ _)⟩

/-! ## AnalyzeFundRisk -/

/-- What `AnalyzeFundRisk` returns once the fund is found. -/
theorem AnalyzeFundRisk_char (sqrt : ℚ → ℚ) (fundCode : String) (f : Fund)
    (q1 q2 : List NetValueHistory × Option String) (d v : ℚ) (e1 e2 : Option String)
    (hd : CalculateMaxDrawdown q1.1 q1.2 = some (d, e1))
    (hv : CalculateVolatility sqrt q2.1 q2.2 = some (v, e2)) :
    AnalyzeFundRisk sqrt fundCode (some f) none q1 q2 =
      some (some { FundCode := fundCode, FundName := f.Name,
                   RiskLevel := if goInt ((d * 0.4 + v * 0.6) / 20) + 1 > 5 then 5
                     else goInt ((d * 0.4 + v * 0.6) / 20) + 1,
                   RiskScore := d * 0.4 + v * 0.6, MaxDrawdown := d, Volatility := v,
                   Suggestion :=
                     if (if goInt ((d * 0.4 + v * 0.6) / 20) + 1 > 5 then 5
                       else goInt ((d * 0.4 + v * 0.6) / 20) + 1) ≥ 4 then "风险较高，建议谨慎"
                     else if (if goInt ((d * 0.4 + v * 0.6) / 20) + 1 > 5 then 5
                       else goInt ((d * 0.4 + v * 0.6) / 20) + 1) ≤ 2 then "风险较低，适合稳健投资"
                     else "风险适中" }, none) := by
  have hnot : ¬ ((none : Option String) ≠ none) := fun h => h rfl
  unfold AnalyzeFundRisk
  rw [if_neg hnot, hd, hv]
  rfl

/-! ## CalculateMADeviation, CalculateValuation, CalculateTargetValue -/

theorem maSum_eq (histories : List NetValueHistory) (period : Int) (h0 : 0 ≤ period)
    (h1 : period ≤ histories.length) :
    forUp 0 period (fun i sum => do
      let h ← idx histories i
      pure (sum + h.NetValue)) (0 : ℚ) = some (((navs histories).take period.toNat).sum) := by
  have hnl : (navs histories).length = histories.length := by simp [navs]
  obtain ⟨s, hs, -, hI⟩ := forUp_inv
    (fun j (s : ℚ) => 0 ≤ j ∧ s = ((navs histories).take j.toNat).sum)
    0 period (fun i sum => do
      let h ← idx histories i
      pure (sum + h.NetValue)) 0 h0 (by simp) (by
    rintro j t hj0 hj1 ⟨-, ht⟩
    obtain ⟨h, e, v⟩ := idx_navs histories j hj0 (by omega)
    refine ⟨t + h.NetValue, ?_, by omega, ?_⟩
    · simp only [Option.bind_eq_bind, Option.pure_def, e, Option.some_bind]
    · have hn : (j + 1).toNat = j.toNat + 1 := by omega
      have hc : ((j.toNat : Nat) : Int) = j := by omega
      rw [hn, sum_take_succ_nth _ _ (by rw [hnl]; omega), hc, ht, v])
  rw [hs, hI]

/-- What `CalculateMADeviation` returns on a fetched history that is long
enough. -/
theorem CalculateMADeviation_char (histories : List NetValueHistory) (baseAmount : ℚ)
    (params : MADeviationParams) (hp : 1 ≤ params.MAPeriod)
    (hlen : params.MAPeriod ≤ histories.length) :
    CalculateMADeviation histories none baseAmount params =
      some (some
        { BaseAmount := baseAmount,
          SuggestAmount := round2 (baseAmount * clampTo params.MinMultiplier params.MaxMultiplier
            (1 - 2 * maDeviation histories params.MAPeriod)),
          Multiplier := round2 (clampTo params.MinMultiplier params.MaxMultiplier
            (1 - 2 * maDeviation histories params.MAPeriod)),
          Reason := maReason (maDeviation histories params.MAPeriod) }, none) := by
  have hnot : ¬ ((none : Option String) ≠ none ∨ (histories.length : Int) < params.MAPeriod) := by
    rintro (h | h)
    · exact h rfl
    · omega
  have hsum := maSum_eq histories params.MAPeriod (by omega) hlen
  obtain ⟨h0, e0, v0⟩ := idx_navs histories 0 le_rfl (by omega)
  have hclamp : ∀ x : ℚ,
      (if (if x > params.MaxMultiplier then params.MaxMultiplier else x) < params.MinMultiplier
        then params.MinMultiplier
        else (if x > params.MaxMultiplier then params.MaxMultiplier else x))
      = clampTo params.MinMultiplier params.MaxMultiplier x := by
    intro x
    have e1 : (if x > params.MaxMultiplier then params.MaxMultiplier else x)
        = min x params.MaxMultiplier := by
      split_ifs with h
      · exact (min_eq_right (le_of_lt h)).symm
      · exact (min_eq_left (le_of_not_lt h)).symm
    rw [e1, clampTo]
    split_ifs with h
    · exact (max_eq_left (le_of_lt h)).symm
    · exact (max_eq_right (le_of_not_lt h)).symm
  have hreason : ∀ x : ℚ,
      (if x < -0.1 then "低于均线10%以上，建议加倍定投"
        else if x < 0 then "低于均线，建议适当增加"
        else if x > 0.1 then "高于均线10%以上，建议减少定投"
        else "接近均线，正常定投") = maReason x := by
    intro x
    unfold maReason
    by_cases h1 : x < -0.1
    · simp only [if_pos h1]
    · by_cases h2 : x < 0
      · simp only [if_neg h1, if_pos h2, if_pos (And.intro (not_lt.mp h1) h2)]
      · have h3 : ¬ (-0.1 ≤ x ∧ x < 0) := fun h => h2 h.2
        simp only [if_neg h1, if_neg h2, if_neg h3]
  unfold CalculateMADeviation
  rw [if_neg hnot]
  simp only [Option.bind_eq_bind, Option.pure_def] at hsum ⊢
  simp only [hsum, e0, Option.some_bind, hclamp, hreason]
  have hm : (((navs histories).take params.MAPeriod.toNat).sum / ((params.MAPeriod : Int) : ℚ))
      = movingAverage histories params.MAPeriod := rfl
  have hdev : (h0.NetValue - movingAverage histories params.MAPeriod)
      / movingAverage histories params.MAPeriod = maDeviation histories params.MAPeriod := by
    rw [maDeviation, v0]
  have h1 : (1.0 : ℚ) - maDeviation histories params.MAPeriod * 2
      = 1 - 2 * maDeviation histories params.MAPeriod := by norm_num; ring
  rw [hm, hdev, h1]
  rfl

/-- What `CalculateMADeviation` returns on a failed fetch or a history that is
too short. -/
theorem CalculateMADeviation_neutral (histories : List NetValueHistory) (err : Option String)
    (baseAmount : ℚ) (params : MADeviationParams)
    (h : err ≠ none ∨ (histories.length : Int) < params.MAPeriod) :
    CalculateMADeviation histories err baseAmount params =
      some (some { BaseAmount := baseAmount, SuggestAmount := baseAmount, Multiplier := 1,
                   Reason := "数据不足，使用基准金额" }, none) := by
  unfold CalculateMADeviation
  rw [if_pos h]
  norm_num

/-- What `CalculateValuation` returns, by the position of the P/E. -/
theorem CalculateValuation_char (baseAmount currentPE : ℚ) (params : ValuationParams) :
    (currentPE ≤ params.LowPE → CalculateValuation baseAmount currentPE params =
      (some { BaseAmount := baseAmount,
              SuggestAmount := round2 (baseAmount * params.MaxMultiplier),
              Multiplier := round2 params.MaxMultiplier,
              Reason := "估值低估，建议大幅加仓" }, none)) ∧
    (params.LowPE < currentPE → params.HighPE ≤ currentPE →
      CalculateValuation baseAmount currentPE params =
      (some { BaseAmount := baseAmount,
              SuggestAmount := round2 (baseAmount * params.MinMultiplier),
              Multiplier := round2 params.MinMultiplier,
              Reason := "估值高估，建议减少定投" }, none)) ∧
    (params.LowPE < currentPE → currentPE < params.HighPE →
      CalculateValuation baseAmount currentPE params =
      (some { BaseAmount := baseAmount,
              SuggestAmount := round2 (baseAmount * (params.MaxMultiplier
                - (currentPE - params.LowPE) / (params.HighPE - params.LowPE)
                  * (params.MaxMultiplier - params.MinMultiplier))),
              Multiplier := round2 (params.MaxMultiplier
                - (currentPE - params.LowPE) / (params.HighPE - params.LowPE)
                  * (params.MaxMultiplier - params.MinMultiplier)),
              Reason := "估值适中，正常定投" }, none)) := by
  refine ⟨fun h => ?_, fun h1 h2 => ?_, fun h1 h2 => ?_⟩
  · simp only [CalculateValuation, if_pos h, round2]
  · simp only [CalculateValuation, if_neg (not_le.mpr h1), ge_iff_le, if_pos h2, round2]
  · simp only [CalculateValuation, if_neg (not_le.mpr h1), ge_iff_le, if_neg (not_le.mpr h2),
      round2]

/-- What `CalculateTargetValue` returns on a holding. -/
theorem CalculateTargetValue_char (pow : ℚ → ℚ → ℚ) (h : Holding) (params : TargetValueParams)
    (periods : Int) :
    CalculateTargetValue pow (some h) params periods =
      some (some
        { BaseAmount := params.TargetValue,
          SuggestAmount := round2 (max 0 (params.TargetValue
            * pow (1 + params.GrowthRate / 100) (periods : ℚ) - h.Shares * h.CurrentNav)),
          Multiplier := max 0 (params.TargetValue
            * pow (1 + params.GrowthRate / 100) (periods : ℚ) - h.Shares * h.CurrentNav)
              / params.TargetValue,
          Reason :=
            if params.TargetValue * pow (1 + params.GrowthRate / 100) (periods : ℚ)
                ≤ h.Shares * h.CurrentNav then "已达目标市值，本期无需定投"
            else "距目标市值还差" ++ formatMoney (params.TargetValue
              * pow (1 + params.GrowthRate / 100) (periods : ℚ) - h.Shares * h.CurrentNav) },
        none) := by
  have hmax : ∀ x : ℚ, (if x < 0 then 0 else x) = max 0 x := by
    intro x
    split_ifs with hx
    · exact (max_eq_left (le_of_lt hx)).symm
    · exact (max_eq_right (le_of_not_lt hx)).symm
  simp only [CalculateTargetValue, Option.bind_eq_bind, Option.pure_def, Option.some_bind, hmax,
    Holding.MarketValue, round2, ge_iff_le]

/-! ## findNearestNav and CalculateInvestment -/

theorem formatDate_addDays (t k : Int) : formatDate (addDays t k) = formatDate t + k := by
  unfold formatDate addDays
  exact Int.add_mul_ediv_right t k (by decide)

theorem findNearestNavLoop_none (navMap : Int → Option ℚ) (date : Int) :
    ∀ (n : Nat) (i : Int),
      (∀ j : Int, i ≤ j → j < i + n → navMap (formatDate date - j) = none) →
      findNearestNavLoop navMap date n i = 0 := by
  intro n
  induction n with
  | zero => intro i _; rfl
  | succ n ih =>
    intro i h
    have h1 := h i le_rfl (by push_cast; omega)
    rw [findNearestNavLoop, formatDate_addDays, ← sub_eq_add_neg, h1]
    exact ih (i + 1) (fun j hj1 hj2 => h j (by omega) (by push_cast; omega))

theorem findNearestNavLoop_some (navMap : Int → Option ℚ) (date : Int) (v : ℚ) :
    ∀ (n : Nat) (i k : Int), i ≤ k → k < i + n → navMap (formatDate date - k) = some v →
      (∀ j : Int, i ≤ j → j < k → navMap (formatDate date - j) = none) →
      findNearestNavLoop navMap date n i = v := by
  intro n
  induction n with
  | zero => intro i k h1 h2; exfalso; simp at h2; omega
  | succ n ih =>
    intro i k h1 h2 hv hnone
    rw [findNearestNavLoop, formatDate_addDays, ← sub_eq_add_neg]
    by_cases hik : i = k
    · rw [hik, hv]
    · rw [hnone i le_rfl (by omega)]
      exact ih (i + 1) k (by omega) (by push_cast at h2 ⊢; omega) hv
        (fun j hj1 hj2 => hnone j (by omega) hj2)

/-- What `findNearestNav` returns: the NAV of the latest of the eight days
ending at the date that is in the map, and `0` if none is. -/
theorem findNearestNav_char (navMap : Int → Option ℚ) (date : Int)
    (histories : List NetValueHistory) :
    (∀ (k : Int) (v : ℚ), 0 ≤ k → k ≤ 7 → navMap (formatDate date - k) = some v →
      (∀ j : Int, 0 ≤ j → j < k → navMap (formatDate date - j) = none) →
      findNearestNav navMap date histories = v) ∧
    ((∀ k : Int, 0 ≤ k → k ≤ 7 → navMap (formatDate date - k) = none) →
      findNearestNav navMap date histories = 0) := by
  constructor
  · intro k v hk0 hk7 hv hnone
    unfold findNearestNav
    by_cases hk : k = 0
    · rw [hk, sub_zero] at hv
      rw [hv]
    · have h0 := hnone 0 le_rfl (by omega)
      rw [sub_zero] at h0
      rw [h0]
      exact findNearestNavLoop_some navMap date v 7 1 k (by omega) (by push_cast; omega) hv
        (fun j hj1 hj2 => hnone j (by omega) hj2)
  · intro h
    unfold findNearestNav
    have h0 := h 0 le_rfl (by omega)
    rw [sub_zero] at h0
    rw [h0]
    exact findNearestNavLoop_none navMap date 7 1
      (fun j hj1 hj2 => h j (by omega) (by push_cast at hj2; omega))

theorem nextInvestDate_gt (addMonth : Int → Int) (hadv : ∀ t, t < addMonth t)
    (frequency : String) (current : Int) : current < nextInvestDate addMonth frequency current := by
  have hd : (0 : Int) < nsPerDay := by decide
  unfold nextInvestDate
  split
  · unfold addDays; omega
  · unfold addDays; omega
  · exact hadv current
  · exact hadv current

/-- One turn of the contribution loop. -/
theorem investLoop_step (addMonth : Int → Int) (navMap : Int → Option ℚ)
    (histories : List NetValueHistory) (amount : ℚ) (frequency : String) (endDate : Int)
    (fuel : Nat) (current : Int) (result : InvestmentResult) (hcur : current ≤ endDate) :
    (findNearestNav navMap current histories ≤ 0 →
      investLoop addMonth navMap histories amount frequency endDate (fuel + 1) current result =
        investLoop addMonth navMap histories amount frequency endDate fuel
          (nextInvestDate addMonth frequency current) result) ∧
    (0 < findNearestNav navMap current histories →
      investLoop addMonth navMap histories amount frequency endDate (fuel + 1) current result =
        investLoop addMonth navMap histories amount frequency endDate fuel
          (nextInvestDate addMonth frequency current)
          { result with
            TotalInvest := result.TotalInvest + amount,
            TotalShares := result.TotalShares + amount / findNearestNav navMap current histories,
            InvestCount := result.InvestCount + 1 }) := by
  have hnot : ¬ (current > endDate) := not_lt.mpr hcur
  constructor
  · intro h
    rw [investLoop, if_neg hnot]
    simp only [if_neg (not_lt.mpr h)]
  · intro h
    rw [investLoop, if_neg hnot]
    simp only [gt_iff_lt, if_pos h]

theorem investLoop_done (addMonth : Int → Int) (navMap : Int → Option ℚ)
    (histories : List NetValueHistory) (amount : ℚ) (frequency : String) (endDate : Int)
    (fuel : Nat) (current : Int) (result : InvestmentResult) (hcur : endDate < current) :
    investLoop addMonth navMap histories amount frequency endDate fuel current result
      = some result := by
  cases fuel with
  | zero => rw [investLoop, if_pos hcur]
  | succ n => rw [investLoop, if_pos hcur]

/-- With enough fuel the contribution loop returns, and what it returns keeps
the fields that the loop does not write. -/
theorem investLoop_returns (addMonth : Int → Int) (hadv : ∀ t, t < addMonth t)
    (navMap : Int → Option ℚ) (histories : List NetValueHistory) (amount : ℚ)
    (frequency : String) (endDate : Int) :
    ∀ (fuel : Nat) (current : Int) (result : InvestmentResult),
      (endDate - current + 1).toNat ≤ fuel →
      ∃ r, investLoop addMonth navMap histories amount frequency endDate fuel current result
          = some r ∧
        r.CurrentValue = result.CurrentValue ∧ r.TotalProfit = result.TotalProfit ∧
        r.ProfitRate = result.ProfitRate ∧ r.AnnualReturn = result.AnnualReturn ∧
        r.AvgCost = result.AvgCost ∧ r.StartDate = result.StartDate ∧
        r.EndDate = result.EndDate := by
  intro fuel
  induction fuel with
  | zero =>
    intro current result h
    have hcur : endDate < current := by omega
    exact ⟨result, investLoop_done _ _ _ _ _ _ _ _ _ hcur, rfl, rfl, rfl, rfl, rfl, rfl, rfl⟩
  | succ n ih =>
    intro current result h
    by_cases hcur : endDate < current
    · exact ⟨result, investLoop_done _ _ _ _ _ _ _ _ _ hcur, rfl, rfl, rfl, rfl, rfl, rfl, rfl⟩
    · have hnext := nextInvestDate_gt addMonth hadv frequency current
      have hfuel : (endDate - nextInvestDate addMonth frequency current + 1).toNat ≤ n := by
        omega
      have hstep := investLoop_step addMonth navMap histories amount frequency endDate n current
        result (not_lt.mp hcur)
      by_cases hnav : 0 < findNearestNav navMap current histories
      · obtain ⟨r, hr, h1, h2, h3, h4, h5, h6, h7⟩ := ih
          (nextInvestDate addMonth frequency current)
          { result with
            TotalInvest := result.TotalInvest + amount,
            TotalShares := result.TotalShares + amount / findNearestNav navMap current histories,
            InvestCount := result.InvestCount + 1 } hfuel
        exact ⟨r, by rw [hstep.2 hnav, hr], h1, h2, h3, h4, h5, h6, h7⟩
      · obtain ⟨r, hr, h1, h2, h3, h4, h5, h6, h7⟩ := ih
          (nextInvestDate addMonth frequency current) result hfuel
        exact ⟨r, by rw [hstep.1 (not_lt.mp hnav), hr], h1, h2, h3, h4, h5, h6, h7⟩

/-- The final valuation of `CalculateInvestment`, from what the contribution
loop returned. -/
theorem CalculateInvestment_of_loop (addMonth : Int → Int) (pow : ℚ → ℚ → ℚ) (fuel : Nat)
    (histories : List NetValueHistory) (hne : histories.length ≠ 0) (amount : ℚ)
    (frequency : String) (startDate endDate : Int) (r0 : InvestmentResult)
    (hloop : investLoop addMonth (buildNavMap histories) histories amount frequency endDate fuel
      startDate
      { TotalInvest := 0, TotalShares := 0, CurrentValue := 0, TotalProfit := 0,
        ProfitRate := 0, AnnualReturn := 0, InvestCount := 0, StartDate := startDate,
        EndDate := endDate, AvgCost := 0 } = some r0)
    (h1 : r0.CurrentValue = 0) (h2 : r0.TotalProfit = 0) (h3 : r0.ProfitRate = 0)
    (h4 : r0.AnnualReturn = 0) (h5 : r0.AvgCost = 0) :
    ∃ r, CalculateInvestment addMonth pow fuel histories none amount frequency startDate endDate
        = some (some r, none) ∧
      r.TotalInvest = r0.TotalInvest ∧ r.TotalShares = r0.TotalShares ∧
      r.InvestCount = r0.InvestCount ∧ r.StartDate = r0.StartDate ∧ r.EndDate = r0.EndDate ∧
      (0 < r.TotalShares →
        r.CurrentValue = r.TotalShares * nth (navs histories) 0 ∧
        r.TotalProfit = r.CurrentValue - r.TotalInvest ∧
        r.AvgCost = r.TotalInvest / r.TotalShares ∧
        r.ProfitRate = (if 0 < r.TotalInvest then r.TotalProfit / r.TotalInvest * 100 else 0) ∧
        r.AnnualReturn =
          (if 0 < hoursBetween endDate startDate / 24 / 365 ∧ 0 < r.TotalInvest then
            (pow (r.CurrentValue / r.TotalInvest)
              (1 / (hoursBetween endDate startDate / 24 / 365)) - 1) * 100
          else 0)) ∧
      (r.TotalShares ≤ 0 →
        r.CurrentValue = 0 ∧ r.TotalProfit = 0 ∧ r.AvgCost = 0 ∧ r.ProfitRate = 0 ∧
        r.AnnualReturn = 0) := by
  have hnot : ¬ ((none : Option String) ≠ none) := fun h => h rfl
  have hlen : histories.length > 0 := Nat.pos_of_ne_zero hne
  obtain ⟨h0, e0, v0⟩ := idx_navs histories 0 le_rfl (by omega)
  unfold CalculateInvestment
  rw [if_neg hnot, if_neg hne]
  simp only [Option.bind_eq_bind, Option.pure_def, hloop, Option.some_bind]
  by_cases hs : r0.TotalShares > 0
  · rw [if_pos ⟨hlen, hs⟩]
    simp only [e0, Option.some_bind, v0]
    by_cases hi : r0.TotalInvest > 0
    · by_cases hy : hoursBetween endDate startDate / 24 / 365 > 0
      · simp only [gt_iff_lt] at hs hi hy
        simp only [gt_iff_lt, if_pos hi, if_pos (And.intro hy hi)]
        exact ⟨_, rfl, rfl, rfl, rfl, rfl, rfl,
          fun _ => ⟨rfl, rfl, rfl, by simp only [if_pos hi],
            by simp only [if_pos (And.intro hy hi)]⟩,
          fun h => absurd hs (not_lt.mpr h)⟩
      · have hy' : ¬ (0 < hoursBetween endDate startDate / 24 / 365 ∧ 0 < r0.TotalInvest) :=
          fun h => hy h.1
        simp only [gt_iff_lt] at hs hi hy
        simp only [gt_iff_lt, if_pos hi, if_neg hy']
        exact ⟨_, rfl, rfl, rfl, rfl, rfl, rfl,
          fun _ => ⟨rfl, rfl, rfl, by simp only [if_pos hi],
            by simp only [if_neg hy']; exact h4⟩,
          fun h => absurd hs (not_lt.mpr h)⟩
    · have hy' : ¬ (0 < hoursBetween endDate startDate / 24 / 365 ∧ 0 < r0.TotalInvest) :=
        fun h => hi h.2
      simp only [gt_iff_lt] at hs hi
      simp only [gt_iff_lt, if_neg hi, if_neg hy']
      exact ⟨_, rfl, rfl, rfl, rfl, rfl, rfl,
        fun _ => ⟨rfl, rfl, rfl, by simp only [if_neg hi]; exact h3,
          by simp only [if_neg hy']; exact h4⟩,
        fun h => absurd hs (not_lt.mpr h)⟩
  · have hs' : ¬ (histories.length > 0 ∧ r0.TotalShares > 0) := fun h => hs h.2
    rw [if_neg hs']
    exact ⟨_, rfl, rfl, rfl, rfl, rfl, rfl, fun h => absurd h hs, fun _ => ⟨h1, h2, h5, h3, h4⟩⟩

/-- What `CalculateInvestment` returns on a fetched, non-empty history, given
enough fuel. -/
theorem CalculateInvestment_char (addMonth : Int → Int) (hadv : ∀ t, t < addMonth t)
    (pow : ℚ → ℚ → ℚ) (histories : List NetValueHistory) (hne : histories.length ≠ 0)
    (amount : ℚ) (frequency : String) (startDate endDate : Int) (fuel : Nat)
    (hfuel : (endDate - startDate + 1).toNat ≤ fuel) :
    ∃ r, CalculateInvestment addMonth pow fuel histories none amount frequency startDate endDate
        = some (some r, none) ∧
      r.StartDate = startDate ∧ r.EndDate = endDate ∧
      (0 < r.TotalShares →
        r.CurrentValue = r.TotalShares * nth (navs histories) 0 ∧
        r.TotalProfit = r.CurrentValue - r.TotalInvest ∧
        r.AvgCost = r.TotalInvest / r.TotalShares ∧
        r.ProfitRate = (if 0 < r.TotalInvest then r.TotalProfit / r.TotalInvest * 100 else 0) ∧
        r.AnnualReturn =
          (if 0 < hoursBetween endDate startDate / 24 / 365 ∧ 0 < r.TotalInvest then
            (pow (r.CurrentValue / r.TotalInvest)
              (1 / (hoursBetween endDate startDate / 24 / 365)) - 1) * 100
          else 0)) ∧
      (r.TotalShares ≤ 0 →
        r.CurrentValue = 0 ∧ r.TotalProfit = 0 ∧ r.AvgCost = 0 ∧ r.ProfitRate = 0 ∧
        r.AnnualReturn = 0) := by
  obtain ⟨r0, hloop, h1, h2, h3, h4, h5, h6, h7⟩ := investLoop_returns addMonth hadv
    (buildNavMap histories) histories amount frequency endDate fuel startDate
    { TotalInvest := 0, TotalShares := 0, CurrentValue := 0, TotalProfit := 0,
      ProfitRate := 0, AnnualReturn := 0, InvestCount := 0, StartDate := startDate,
      EndDate := endDate, AvgCost := 0 } hfuel
  obtain ⟨r, hr, -, -, -, hs, he, hpos, hzero⟩ := CalculateInvestment_of_loop addMonth pow fuel
    histories hne amount frequency startDate endDate r0 hloop h1 h2 h3 h4 h5
  exact ⟨r, hr, by rw [hs, h6], by rw [he, h7], hpos, hzero⟩

/-- A simulation of a single day with a positive NAV makes one contribution. -/
theorem CalculateInvestment_single (addMonth : Int → Int) (hadv : ∀ t, t < addMonth t)
    (pow : ℚ → ℚ → ℚ) (histories : List NetValueHistory) (hne : histories.length ≠ 0)
    (amount : ℚ) (frequency : String) (date : Int) (fuel : Nat) (hfuel : 1 ≤ fuel)
    (hnav : 0 < findNearestNav (buildNavMap histories) date histories) :
    ∃ r, CalculateInvestment addMonth pow fuel histories none amount frequency date date
        = some (some r, none) ∧
      r.InvestCount = 1 ∧ r.TotalInvest = amount ∧
      r.TotalShares = amount / findNearestNav (buildNavMap histories) date histories := by
  obtain ⟨n, rfl⟩ : ∃ n, fuel = n + 1 := ⟨fuel - 1, by omega⟩
  have hstep := (investLoop_step addMonth (buildNavMap histories) histories amount frequency date
    n date
    { TotalInvest := 0, TotalShares := 0, CurrentValue := 0, TotalProfit := 0,
      ProfitRate := 0, AnnualReturn := 0, InvestCount := 0, StartDate := date,
      EndDate := date, AvgCost := 0 } le_rfl).2 hnav
  rw [investLoop_done _ _ _ _ _ _ _ _ _ (nextInvestDate_gt addMonth hadv frequency date)] at hstep
  obtain ⟨r, hr, h1, h2, h3, -⟩ := CalculateInvestment_of_loop addMonth pow (n + 1)
    histories hne amount frequency date date _ hstep rfl rfl rfl rfl rfl
  refine ⟨r, hr, ?_, ?_, ?_⟩
  · rw [h3]; simp
  · rw [h1]; simp
  · rw [h2]; simp

/-! ## The properties of the specification: risk, strategy, calculator -/

theorem ratPow_natCast (x : ℚ) (n : Nat) : ratPow x (n : ℚ) = x ^ n := by
  unfold ratPow
  rw [Int.floor_natCast, zpow_natCast]

theorem thirtyDaysLater_gt (t : Int) : t < thirtyDaysLater t := by
  have hd : (0 : Int) < nsPerDay := by decide
  unfold thirtyDaysLater addDays
  omega

theorem isInt_iff_den (x : ℚ) : (∃ z : Int, x = z) ↔ x.den = 1 := by
  constructor
  · rintro ⟨z, rfl⟩; simp
  · intro h; exact ⟨x.num, ((Rat.den_eq_one_iff x).mp h).symm⟩

theorem ratSqrt_2500 : ratSqrt 2500 = 50 := by
  have h : Nat.sqrt (2500 * 1 * 10 ^ 12) = 50000000 :=
    (Nat.eq_sqrt.mpr ⟨by norm_num, by norm_num⟩).symm
  have hn : (2500 : ℚ).num.toNat = 2500 := by decide!
  have hd : (2500 : ℚ).den = 1 := by decide!
  rw [ratSqrt, hn, hd, h]
  norm_num

theorem ratSqrt_250 : ratSqrt 250 = 3952847 / 250000 := by
  have h : Nat.sqrt (250 * 1 * 10 ^ 12) = 15811388 :=
    (Nat.eq_sqrt.mpr ⟨by norm_num, by norm_num⟩).symm
  have hn : (250 : ℚ).num.toNat = 250 := by decide!
  have hd : (250 : ℚ).den = 1 := by decide!
  rw [ratSqrt, hn, hd, h]
  norm_num

/-- The volatility of the history with a zero NAV in the middle. -/
theorem volatility_gapHistory :
    CalculateVolatility ratSqrt gapHistory none = some (3952847 / 5000, none) := by
  have hv : popVar (returnSeries (navs gapHistory)) = 2500 := by decide!
  rw [CalculateVolatility_char ratSqrt gapHistory (by decide), hv, ratSqrt_2500, ratSqrt_250]
  norm_num

/-- C11, as stated, fails: on the newest-first NAVs `[2, 0, 1]` the code counts
the pair whose older NAV is `0` as a return of `0` (its series is
`[0, -100]`, not `[-100]`), and its volatility is not `sqrt(250)` times the
standard deviation of the series without that pair, which is `0`. -/
theorem CalculateVolatility_counterexample :
    2 ≤ gapHistory.length ∧ navs gapHistory = [2, 0, 1] ∧
    dailyReturns gapHistory = some [0, -100] ∧ skipReturns (navs gapHistory) = [-100] ∧
    CalculateVolatility ratSqrt gapHistory none = some (3952847 / 5000, none) ∧
    ratSqrt (popVar (skipReturns (navs gapHistory))) * ratSqrt 250 = 0 ∧
    CalculateVolatility ratSqrt gapHistory none ≠
      some (ratSqrt (popVar (skipReturns (navs gapHistory))) * ratSqrt 250, none) := by
  have h0 : ratSqrt (popVar (skipReturns (navs gapHistory))) = 0 := by decide!
  refine ⟨by decide, by decide!, by decide!, by decide!, volatility_gapHistory, ?_, ?_⟩
  · rw [h0, zero_mul]
  · rw [volatility_gapHistory, h0, zero_mul]
    decide!

/-- C11, amended: on a newest-first NAV history of at least 2 points,
`CalculateVolatility` returns `sqrt(250)` times the population standard
deviation of the return series `R` that has one entry per adjacent pair:
`(nav[i]-nav[i+1])/nav[i+1]*100` where `nav[i+1] > 0`, and `0` (a 0% return)
where `nav[i+1] <= 0`; and on at least 30 points `calculateHistoricalReturn`
returns the mean and the population standard deviation of the same series
(on fewer it returns `0, 0`). -/
theorem CalculateVolatility_spec (sqrt : ℚ → ℚ) (histories : List NetValueHistory)
    (hlen : 2 ≤ histories.length) :
    CalculateVolatility sqrt histories none =
      some (sqrt (popVar (returnSeries (navs histories))) * sqrt 250, none) ∧
    (returnSeries (navs histories)).length = histories.length - 1 ∧
    (∀ i : Int, 0 ≤ i → i + 1 < histories.length →
      nth (returnSeries (navs histories)) i =
        if nth (navs histories) (i + 1) > 0 then
          (nth (navs histories) i - nth (navs histories) (i + 1))
            / nth (navs histories) (i + 1) * 100
        else 0) ∧
    (30 ≤ histories.length → calculateHistoricalReturn sqrt histories none =
      some (popMean (returnSeries (navs histories)),
        sqrt (popVar (returnSeries (navs histories))), none)) ∧
    (histories.length < 30 →
      calculateHistoricalReturn sqrt histories none = some (0, 0, none)) := by
  have hnl : (navs histories).length = histories.length := by simp [navs]
  refine ⟨CalculateVolatility_char sqrt histories hlen, ?_, ?_,
    (calculateHistoricalReturn_char sqrt histories).1,
    (calculateHistoricalReturn_char sqrt histories).2⟩
  · rw [returnSeries_length, hnl]
  · intro i h0 h1
    exact nth_returnSeries (navs histories) i h0 (by rw [hnl]; exact h1)

theorem CalculateVolatility_spec_witness :
    2 ≤ gapHistory.length ∧
    (CalculateVolatility ratSqrt gapHistory none =
      some (ratSqrt (popVar (returnSeries (navs gapHistory))) * ratSqrt 250, none) ∧
    (returnSeries (navs gapHistory)).length = gapHistory.length - 1 ∧
    (∀ i : Int, 0 ≤ i → i + 1 < gapHistory.length →
      nth (returnSeries (navs gapHistory)) i =
        if nth (navs gapHistory) (i + 1) > 0 then
          (nth (navs gapHistory) i - nth (navs gapHistory) (i + 1))
            / nth (navs gapHistory) (i + 1) * 100
        else 0) ∧
    (30 ≤ gapHistory.length → calculateHistoricalReturn ratSqrt gapHistory none =
      some (popMean (returnSeries (navs gapHistory)),
        ratSqrt (popVar (returnSeries (navs gapHistory))), none)) ∧
    (gapHistory.length < 30 →
      calculateHistoricalReturn ratSqrt gapHistory none = some (0, 0, none))) :=
  ⟨by decide, CalculateVolatility_spec ratSqrt gapHistory (by decide)⟩

theorem ratSqrt_of_sq (n d : Nat) (hd : 0 < d) (x : ℚ) (hn : x.num.toNat = n * n)
    (hden : x.den = d * d) : ratSqrt x = (n : ℚ) / (d : ℚ) := by
  have h : Nat.sqrt (n * n * (d * d) * 10 ^ 12) = n * d * 10 ^ 6 := by
    have e : n * n * (d * d) * 10 ^ 12 = (n * d * 10 ^ 6) * (n * d * 10 ^ 6) := by ring
    rw [e, Nat.sqrt_eq]
  have hdq : (d : ℚ) ≠ 0 := by exact_mod_cast (Nat.pos_iff_ne_zero.mp hd)
  rw [ratSqrt, hn, hden, h]
  push_cast
  field_simp
  ring

/-- The volatility of the history that falls to `2^-40` and rises to
`2^40`. -/
theorem volatility_hugeHistory :
    CalculateVolatility ratSqrt hugeHistory none
      = some ((2 ^ 120 - 1) * 25 / 2 ^ 39 * (3952847 / 250000), none) := by
  have hn : (popVar (returnSeries (navs hugeHistory))).num.toNat
      = ((2 ^ 120 - 1) * 25) * ((2 ^ 120 - 1) * 25) := by decide!
  have hd : (popVar (returnSeries (navs hugeHistory))).den = 2 ^ 39 * 2 ^ 39 := by decide!
  rw [CalculateVolatility_char ratSqrt hugeHistory (by decide),
    ratSqrt_of_sq _ _ (by norm_num) _ hn hd, ratSqrt_250]
  norm_num

/-- The risk level that `AnalyzeFundRisk` reports, within and beyond the range
of `int64`. -/
theorem AnalyzeFundRisk_level_char (sqrt : ℚ → ℚ) (fundCode : String) (f : Fund)
    (q1 q2 : List NetValueHistory × Option String) (d v : ℚ) (e1 e2 : Option String)
    (hd : CalculateMaxDrawdown q1.1 q1.2 = some (d, e1))
    (hv : CalculateVolatility sqrt q2.1 q2.2 = some (v, e2)) (hd0 : 0 ≤ d) (hv0 : 0 ≤ v) :
    ∃ r, AnalyzeFundRisk sqrt fundCode (some f) none q1 q2 = some (some r, none) ∧
      r.MaxDrawdown = d ∧ r.Volatility = v ∧ r.RiskScore = 0.4 * d + 0.6 * v ∧
      (r.RiskScore / 20 < 2 ^ 63 →
        r.RiskLevel = min 5 (⌊r.RiskScore / 20⌋ + 1) ∧ 1 ≤ r.RiskLevel ∧ r.RiskLevel ≤ 5) ∧
      (2 ^ 63 ≤ r.RiskScore / 20 → r.RiskLevel = -(2 ^ 63) + 1) := by
  have hs : (0 : ℚ) ≤ (d * 0.4 + v * 0.6) / 20 := by
    apply div_nonneg _ (by norm_num)
    have h1 : (0 : ℚ) ≤ d * 0.4 := mul_nonneg hd0 (by norm_num)
    have h2 : (0 : ℚ) ≤ v * 0.6 := mul_nonneg hv0 (by norm_num)
    linarith
  have hf : (0 : Int) ≤ ⌊(d * 0.4 + v * 0.6) / 20⌋ := Int.floor_nonneg.mpr hs
  refine ⟨_, AnalyzeFundRisk_char sqrt fundCode f q1 q2 d v e1 e2 hd hv, rfl, rfl, by ring, ?_,
    ?_⟩
  · intro hlt
    have hlt' : (d * 0.4 + v * 0.6) / 20 < 2 ^ 63 := hlt
    refine ⟨?_, ?_, ?_⟩
    · simp only [goInt_of_nonneg _ hs hlt']
      split_ifs with h
      · rw [min_eq_left (by omega)]
      · rw [min_eq_right (by omega)]
    · simp only [goInt_of_nonneg _ hs hlt']
      split_ifs with h <;> omega
    · simp only [goInt_of_nonneg _ hs hlt']
      split_ifs with h <;> omega
  · intro hge
    have hge' : 2 ^ 63 ≤ (d * 0.4 + v * 0.6) / 20 := hge
    simp only [goInt_of_large _ hge']
    rw [if_neg (by norm_num)]

/-- C12: once the fund is found, for a max drawdown `d >= 0` and a volatility
`v >= 0` returned by the two computations, `AnalyzeFundRisk` reports
`RiskScore = 0.4*d + 0.6*v`. While `RiskScore/20` is below `2^63` it reports
`RiskLevel = min(5, floor(RiskScore/20) + 1)`, an integer between 1 and 5 (the
level 5 on a drawdown of 25 and a volatility of 790.5694). From `2^63` on the
conversion `int(RiskScore/20)` leaves the range of `int64` and the level is
`-2^63 + 1`: on the history `[2^40, 2^-40, 1]` `AnalyzeFundRisk` reports the
level `-9223372036854775807`. -/
theorem AnalyzeFundRisk_level :
    (∀ (sqrt : ℚ → ℚ) (fundCode : String) (f : Fund)
      (q1 q2 : List NetValueHistory × Option String) (d v : ℚ) (e1 e2 : Option String),
      CalculateMaxDrawdown q1.1 q1.2 = some (d, e1) →
      CalculateVolatility sqrt q2.1 q2.2 = some (v, e2) → 0 ≤ d → 0 ≤ v →
      ∃ r, AnalyzeFundRisk sqrt fundCode (some f) none q1 q2 = some (some r, none) ∧
        r.MaxDrawdown = d ∧ r.Volatility = v ∧ r.RiskScore = 0.4 * d + 0.6 * v ∧
        (r.RiskScore / 20 < 2 ^ 63 →
          r.RiskLevel = min 5 (⌊r.RiskScore / 20⌋ + 1) ∧ 1 ≤ r.RiskLevel ∧ r.RiskLevel ≤ 5) ∧
        (2 ^ 63 ≤ r.RiskScore / 20 → r.RiskLevel = -(2 ^ 63) + 1)) ∧
    (∃ r, AnalyzeFundRisk ratSqrt "000001" (some sampleFund) none
        ([navPoint 3, navPoint 4, navPoint 2, navPoint 1], none) (gapHistory, none)
        = some (some r, none) ∧
      r.MaxDrawdown = 25 ∧ r.Volatility = 3952847 / 5000 ∧ r.RiskLevel = 5) ∧
    (∃ r, AnalyzeFundRisk ratSqrt "000001" (some sampleFund) none (hugeHistory, none)
        (hugeHistory, none) = some (some r, none) ∧
      0 ≤ r.MaxDrawdown ∧ 0 ≤ r.Volatility ∧ 2 ^ 63 ≤ r.RiskScore / 20 ∧
      r.RiskLevel = -9223372036854775807 ∧ ¬ 1 ≤ r.RiskLevel) := by
  refine ⟨fun sqrt fundCode f q1 q2 d v e1 e2 hd hv hd0 hv0 =>
    AnalyzeFundRisk_level_char sqrt fundCode f q1 q2 d v e1 e2 hd hv hd0 hv0, ?_, ?_⟩
  · obtain ⟨r, hr, h1, h2, h3, h4, -⟩ := AnalyzeFundRisk_level_char ratSqrt "000001" sampleFund
      ([navPoint 3, navPoint 4, navPoint 2, navPoint 1], none) (gapHistory, none) 25
      (3952847 / 5000) none none (by decide!) volatility_gapHistory (by norm_num)
      (by norm_num)
    have hlt : r.RiskScore / 20 < 2 ^ 63 := by rw [h3]; norm_num
    obtain ⟨h5, -, -⟩ := h4 hlt
    refine ⟨r, hr, h1, h2, ?_⟩
    rw [h5, h3]
    have hfl : ⌊((0.4 : ℚ) * 25 + 0.6 * (3952847 / 5000)) / 20⌋ = 24 := by
      rw [Int.floor_eq_iff]; constructor <;> norm_num
    rw [hfl]
    decide
  · have hdd : CalculateMaxDrawdown (hugeHistory, (none : Option String)).1
        (hugeHistory, (none : Option String)).2
        = some ((1 - 1 / 2 ^ 40) * 100, none) := by decide!
    obtain ⟨r, hr, h1, h2, h3, -, h5⟩ := AnalyzeFundRisk_level_char ratSqrt "000001" sampleFund
      (hugeHistory, none) (hugeHistory, none) ((1 - 1 / 2 ^ 40) * 100)
      ((2 ^ 120 - 1) * 25 / 2 ^ 39 * (3952847 / 250000)) none none hdd volatility_hugeHistory
      (by norm_num) (by norm_num)
    have hge : (2 : ℚ) ^ 63 ≤ r.RiskScore / 20 := by rw [h3]; norm_num
    have hl := h5 hge
    refine ⟨r, hr, by rw [h1]; norm_num, by rw [h2]; norm_num, hge, by rw [hl]; norm_num, ?_⟩
    rw [hl]; norm_num

/-- C13, as stated, fails: with a largest multiplier of `1.006` and a P/E
below the band, `CalculateValuation` reports the multiplier `1.01`, above the
largest multiplier. -/
theorem multiplier_bounds_counterexample :
    tightValuation.MinMultiplier ≤ tightValuation.MaxMultiplier ∧
    CalculateValuation 100 5 tightValuation =
      (some { BaseAmount := 100, SuggestAmount := 100.6, Multiplier := 1.01,
              Reason := "估值低估，建议大幅加仓" }, none) ∧
    ¬ ((1.01 : ℚ) ≤ tightValuation.MaxMultiplier) := by
  decide!

/-- C13, amended: for the moving-average-deviation policy (fetched history of
at least `MAPeriod >= 1` records, positive moving average) and for the
valuation policy, with `MinMultiplier <= MaxMultiplier`, the multiplier `m`
that the policy computes satisfies `MinMultiplier <= m <= MaxMultiplier`, and
the `Multiplier` field is `m` rounded to two decimals: it is within `0.005` of
`m`, and it is at least `MinMultiplier`, respectively at most `MaxMultiplier`,
when that bound is a whole number of hundredths. -/
theorem multiplier_bounds (histories : List NetValueHistory) (baseAmount : ℚ)
    (maParams : MADeviationParams) (currentPE : ℚ) (valParams : ValuationParams) :
    (1 ≤ maParams.MAPeriod → maParams.MAPeriod ≤ histories.length →
      0 < movingAverage histories maParams.MAPeriod →
      maParams.MinMultiplier ≤ maParams.MaxMultiplier →
      ∃ r m, CalculateMADeviation histories none baseAmount maParams = some (some r, none) ∧
        maParams.MinMultiplier ≤ m ∧ m ≤ maParams.MaxMultiplier ∧
        r.Multiplier = round2 m ∧ |r.Multiplier - m| ≤ 1 / 200 ∧
        ((∃ z : Int, maParams.MinMultiplier * 100 = z) →
          maParams.MinMultiplier ≤ r.Multiplier) ∧
        ((∃ z : Int, maParams.MaxMultiplier * 100 = z) →
          r.Multiplier ≤ maParams.MaxMultiplier)) ∧
    (valParams.MinMultiplier ≤ valParams.MaxMultiplier →
      ∃ r m, CalculateValuation baseAmount currentPE valParams = (some r, none) ∧
        valParams.MinMultiplier ≤ m ∧ m ≤ valParams.MaxMultiplier ∧
        r.Multiplier = round2 m ∧ |r.Multiplier - m| ≤ 1 / 200 ∧
        ((∃ z : Int, valParams.MinMultiplier * 100 = z) →
          valParams.MinMultiplier ≤ r.Multiplier) ∧
        ((∃ z : Int, valParams.MaxMultiplier * 100 = z) →
          r.Multiplier ≤ valParams.MaxMultiplier)) := by
  constructor
  · intro hp hlen _ hmm
    have hc := clampTo_mem maParams.MinMultiplier maParams.MaxMultiplier
      (1 - 2 * maDeviation histories maParams.MAPeriod) hmm
    exact ⟨_, _, CalculateMADeviation_char histories baseAmount maParams hp hlen, hc.1, hc.2,
      rfl, round2_sub_le _, fun hz => le_round2 _ _ hz hc.1, fun hz => round2_le _ _ hz hc.2⟩
  · intro hmm
    obtain ⟨hlow, hhigh, hmid⟩ := CalculateValuation_char baseAmount currentPE valParams
    by_cases h1 : currentPE ≤ valParams.LowPE
    · exact ⟨_, valParams.MaxMultiplier, hlow h1, hmm, le_rfl, rfl, round2_sub_le _,
        fun hz => le_round2 _ _ hz hmm, fun hz => round2_le _ _ hz le_rfl⟩
    · by_cases h2 : valParams.HighPE ≤ currentPE
      · exact ⟨_, valParams.MinMultiplier, hhigh (not_le.mp h1) h2, le_rfl, hmm, rfl,
          round2_sub_le _, fun hz => le_round2 _ _ hz le_rfl, fun hz => round2_le _ _ hz hmm⟩
      · have h1' := not_le.mp h1
        have h2' := not_le.mp h2
        have hden : 0 < valParams.HighPE - valParams.LowPE := by linarith
        have hr0 : 0 ≤ (currentPE - valParams.LowPE) / (valParams.HighPE - valParams.LowPE) :=
          div_nonneg (by linarith) hden.le
        have hr1 : (currentPE - valParams.LowPE) / (valParams.HighPE - valParams.LowPE) ≤ 1 := by
          rw [div_le_one hden]; linarith
        have hgap : 0 ≤ valParams.MaxMultiplier - valParams.MinMultiplier := by linarith
        have hlo : valParams.MinMultiplier ≤ valParams.MaxMultiplier
            - (currentPE - valParams.LowPE) / (valParams.HighPE - valParams.LowPE)
              * (valParams.MaxMultiplier - valParams.MinMultiplier) := by
          nlinarith [mul_nonneg (sub_nonneg.mpr hr1) hgap]
        have hhi : valParams.MaxMultiplier
            - (currentPE - valParams.LowPE) / (valParams.HighPE - valParams.LowPE)
              * (valParams.MaxMultiplier - valParams.MinMultiplier) ≤ valParams.MaxMultiplier := by
          nlinarith [mul_nonneg hr0 hgap]
        exact ⟨_, _, hmid h1' h2', hlo, hhi, rfl, round2_sub_le _,
          fun hz => le_round2 _ _ hz hlo, fun hz => round2_le _ _ hz hhi⟩

theorem multiplier_bounds_witness :
    ((1 : Int) ≤ sampleMAParams.MAPeriod ∧ sampleMAParams.MAPeriod ≤ threeDayHistory.length ∧
      0 < movingAverage threeDayHistory sampleMAParams.MAPeriod ∧
      sampleMAParams.MinMultiplier ≤ sampleMAParams.MaxMultiplier ∧
      ∃ r m, CalculateMADeviation threeDayHistory none 100 sampleMAParams
          = some (some r, none) ∧
        sampleMAParams.MinMultiplier ≤ m ∧ m ≤ sampleMAParams.MaxMultiplier ∧
        r.Multiplier = round2 m ∧ |r.Multiplier - m| ≤ 1 / 200 ∧
        ((∃ z : Int, sampleMAParams.MinMultiplier * 100 = z) →
          sampleMAParams.MinMultiplier ≤ r.Multiplier) ∧
        ((∃ z : Int, sampleMAParams.MaxMultiplier * 100 = z) →
          r.Multiplier ≤ sampleMAParams.MaxMultiplier)) ∧
    (tightValuation.MinMultiplier ≤ tightValuation.MaxMultiplier ∧
      ∃ r m, CalculateValuation 100 5 tightValuation = (some r, none) ∧
        tightValuation.MinMultiplier ≤ m ∧ m ≤ tightValuation.MaxMultiplier ∧
        r.Multiplier = round2 m ∧ |r.Multiplier - m| ≤ 1 / 200 ∧
        ((∃ z : Int, tightValuation.MinMultiplier * 100 = z) →
          tightValuation.MinMultiplier ≤ r.Multiplier) ∧
        ((∃ z : Int, tightValuation.MaxMultiplier * 100 = z) →
          r.Multiplier ≤ tightValuation.MaxMultiplier)) :=
  ⟨⟨by decide, by decide, by decide!, by decide!,
      (multiplier_bounds threeDayHistory 100 sampleMAParams 5 tightValuation).1
        (by decide) (by decide) (by decide!) (by decide!)⟩,
    by decide!,
    (multiplier_bounds threeDayHistory 100 sampleMAParams 5 tightValuation).2 (by decide!)⟩

/-- C14: for `MAPeriod >= 1` and a fetched newest-first history,
`CalculateMADeviation` returns without error the neutral result
(`SuggestAmount = baseAmount`, `Multiplier = 1`, the insufficient-data reason)
on fewer than `MAPeriod` records; otherwise, with `ma` the mean of the first
`MAPeriod` NAVs (not `0`) and `deviation = (history[0].NetValue - ma)/ma`, the
multiplier is `1 - 2*deviation` clamped to `[MinMultiplier, MaxMultiplier]`
and reported rounded to two decimals, `SuggestAmount` is `baseAmount` times
that multiplier rounded to two decimals, and the reason is the strong-buy text
for `deviation < -0.1`, the mild-increase text for `-0.1 <= deviation < 0`,
the strong-reduce text for `deviation > 0.1`, and the neutral text
otherwise. -/
theorem CalculateMADeviation_spec (histories : List NetValueHistory) (baseAmount : ℚ)
    (params : MADeviationParams) (hp : 1 ≤ params.MAPeriod) :
    ((histories.length : Int) < params.MAPeriod →
      CalculateMADeviation histories none baseAmount params =
        some (some { BaseAmount := baseAmount, SuggestAmount := baseAmount, Multiplier := 1,
                     Reason := "数据不足，使用基准金额" }, none)) ∧
    (params.MAPeriod ≤ histories.length → movingAverage histories params.MAPeriod ≠ 0 →
      CalculateMADeviation histories none baseAmount params =
        some (some
          { BaseAmount := baseAmount,
            SuggestAmount := round2 (baseAmount * clampTo params.MinMultiplier
              params.MaxMultiplier (1 - 2 * maDeviation histories params.MAPeriod)),
            Multiplier := round2 (clampTo params.MinMultiplier params.MaxMultiplier
              (1 - 2 * maDeviation histories params.MAPeriod)),
            Reason :=
              if maDeviation histories params.MAPeriod < -0.1 then "低于均线10%以上，建议加倍定投"
              else if -0.1 ≤ maDeviation histories params.MAPeriod
                  ∧ maDeviation histories params.MAPeriod < 0 then "低于均线，建议适当增加"
              else if maDeviation histories params.MAPeriod > 0.1 then "高于均线10%以上，建议减少定投"
              else "接近均线，正常定投" }, none) ∧
      movingAverage histories params.MAPeriod
        = ((navs histories).take params.MAPeriod.toNat).sum / (params.MAPeriod : ℚ) ∧
      maDeviation histories params.MAPeriod
        = (nth (navs histories) 0 - movingAverage histories params.MAPeriod)
          / movingAverage histories params.MAPeriod ∧
      ∀ x : ℚ, clampTo params.MinMultiplier params.MaxMultiplier x
        = max params.MinMultiplier (min x params.MaxMultiplier)) :=
  ⟨fun h => CalculateMADeviation_neutral histories none baseAmount params (Or.inr h),
    fun hlen _ => ⟨CalculateMADeviation_char histories baseAmount params hp hlen, rfl, rfl,
      fun _ => rfl⟩⟩

theorem CalculateMADeviation_spec_witness :
    (1 : Int) ≤ sampleMAParams.MAPeriod ∧
    (((threeDayHistory.length : Int) < sampleMAParams.MAPeriod →
      CalculateMADeviation threeDayHistory none 100 sampleMAParams =
        some (some { BaseAmount := 100, SuggestAmount := 100, Multiplier := 1,
                     Reason := "数据不足，使用基准金额" }, none)) ∧
    (sampleMAParams.MAPeriod ≤ threeDayHistory.length →
      movingAverage threeDayHistory sampleMAParams.MAPeriod ≠ 0 →
      CalculateMADeviation threeDayHistory none 100 sampleMAParams =
        some (some
          { BaseAmount := 100,
            SuggestAmount := round2 (100 * clampTo sampleMAParams.MinMultiplier
              sampleMAParams.MaxMultiplier
              (1 - 2 * maDeviation threeDayHistory sampleMAParams.MAPeriod)),
            Multiplier := round2 (clampTo sampleMAParams.MinMultiplier
              sampleMAParams.MaxMultiplier
              (1 - 2 * maDeviation threeDayHistory sampleMAParams.MAPeriod)),
            Reason :=
              if maDeviation threeDayHistory sampleMAParams.MAPeriod < -0.1 then
                "低于均线10%以上，建议加倍定投"
              else if -0.1 ≤ maDeviation threeDayHistory sampleMAParams.MAPeriod
                  ∧ maDeviation threeDayHistory sampleMAParams.MAPeriod < 0 then
                "低于均线，建议适当增加"
              else if maDeviation threeDayHistory sampleMAParams.MAPeriod > 0.1 then
                "高于均线10%以上，建议减少定投"
              else "接近均线，正常定投" }, none) ∧
      movingAverage threeDayHistory sampleMAParams.MAPeriod
        = ((navs threeDayHistory).take sampleMAParams.MAPeriod.toNat).sum
          / (sampleMAParams.MAPeriod : ℚ) ∧
      maDeviation threeDayHistory sampleMAParams.MAPeriod
        = (nth (navs threeDayHistory) 0 - movingAverage threeDayHistory sampleMAParams.MAPeriod)
          / movingAverage threeDayHistory sampleMAParams.MAPeriod ∧
      ∀ x : ℚ, clampTo sampleMAParams.MinMultiplier sampleMAParams.MaxMultiplier x
        = max sampleMAParams.MinMultiplier (min x sampleMAParams.MaxMultiplier))) ∧
    sampleMAParams.MAPeriod ≤ threeDayHistory.length ∧
    movingAverage threeDayHistory sampleMAParams.MAPeriod ≠ 0 :=
  ⟨by decide, CalculateMADeviation_spec threeDayHistory 100 sampleMAParams (by decide),
    by decide, by decide!⟩

/-- C15: for `LowPE < HighPE`, `CalculateValuation` uses the multiplier
`MaxMultiplier` for a P/E at or below `LowPE`, `MinMultiplier` for a P/E at or
above `HighPE`, and
`MaxMultiplier - (PE-LowPE)/(HighPE-LowPE)*(MaxMultiplier-MinMultiplier)`
strictly in between; it reports that multiplier rounded to two decimals, and
`SuggestAmount = baseAmount` times the unrounded multiplier, rounded to two
decimals. -/
theorem CalculateValuation_spec (baseAmount currentPE : ℚ) (params : ValuationParams)
    (hband : params.LowPE < params.HighPE) :
    ∃ r m, CalculateValuation baseAmount currentPE params = (some r, none) ∧
      r.BaseAmount = baseAmount ∧ r.Multiplier = round2 m ∧
      r.SuggestAmount = round2 (baseAmount * m) ∧
      (currentPE ≤ params.LowPE → m = params.MaxMultiplier) ∧
      (params.HighPE ≤ currentPE → m = params.MinMultiplier) ∧
      (params.LowPE < currentPE → currentPE < params.HighPE →
        m = params.MaxMultiplier - (currentPE - params.LowPE) / (params.HighPE - params.LowPE)
          * (params.MaxMultiplier - params.MinMultiplier)) ∧
      ∀ x : ℚ, round2 x = goRound (x * 100) / 100 := by
  obtain ⟨hlow, hhigh, hmid⟩ := CalculateValuation_char baseAmount currentPE params
  by_cases h1 : currentPE ≤ params.LowPE
  · exact ⟨_, params.MaxMultiplier, hlow h1, rfl, rfl, rfl, fun _ => rfl,
      fun h => absurd (lt_of_lt_of_le hband h) (not_lt.mpr h1),
      fun h => absurd h1 (not_le.mpr h), fun _ => rfl⟩
  · by_cases h2 : params.HighPE ≤ currentPE
    · exact ⟨_, params.MinMultiplier, hhigh (not_le.mp h1) h2, rfl, rfl, rfl,
        fun h => absurd h h1, fun _ => rfl, fun _ h => absurd h2 (not_le.mpr h), fun _ => rfl⟩
    · exact ⟨_, _, hmid (not_le.mp h1) (not_le.mp h2), rfl, rfl, rfl, fun h => absurd h h1,
        fun h => absurd h h2, fun _ _ => rfl, fun _ => rfl⟩

theorem CalculateValuation_spec_witness :
    tightValuation.LowPE < tightValuation.HighPE ∧
    ∃ r m, CalculateValuation 100 15 tightValuation = (some r, none) ∧
      r.BaseAmount = 100 ∧ r.Multiplier = round2 m ∧
      r.SuggestAmount = round2 (100 * m) ∧
      ((15 : ℚ) ≤ tightValuation.LowPE → m = tightValuation.MaxMultiplier) ∧
      (tightValuation.HighPE ≤ 15 → m = tightValuation.MinMultiplier) ∧
      (tightValuation.LowPE < 15 → 15 < tightValuation.HighPE →
        m = tightValuation.MaxMultiplier
          - (15 - tightValuation.LowPE) / (tightValuation.HighPE - tightValuation.LowPE)
            * (tightValuation.MaxMultiplier - tightValuation.MinMultiplier)) ∧
      ∀ x : ℚ, round2 x = goRound (x * 100) / 100 :=
  ⟨by decide!, CalculateValuation_spec 100 15 tightValuation (by decide!)⟩

/-- C16: for a holding, `TargetValue != 0` and `n >= 0` elapsed periods,
`CalculateTargetValue` computes `target = TargetValue*(1+GrowthRate/100)^n`
and `shortfall = max(0, target - shares*currentNav)`; it reports
`SuggestAmount = shortfall` rounded to two decimals and
`Multiplier = shortfall/TargetValue`; and when the market value is at least
the target it reports `SuggestAmount = 0` with the target-reached reason. -/
theorem CalculateTargetValue_spec (pow : ℚ → ℚ → ℚ) (hpow : ∀ (x : ℚ) (k : Nat), pow x k = x ^ k)
    (h : Holding) (params : TargetValueParams) (n : Nat) (_hT : params.TargetValue ≠ 0) :
    ∃ r, CalculateTargetValue pow (some h) params (n : Int) = some (some r, none) ∧
      r.BaseAmount = params.TargetValue ∧
      r.SuggestAmount = round2 (max 0 (params.TargetValue * (1 + params.GrowthRate / 100) ^ n
        - h.Shares * h.CurrentNav)) ∧
      r.Multiplier = max 0 (params.TargetValue * (1 + params.GrowthRate / 100) ^ n
        - h.Shares * h.CurrentNav) / params.TargetValue ∧
      (params.TargetValue * (1 + params.GrowthRate / 100) ^ n ≤ h.Shares * h.CurrentNav →
        r.SuggestAmount = 0 ∧ r.Reason = "已达目标市值，本期无需定投") := by
  have hc := CalculateTargetValue_char pow h params (n : Int)
  have hcast : (((n : Int) : ℚ)) = (n : ℚ) := Int.cast_natCast n
  rw [hcast, hpow] at hc
  refine ⟨_, hc, rfl, rfl, rfl, ?_⟩
  intro hle
  constructor
  · show round2 (max 0 (params.TargetValue * (1 + params.GrowthRate / 100) ^ n
      - h.Shares * h.CurrentNav)) = 0
    rw [max_eq_left (by linarith)]
    have : round2 0 = 0 := by
      have := goRound_intCast 0
      simp only [Int.cast_zero] at this
      simp [round2, this]
    exact this
  · show (if params.TargetValue * (1 + params.GrowthRate / 100) ^ n ≤ h.Shares * h.CurrentNav
      then "已达目标市值，本期无需定投" else _) = _
    rw [if_pos hle]

theorem CalculateTargetValue_spec_witness :
    (∀ (x : ℚ) (k : Nat), ratPow x k = x ^ k) ∧
    ({ TargetValue := 3, GrowthRate := 10 } : TargetValueParams).TargetValue ≠ 0 ∧
    ∃ r, CalculateTargetValue ratPow (some sampleHolding) { TargetValue := 3, GrowthRate := 10 }
        ((2 : Nat) : Int) = some (some r, none) ∧
      r.BaseAmount = ({ TargetValue := 3, GrowthRate := 10 } : TargetValueParams).TargetValue ∧
      r.SuggestAmount = round2 (max 0
        (({ TargetValue := 3, GrowthRate := 10 } : TargetValueParams).TargetValue
          * (1 + ({ TargetValue := 3, GrowthRate := 10 } : TargetValueParams).GrowthRate / 100)
            ^ 2 - sampleHolding.Shares * sampleHolding.CurrentNav)) ∧
      r.Multiplier = max 0
        (({ TargetValue := 3, GrowthRate := 10 } : TargetValueParams).TargetValue
          * (1 + ({ TargetValue := 3, GrowthRate := 10 } : TargetValueParams).GrowthRate / 100)
            ^ 2 - sampleHolding.Shares * sampleHolding.CurrentNav)
        / ({ TargetValue := 3, GrowthRate := 10 } : TargetValueParams).TargetValue ∧
      (({ TargetValue := 3, GrowthRate := 10 } : TargetValueParams).TargetValue
          * (1 + ({ TargetValue := 3, GrowthRate := 10 } : TargetValueParams).GrowthRate / 100)
            ^ 2 ≤ sampleHolding.Shares * sampleHolding.CurrentNav →
        r.SuggestAmount = 0 ∧ r.Reason = "已达目标市值，本期无需定投") :=
  ⟨ratPow_natCast, by decide!,
    CalculateTargetValue_spec ratPow ratPow_natCast sampleHolding
      { TargetValue := 3, GrowthRate := 10 } 2 (by decide!)⟩

/-- C17, as stated, fails: on a history shorter than the period,
`CalculateMADeviation` returns the base amount as given, `0.001`, which is not
a whole number of hundredths. -/
theorem strategy_rounding_counterexample :
    CalculateMADeviation [] none (1 / 1000) sampleMAParams =
      some (some { BaseAmount := 1 / 1000, SuggestAmount := 1 / 1000, Multiplier := 1,
                   Reason := "数据不足，使用基准金额" }, none) ∧
    ¬ ∃ z : Int, (1 / 1000 : ℚ) * 100 = z := by
  refine ⟨by decide!, ?_⟩
  rw [isInt_iff_den]
  decide!

/-- C17, amended: `CalculateMADeviation`, on a fetched history of at least
`MAPeriod >= 1` records whose moving average is not `0`, and
`CalculateValuation`, on every input, report a
`SuggestAmount` and a `Multiplier` rounded to two decimals (each times 100 is
an integer); `CalculateTargetValue` reports a `SuggestAmount` rounded to two
decimals; and the neutral result of `CalculateMADeviation`, on a failed fetch
or a history that is too short, carries the base amount as given and the
multiplier `1`. -/
theorem strategy_rounding (histories : List NetValueHistory) (err : Option String)
    (baseAmount : ℚ) (maParams : MADeviationParams) (currentPE : ℚ) (valParams : ValuationParams)
    (pow : ℚ → ℚ → ℚ) (h : Holding) (tvParams : TargetValueParams) (periods : Int) :
    (1 ≤ maParams.MAPeriod → maParams.MAPeriod ≤ histories.length →
      movingAverage histories maParams.MAPeriod ≠ 0 →
      ∃ r, CalculateMADeviation histories none baseAmount maParams = some (some r, none) ∧
        (∃ z : Int, r.SuggestAmount * 100 = z) ∧ ∃ z : Int, r.Multiplier * 100 = z) ∧
    ((err ≠ none ∨ (histories.length : Int) < maParams.MAPeriod) →
      ∃ r, CalculateMADeviation histories err baseAmount maParams = some (some r, none) ∧
        r.SuggestAmount = baseAmount ∧ r.Multiplier = 1) ∧
    (∃ r, CalculateValuation baseAmount currentPE valParams = (some r, none) ∧
      (∃ z : Int, r.SuggestAmount * 100 = z) ∧ ∃ z : Int, r.Multiplier * 100 = z) ∧
    ∃ r, CalculateTargetValue pow (some h) tvParams periods = some (some r, none) ∧
      ∃ z : Int, r.SuggestAmount * 100 = z := by
  refine ⟨fun hp hlen _ => ⟨_, CalculateMADeviation_char histories baseAmount maParams hp hlen,
      round2_isCents _, round2_isCents _⟩,
    fun hn => ⟨_, CalculateMADeviation_neutral histories err baseAmount maParams hn, rfl, rfl⟩,
    ?_, ⟨_, CalculateTargetValue_char pow h tvParams periods, round2_isCents _⟩⟩
  obtain ⟨hlow, hhigh, hmid⟩ := CalculateValuation_char baseAmount currentPE valParams
  by_cases h1 : currentPE ≤ valParams.LowPE
  · exact ⟨_, hlow h1, round2_isCents _, round2_isCents _⟩
  · by_cases h2 : valParams.HighPE ≤ currentPE
    · exact ⟨_, hhigh (not_le.mp h1) h2, round2_isCents _, round2_isCents _⟩
    · exact ⟨_, hmid (not_le.mp h1) (not_le.mp h2), round2_isCents _, round2_isCents _⟩

theorem strategy_rounding_witness :
    ((1 : Int) ≤ sampleMAParams.MAPeriod ∧ sampleMAParams.MAPeriod ≤ threeDayHistory.length ∧
      movingAverage threeDayHistory sampleMAParams.MAPeriod ≠ 0 ∧
      ∃ r, CalculateMADeviation threeDayHistory none 100 sampleMAParams
          = some (some r, none) ∧
        (∃ z : Int, r.SuggestAmount * 100 = z) ∧ ∃ z : Int, r.Multiplier * 100 = z) ∧
    (∃ r, CalculateMADeviation threeDayHistory (some "timeout") 100 sampleMAParams
        = some (some r, none) ∧ r.SuggestAmount = 100 ∧ r.Multiplier = 1) ∧
    (∃ r, CalculateValuation 100 15 tightValuation = (some r, none) ∧
      (∃ z : Int, r.SuggestAmount * 100 = z) ∧ ∃ z : Int, r.Multiplier * 100 = z) ∧
    ∃ r, CalculateTargetValue ratPow (some sampleHolding) { TargetValue := 3, GrowthRate := 10 } 2
        = some (some r, none) ∧
      ∃ z : Int, r.SuggestAmount * 100 = z :=
  ⟨⟨by decide, by decide, by decide!,
      (strategy_rounding threeDayHistory (some "timeout") 100 sampleMAParams 15 tightValuation
        ratPow sampleHolding { TargetValue := 3, GrowthRate := 10 } 2).1
        (by decide) (by decide) (by decide!)⟩,
    (strategy_rounding threeDayHistory (some "timeout") 100 sampleMAParams 15 tightValuation
      ratPow sampleHolding { TargetValue := 3, GrowthRate := 10 } 2).2.1
      (Or.inl (by simp)),
    (strategy_rounding threeDayHistory (some "timeout") 100 sampleMAParams 15 tightValuation
      ratPow sampleHolding { TargetValue := 3, GrowthRate := 10 } 2).2.2⟩

/-- C18: `findNearestNav` returns the NAV stored for the latest day within
seven days back of the date (the date itself first) that is present in the
map, and `0` when none of those eight days is present; walking back `k` days
moves the formatted date back by `k`; and a step of `CalculateInvestment`
whose lookup is `<= 0` leaves the result unchanged and goes on with the next
date. -/
theorem findNearestNav_spec (navMap : Int → Option ℚ) (date : Int)
    (histories : List NetValueHistory) (addMonth : Int → Int) (amount : ℚ) (frequency : String)
    (endDate : Int) (fuel : Nat) (result : InvestmentResult) :
    (∀ k : Int, formatDate (addDays date (-k)) = formatDate date - k) ∧
    (∀ (k : Int) (v : ℚ), 0 ≤ k → k ≤ 7 → navMap (formatDate date - k) = some v →
      (∀ j : Int, 0 ≤ j → j < k → navMap (formatDate date - j) = none) →
      findNearestNav navMap date histories = v) ∧
    ((∀ k : Int, 0 ≤ k → k ≤ 7 → navMap (formatDate date - k) = none) →
      findNearestNav navMap date histories = 0) ∧
    (date ≤ endDate → findNearestNav navMap date histories ≤ 0 →
      investLoop addMonth navMap histories amount frequency endDate (fuel + 1) date result =
        investLoop addMonth navMap histories amount frequency endDate fuel
          (nextInvestDate addMonth frequency date) result) :=
  ⟨fun k => by rw [formatDate_addDays]; ring,
    (findNearestNav_char navMap date histories).1,
    (findNearestNav_char navMap date histories).2,
    fun hcur => (investLoop_step addMonth navMap histories amount frequency endDate fuel date
      result hcur).1⟩

theorem findNearestNav_spec_witness :
    (buildNavMap twoDayHistory (formatDate (12 * nsPerDay) - 2) = some 2 ∧
      (∀ j : Int, 0 ≤ j → j < 2 →
        buildNavMap twoDayHistory (formatDate (12 * nsPerDay) - j) = none) ∧
      findNearestNav (buildNavMap twoDayHistory) (12 * nsPerDay) twoDayHistory = 2) ∧
    ((∀ k : Int, 0 ≤ k → k ≤ 7 →
        buildNavMap twoDayHistory (formatDate (30 * nsPerDay) - k) = none) ∧
      findNearestNav (buildNavMap twoDayHistory) (30 * nsPerDay) twoDayHistory = 0 ∧
      investLoop thirtyDaysLater (buildNavMap twoDayHistory) twoDayHistory 100 "daily"
          (31 * nsPerDay) (1 + 1) (30 * nsPerDay) freshResult
        = investLoop thirtyDaysLater (buildNavMap twoDayHistory) twoDayHistory 100 "daily"
          (31 * nsPerDay) 1 (nextInvestDate thirtyDaysLater "daily" (30 * nsPerDay)) freshResult) := by
  have hA : ∀ j : Int, 0 ≤ j → j < 2 →
      buildNavMap twoDayHistory (formatDate (12 * nsPerDay) - j) = none := by
    intro j h0 h1
    interval_cases j <;> decide!
  have hB : ∀ k : Int, 0 ≤ k → k ≤ 7 →
      buildNavMap twoDayHistory (formatDate (30 * nsPerDay) - k) = none := by
    intro k h0 h1
    interval_cases k <;> decide!
  exact ⟨⟨by decide!, hA,
      (findNearestNav_spec (buildNavMap twoDayHistory) (12 * nsPerDay) twoDayHistory
        thirtyDaysLater 100 "daily" (31 * nsPerDay) 1 freshResult).2.1 2 2 (by decide) (by decide)
        (by decide!) hA⟩,
    hB,
    (findNearestNav_spec (buildNavMap twoDayHistory) (30 * nsPerDay) twoDayHistory
      thirtyDaysLater 100 "daily" (31 * nsPerDay) 1 freshResult).2.2.1 hB,
    (findNearestNav_spec (buildNavMap twoDayHistory) (30 * nsPerDay) twoDayHistory
      thirtyDaysLater 100 "daily" (31 * nsPerDay) 1 freshResult).2.2.2 (by decide!) (by decide!)⟩

/-- C19: for every amount, every frequency string and every non-empty fetched
history, a simulation with the end date equal to the start date whose lookup
on that day finds a positive NAV returns a result with `InvestCount = 1`,
`TotalInvest = amount` and `TotalShares = amount / nav` (`AddDate(0, 1, 0)`
moving a date forward, and the loop given at least one unit of fuel). -/
theorem CalculateInvestment_single_day (addMonth : Int → Int) (hadv : ∀ t, t < addMonth t)
    (pow : ℚ → ℚ → ℚ) (histories : List NetValueHistory) (hne : histories.length ≠ 0)
    (amount : ℚ) (frequency : String) (date : Int) (fuel : Nat) (hfuel : 1 ≤ fuel)
    (hnav : 0 < findNearestNav (buildNavMap histories) date histories) :
    ∃ r, CalculateInvestment addMonth pow fuel histories none amount frequency date date
        = some (some r, none) ∧
      r.InvestCount = 1 ∧ r.TotalInvest = amount ∧
      r.TotalShares = amount / findNearestNav (buildNavMap histories) date histories :=
  CalculateInvestment_single addMonth hadv pow histories hne amount frequency date fuel hfuel hnav

theorem CalculateInvestment_single_day_witness :
    (∀ t, t < thirtyDaysLater t) ∧ twoDayHistory.length ≠ 0 ∧ 1 ≤ 1 ∧
    0 < findNearestNav (buildNavMap twoDayHistory) (8 * nsPerDay) twoDayHistory ∧
    ∃ r, CalculateInvestment thirtyDaysLater ratPow 1 twoDayHistory none 100 "monthly"
        (8 * nsPerDay) (8 * nsPerDay) = some (some r, none) ∧
      r.InvestCount = 1 ∧ r.TotalInvest = 100 ∧
      r.TotalShares
        = 100 / findNearestNav (buildNavMap twoDayHistory) (8 * nsPerDay) twoDayHistory :=
  ⟨thirtyDaysLater_gt, by decide, by decide, by decide!,
    CalculateInvestment_single_day thirtyDaysLater thirtyDaysLater_gt ratPow twoDayHistory
      (by decide) 100 "monthly" (8 * nsPerDay) 1 (by decide) (by decide!)⟩

/-- C20: a simulation over a non-empty fetched history, given fuel for the
whole date range, returns a result; when it bought a positive number of
shares, `CurrentValue = TotalShares *` the NAV of the first history entry,
`TotalProfit = CurrentValue - TotalInvest`, `AvgCost = TotalInvest/TotalShares`,
`ProfitRate = TotalProfit/TotalInvest*100` for `TotalInvest > 0` and `0`
otherwise, and `AnnualReturn = ((CurrentValue/TotalInvest)^(1/years) - 1)*100`
with `years` the span in hours `/24/365`, for `years > 0` and
`TotalInvest > 0`, and `0` otherwise; when it bought none, all these fields
are `0`. -/
theorem CalculateInvestment_result (addMonth : Int → Int) (hadv : ∀ t, t < addMonth t)
    (pow : ℚ → ℚ → ℚ) (histories : List NetValueHistory) (hne : histories.length ≠ 0)
    (amount : ℚ) (frequency : String) (startDate endDate : Int) (fuel : Nat)
    (hfuel : (endDate - startDate + 1).toNat ≤ fuel) :
    ∃ r, CalculateInvestment addMonth pow fuel histories none amount frequency startDate endDate
        = some (some r, none) ∧
      r.StartDate = startDate ∧ r.EndDate = endDate ∧
      (0 < r.TotalShares →
        r.CurrentValue = r.TotalShares * nth (navs histories) 0 ∧
        r.TotalProfit = r.CurrentValue - r.TotalInvest ∧
        r.AvgCost = r.TotalInvest / r.TotalShares ∧
        r.ProfitRate = (if 0 < r.TotalInvest then r.TotalProfit / r.TotalInvest * 100 else 0) ∧
        r.AnnualReturn =
          (if 0 < hoursBetween endDate startDate / 24 / 365 ∧ 0 < r.TotalInvest then
            (pow (r.CurrentValue / r.TotalInvest)
              (1 / (hoursBetween endDate startDate / 24 / 365)) - 1) * 100
          else 0)) ∧
      (r.TotalShares ≤ 0 →
        r.CurrentValue = 0 ∧ r.TotalProfit = 0 ∧ r.AvgCost = 0 ∧ r.ProfitRate = 0 ∧
        r.AnnualReturn = 0) :=
  CalculateInvestment_char addMonth hadv pow histories hne amount frequency startDate endDate
    fuel hfuel

theorem CalculateInvestment_result_witness :
    (∀ t, t < thirtyDaysLater t) ∧ twoDayHistory.length ≠ 0 ∧
    (10 * nsPerDay - 8 * nsPerDay + 1).toNat ≤ 10 ^ 15 ∧
    ∃ r, CalculateInvestment thirtyDaysLater ratPow (10 ^ 15) twoDayHistory none 100 "daily"
        (8 * nsPerDay) (10 * nsPerDay) = some (some r, none) ∧
      r.StartDate = 8 * nsPerDay ∧ r.EndDate = 10 * nsPerDay ∧
      (0 < r.TotalShares →
        r.CurrentValue = r.TotalShares * nth (navs twoDayHistory) 0 ∧
        r.TotalProfit = r.CurrentValue - r.TotalInvest ∧
        r.AvgCost = r.TotalInvest / r.TotalShares ∧
        r.ProfitRate = (if 0 < r.TotalInvest then r.TotalProfit / r.TotalInvest * 100 else 0) ∧
        r.AnnualReturn =
          (if 0 < hoursBetween (10 * nsPerDay) (8 * nsPerDay) / 24 / 365 ∧ 0 < r.TotalInvest then
            (ratPow (r.CurrentValue / r.TotalInvest)
              (1 / (hoursBetween (10 * nsPerDay) (8 * nsPerDay) / 24 / 365)) - 1) * 100
          else 0)) ∧
      (r.TotalShares ≤ 0 →
        r.CurrentValue = 0 ∧ r.TotalProfit = 0 ∧ r.AvgCost = 0 ∧ r.ProfitRate = 0 ∧
        r.AnnualReturn = 0) :=
  ⟨thirtyDaysLater_gt, by decide, by decide!,
    CalculateInvestment_result thirtyDaysLater thirtyDaysLater_gt ratPow twoDayHistory
      (by decide) 100 "daily" (8 * nsPerDay) (10 * nsPerDay) (10 ^ 15) (by decide!)⟩

/-! ## Holdings: profit, Buy and Sell -/

/-- What `CalculateCurrentProfit` returns on a holding. -/
theorem CalculateCurrentProfit_char (h : Holding) :
    (h.Cost ≠ 0 → CalculateCurrentProfit (some h) = some (h.Profit, h.Profit / h.Cost * 100)) ∧
    (h.Cost = 0 → CalculateCurrentProfit (some h) = some (0, 0)) := by
  constructor
  · intro hc
    simp [CalculateCurrentProfit, hc, Holding.Profit, Holding.MarketValue]
  · intro hc
    simp [CalculateCurrentProfit, hc]

theorem quotient_of_ne (x y : ℚ) (h : y ≠ 0) : quotient x y = some (x / y) := by
  simp [quotient, h]

theorem quotient_zero (x : ℚ) : quotient x 0 = none := by
  simp [quotient]

theorem quotient_eq_none (x y : ℚ) : quotient x y = none ↔ y = 0 := by
  unfold quotient
  split_ifs with h <;> simp [h]

/-- What `Buy` saves when the net value is not zero. -/
theorem Buy_char (h : Holding) (amount netValue fee : ℚ) (hnv : netValue ≠ 0) :
    Buy (some h) amount netValue fee = Booking.saved
      { h with
        Shares := h.Shares + (amount - fee) / netValue,
        Cost := h.Cost + amount,
        CostPrice := if h.Shares + (amount - fee) / netValue > 0 then
            (h.Cost + amount) / (h.Shares + (amount - fee) / netValue)
          else h.CostPrice,
        CurrentNav := netValue } := by
  unfold Buy
  simp only [Option.bind_eq_bind, Option.pure_def, quotient_of_ne _ _ hnv, Option.some_bind]
  by_cases hs : h.Shares + (amount - fee) / netValue > 0
  · simp only [if_pos hs, quotient_of_ne _ _ (ne_of_gt hs), Option.some_bind, Booking.ofUpdate]
  · simp only [if_neg hs, Option.some_bind, Booking.ofUpdate]

/-- `Buy` divides by zero exactly on a zero net value. -/
theorem Buy_notANumber (h : Holding) (amount netValue fee : ℚ) :
    Buy (some h) amount netValue fee = Booking.notANumber ↔ netValue = 0 := by
  constructor
  · intro hb
    by_contra hnv
    rw [Buy_char h amount netValue fee hnv] at hb
    exact Booking.noConfusion hb
  · intro hnv
    subst hnv
    simp [Buy, quotient_zero, Booking.ofUpdate]

/-- What an accepted `Sell` saves when the holding has shares. -/
theorem Sell_char (h : Holding) (shares netValue fee : ℚ) (hacc : ¬ h.Shares < shares)
    (hs : h.Shares ≠ 0) :
    Sell (some h) shares netValue fee = Booking.saved
      { h with
        Cost := h.Cost - h.Cost * (shares / h.Shares),
        Shares := h.Shares - shares,
        CostPrice := if h.Shares - shares > 0 then
            (h.Cost - h.Cost * (shares / h.Shares)) / (h.Shares - shares)
          else 0,
        CurrentNav := netValue } := by
  unfold Sell
  simp only [if_neg hacc, Option.bind_eq_bind, Option.pure_def, quotient_of_ne _ _ hs,
    Option.some_bind]
  by_cases hr : h.Shares - shares > 0
  · simp only [if_pos hr, quotient_of_ne _ _ (ne_of_gt hr), Option.some_bind, Booking.ofUpdate]
  · simp only [if_neg hr, Option.some_bind, Booking.ofUpdate]

/-- An accepted `Sell` divides by zero exactly on a holding without shares. -/
theorem Sell_notANumber (h : Holding) (shares netValue fee : ℚ) (hacc : ¬ h.Shares < shares) :
    Sell (some h) shares netValue fee = Booking.notANumber ↔ h.Shares = 0 := by
  constructor
  · intro hb
    by_contra hs
    rw [Sell_char h shares netValue fee hacc hs] at hb
    exact Booking.noConfusion hb
  · intro hs
    unfold Sell
    simp only [if_neg hacc]
    simp only [hs, quotient_zero, Option.bind_eq_bind, Option.none_bind, Booking.ofUpdate]

/-- `Buy` keeps the holding invariant. -/
theorem Buy_inv (h : Holding) (amount netValue fee : ℚ) (hinv : holdingInv h)
    (hnv : 0 < netValue) (hfee : 0 ≤ fee) (hamt : fee ≤ amount) :
    ∃ h', Buy (some h) amount netValue fee = Booking.saved h' ∧ holdingInv h' := by
  obtain ⟨hs, hc, -, hz⟩ := hinv
  have hadd : 0 ≤ (amount - fee) / netValue := div_nonneg (by linarith) hnv.le
  refine ⟨_, Buy_char h amount netValue fee (ne_of_gt hnv), ?_, ?_, ?_, ?_⟩
  · show 0 ≤ h.Shares + (amount - fee) / netValue
    linarith
  · show 0 ≤ h.Cost + amount
    linarith
  · intro hpos
    show (if h.Shares + (amount - fee) / netValue > 0 then
        (h.Cost + amount) / (h.Shares + (amount - fee) / netValue) else h.CostPrice)
      = (h.Cost + amount) / (h.Shares + (amount - fee) / netValue)
    rw [if_pos hpos]
  · intro hzero
    have hzero' : h.Shares + (amount - fee) / netValue = 0 := hzero
    show (if h.Shares + (amount - fee) / netValue > 0 then
        (h.Cost + amount) / (h.Shares + (amount - fee) / netValue) else h.CostPrice) = 0
    rw [if_neg (by rw [hzero']; exact lt_irrefl 0)]
    exact hz (by linarith)

/-- An accepted `Sell` from a holding with shares keeps the holding
invariant. -/
theorem Sell_inv (h : Holding) (shares netValue fee : ℚ) (hinv : holdingInv h)
    (hheld : 0 < h.Shares) (h0 : 0 ≤ shares) (h1 : shares ≤ h.Shares) :
    ∃ h', Sell (some h) shares netValue fee = Booking.saved h' ∧ holdingInv h' := by
  obtain ⟨-, hc, -, -⟩ := hinv
  have hr0 : 0 ≤ shares / h.Shares := div_nonneg h0 hheld.le
  have hr1 : shares / h.Shares ≤ 1 := by rw [div_le_one hheld]; exact h1
  refine ⟨_, Sell_char h shares netValue fee (not_lt.mpr h1) (ne_of_gt hheld), ?_, ?_, ?_, ?_⟩
  · show 0 ≤ h.Shares - shares
    linarith
  · show 0 ≤ h.Cost - h.Cost * (shares / h.Shares)
    nlinarith [mul_nonneg hc (sub_nonneg.mpr hr1)]
  · intro hpos
    show (if h.Shares - shares > 0 then
        (h.Cost - h.Cost * (shares / h.Shares)) / (h.Shares - shares) else 0)
      = (h.Cost - h.Cost * (shares / h.Shares)) / (h.Shares - shares)
    rw [if_pos hpos]
  · intro hzero
    have hzero' : h.Shares - shares = 0 := hzero
    show (if h.Shares - shares > 0 then
        (h.Cost - h.Cost * (shares / h.Shares)) / (h.Shares - shares) else 0) = 0
    rw [if_neg (by rw [hzero']; exact lt_irrefl 0)]

/-! ## The holding in the repository after Buy and Sell -/

theorem Value.quot_of_ne (x y : ℚ) (h : y ≠ 0) : Value.quot x y = Value.num (x / y) := by
  simp [Value.quot, h]

/-- A failed save leaves the repository as it was. -/
theorem BuyStored_saveErr (h : Holding) (err : String) (amount netValue fee : ℚ) :
    BuyStored h (some err) amount netValue fee = some h := by
  simp [BuyStored]

theorem SellStored_saveErr (h : Holding) (err : String) (shares netValue fee : ℚ) :
    SellStored h (some err) shares netValue fee = some h := by
  unfold SellStored
  split_ifs <;> simp_all

/-- Where `Buy` hands a holding of numbers to `SaveHolding`, that holding is
read back. -/
theorem BuyStored_of_saved (h h' : Holding) (amount netValue fee : ℚ)
    (hb : Buy (some h) amount netValue fee = Booking.saved h') :
    BuyStored h none amount netValue fee = some h' := by
  have hnv : netValue ≠ 0 := by
    intro h0
    rw [(Buy_notANumber h amount netValue fee).mpr h0] at hb
    exact Booking.noConfusion hb
  rw [Buy_char h amount netValue fee hnv] at hb
  have hb' := Booking.saved.inj hb
  have hn : ¬ ((none : Option String) ≠ none) := fun hc => hc rfl
  unfold BuyStored
  simp only [Value.quot_of_ne _ _ hnv, Value.addTo, if_neg hn]
  by_cases hs : h.Shares + (amount - fee) / netValue > 0
  · simp only [if_pos hs, Value.quot_of_ne _ _ (ne_of_gt hs), Value.stored, Option.bind_eq_bind,
      Option.some_bind, Option.pure_def]
    rw [← hb', if_pos hs]
  · simp only [if_neg hs, Option.bind_eq_bind, Option.some_bind, Option.pure_def]
    rw [← hb', if_neg hs]

/-- Where `Sell` hands a holding of numbers to `SaveHolding`, that holding is
read back. -/
theorem SellStored_of_saved (h h' : Holding) (shares netValue fee : ℚ)
    (hb : Sell (some h) shares netValue fee = Booking.saved h') :
    SellStored h none shares netValue fee = some h' := by
  have hacc : ¬ h.Shares < shares := by
    intro hc
    simp only [Sell, if_pos hc] at hb
    exact Booking.noConfusion hb
  have hs : h.Shares ≠ 0 := by
    intro h0
    rw [(Sell_notANumber h shares netValue fee hacc).mpr h0] at hb
    exact Booking.noConfusion hb
  rw [Sell_char h shares netValue fee hacc hs] at hb
  have hb' := Booking.saved.inj hb
  have hn : ¬ ((none : Option String) ≠ none) := fun hc => hc rfl
  unfold SellStored
  simp only [if_neg hacc, Value.quot_of_ne _ _ hs, Value.scale, Value.subFrom, if_neg hn]
  by_cases hr : h.Shares - shares > 0
  · simp only [if_pos hr, Value.over, Value.quot_of_ne _ _ (ne_of_gt hr), Value.stored,
      Option.bind_eq_bind, Option.some_bind, Option.pure_def]
    rw [← hb', if_pos hr]
  · simp only [if_neg hr, Value.stored, Option.bind_eq_bind, Option.some_bind, Option.pure_def]
    rw [← hb', if_neg hr]

/-- The accepted sale of no shares from a holding without shares: the cost,
a NaN, is read back as `0`. -/
theorem SellStored_empty (h : Holding) (netValue fee : ℚ) (hs : h.Shares = 0) :
    SellStored h none 0 netValue fee
      = some { h with Shares := 0, Cost := 0, CostPrice := 0, CurrentNav := netValue } := by
  have hacc : ¬ h.Shares < 0 := by rw [hs]; exact lt_irrefl 0
  have hn : ¬ ((none : Option String) ≠ none) := fun hc => hc rfl
  have hr : ¬ h.Shares - 0 > 0 := by rw [hs]; norm_num
  unfold SellStored
  simp only [if_neg hacc, if_neg hn, if_neg hr]
  simp only [hs, Value.quot, if_true, Value.scale, Value.subFrom, Value.stored,
    Option.bind_eq_bind, Option.some_bind, Option.pure_def, sub_zero]

/-- `Buy` keeps the holding invariant in the repository. -/
theorem BuyStored_inv (h : Holding) (saveErr : Option String) (amount netValue fee : ℚ)
    (hinv : holdingInv h) (hnv : 0 < netValue) (hfee : 0 ≤ fee) (hamt : fee ≤ amount) :
    ∃ h', BuyStored h saveErr amount netValue fee = some h' ∧ holdingInv h' := by
  cases saveErr with
  | some err => exact ⟨h, BuyStored_saveErr h err amount netValue fee, hinv⟩
  | none =>
    obtain ⟨h', hb, hinv'⟩ := Buy_inv h amount netValue fee hinv hnv hfee hamt
    exact ⟨h', BuyStored_of_saved h h' amount netValue fee hb, hinv'⟩

/-- Every accepted `Sell` of `0 <= shares <= held shares` keeps the holding
invariant in the repository, on a holding without shares too. -/
theorem SellStored_inv (h : Holding) (saveErr : Option String) (shares netValue fee : ℚ)
    (hinv : holdingInv h) (h0 : 0 ≤ shares) (h1 : shares ≤ h.Shares) :
    ∃ h', SellStored h saveErr shares netValue fee = some h' ∧ holdingInv h' := by
  cases saveErr with
  | some err => exact ⟨h, SellStored_saveErr h err shares netValue fee, hinv⟩
  | none =>
    by_cases hheld : 0 < h.Shares
    · obtain ⟨h', hb, hinv'⟩ := Sell_inv h shares netValue fee hinv hheld h0 h1
      exact ⟨h', SellStored_of_saved h h' shares netValue fee hb, hinv'⟩
    · have hs : h.Shares = 0 := le_antisymm (not_lt.mp hheld) hinv.1
      have hz : shares = 0 := le_antisymm (by rw [← hs]; exact h1) h0
      subst hz
      refine ⟨_, SellStored_empty h netValue fee hs, ?_⟩
      exact ⟨le_rfl, le_rfl, fun hp => absurd hp (lt_irrefl 0), fun _ => rfl⟩

/-! ## monteCarloSimulation -/

theorem cumReturn_zero (draws : Nat → ℚ) (mean std : ℚ) (pos : Nat) :
    cumReturn draws mean std pos 0 = 0 := by
  simp [cumReturn]

theorem cumReturn_succ (draws : Nat → ℚ) (mean std : ℚ) (pos d : Nat) :
    cumReturn draws mean std pos (d + 1)
      = cumReturn draws mean std pos d + (draws (pos + d) * std + mean) := by
  simp [cumReturn, List.range_succ]

/-- The inner loop, with the fuel that is left to day 1000, ends on the first
day on which the threshold is reached, and on day 1000 at the latest. -/
theorem recoveryTrial_spec (draws : Nat → ℚ) (lossRate mean std : ℚ) (pos : Nat) :
    ∀ (fuel k : Nat), k + fuel = 1000 →
      (∀ j : Nat, j < k → cumReturn draws mean std pos j < lossRate) →
      ∃ d : Nat, recoveryTrial draws lossRate mean std fuel (pos + k)
          (cumReturn draws mean std pos k) (k : Int) = some (pos + d, (d : Int)) ∧
        trialEnds draws lossRate mean std pos d := by
  intro fuel
  induction fuel with
  | zero =>
    intro k hk hbelow
    have hk' : k = 1000 := by omega
    refine ⟨k, ?_, by omega, hbelow, fun h => absurd h (by omega)⟩
    have hnot : ¬ (cumReturn draws mean std pos k < lossRate ∧ (k : Int) < 1000) := by
      rintro ⟨-, h⟩; omega
    simp only [recoveryTrial, if_neg hnot]
  | succ fuel ih =>
    intro k hk hbelow
    by_cases hc : cumReturn draws mean std pos k < lossRate ∧ (k : Int) < 1000
    · have hstep := ih (k + 1) (by omega) (by
        intro j hj
        rcases Nat.lt_succ_iff_lt_or_eq.mp hj with h | h
        · exact hbelow j h
        · rw [h]; exact hc.1)
      obtain ⟨d, hd, hends⟩ := hstep
      refine ⟨d, ?_, hends⟩
      simp only [recoveryTrial, if_pos hc]
      rw [cumReturn_succ] at hd
      have e1 : pos + (k + 1) = pos + k + 1 := by ring
      have e2 : ((k + 1 : Nat) : Int) = (k : Int) + 1 := by push_cast; ring
      rw [e1, e2] at hd
      exact hd
    · refine ⟨k, ?_, by omega, hbelow, fun h => ?_⟩
      · simp only [recoveryTrial, if_neg hc]
      · by_contra hlt
        exact hc ⟨not_le.mp hlt, by omega⟩

/-- A trial of `monteCarloSimulation` returns, with its day count. -/
theorem recoveryTrial_returns (draws : Nat → ℚ) (lossRate mean std : ℚ) (pos : Nat) :
    ∃ d : Nat, recoveryTrial draws lossRate mean std 1000 pos 0 0 = some (pos + d, (d : Int)) ∧
      trialEnds draws lossRate mean std pos d := by
  obtain ⟨d, hd, hends⟩ := recoveryTrial_spec draws lossRate mean std pos 1000 0 (by omega)
    (fun j hj => absurd hj (by omega))
  refine ⟨d, ?_, hends⟩
  rw [cumReturn_zero] at hd
  simpa using hd

/-- The day count of a trial is determined by where it starts. -/
theorem trialEnds_unique (draws : Nat → ℚ) (lossRate mean std : ℚ) (pos d e : Nat)
    (hd : trialEnds draws lossRate mean std pos d) (he : trialEnds draws lossRate mean std pos e) :
    d = e := by
  obtain ⟨hd1, hd2, hd3⟩ := hd
  obtain ⟨he1, he2, he3⟩ := he
  rcases Nat.lt_trichotomy d e with h | h | h
  · exact absurd (he2 d h) (not_lt.mpr (hd3 (by omega)))
  · exact h
  · exact absurd (hd2 e h) (not_lt.mpr (he3 (by omega)))

/-- A trial is completed, in fewer than 1000 days, exactly when the cumulative
return reaches the threshold on a day before day 1000. -/
theorem trialEnds_lt_iff (draws : Nat → ℚ) (lossRate mean std : ℚ) (pos d : Nat)
    (hd : trialEnds draws lossRate mean std pos d) :
    d < 1000 ↔ ∃ j : Nat, j < 1000 ∧ lossRate ≤ cumReturn draws mean std pos j := by
  obtain ⟨-, hd2, hd3⟩ := hd
  constructor
  · intro h
    exact ⟨d, h, hd3 h⟩
  · rintro ⟨j, hj, hreach⟩
    by_contra hnot
    exact absurd (hd2 j (by omega)) (not_lt.mpr hreach)

/-- The trials of `monteCarloSimulation`: the day counts `ds` of the
`simulations` trials, each starting where the one before it ended, and what is
returned from those that are below 1000. -/
theorem monteCarloSimulation_char (draws : Nat → ℚ) (lossRate mean std : ℚ) (n : Nat) :
    ∃ ds : List Nat, ds.length = n ∧
      (∀ (k : Nat) (hk : k < ds.length),
        trialEnds draws lossRate mean std (ds.take k).sum (ds.get ⟨k, hk⟩)) ∧
      monteCarloSimulation draws lossRate mean std (n : Int) =
        some (if (ds.filter (· < 1000)).length = 0 then (999, 0)
          else (Int.tdiv (((ds.filter (· < 1000)).sum : Nat) : Int)
              ((ds.filter (· < 1000)).length : Int),
            ((ds.filter (· < 1000)).length : ℚ) / (n : ℚ) * 100)) := by
  obtain ⟨⟨rec, pos⟩, he, ds, hlen, hpos, hrec, hends⟩ := forUp_inv
    (fun (i : Int) (s : List Int × Nat) => ∃ ds : List Nat, (ds.length : Int) = i ∧
      s.2 = ds.sum ∧ s.1 = (ds.filter (· < 1000)).map (fun (d : Nat) => (d : Int)) ∧
      ∀ (k : Nat) (hk : k < ds.length),
        trialEnds draws lossRate mean std (ds.take k).sum (ds.get ⟨k, hk⟩))
    0 (n : Int)
    (fun _ (s : List Int × Nat) => do
      let (pos, day) ← recoveryTrial draws lossRate mean std 1000 s.2 0 0
      if day < 1000 then pure (s.1 ++ [day], pos) else pure (s.1, pos))
    (([] : List Int), 0) (by omega)
    ⟨[], rfl, rfl, rfl, fun k hk => absurd hk (by simp)⟩
    (by
      rintro i ⟨rec, pos⟩ hi0 hi1 ⟨ds, hlen, hpos, hrec, hends⟩
      simp only at hpos hrec
      obtain ⟨d, hd, hend⟩ := recoveryTrial_returns draws lossRate mean std pos
      have hI : ∀ (k : Nat) (hk : k < (ds ++ [d]).length),
          trialEnds draws lossRate mean std ((ds ++ [d]).take k).sum ((ds ++ [d]).get ⟨k, hk⟩) := by
        intro k hk
        have hk' : k < ds.length + 1 := by simpa using hk
        rcases Nat.lt_succ_iff_lt_or_eq.mp hk' with h | h
        · have e1 : (ds ++ [d]).take k = ds.take k := List.take_append_of_le_length (by omega)
          have e2 : (ds ++ [d]).get ⟨k, hk⟩ = ds.get ⟨k, h⟩ := by
            simp [List.getElem_append_left, h]
          rw [e1, e2]; exact hends k h
        · subst h
          have e1 : (ds ++ [d]).take ds.length = ds := by simp
          have e2 : (ds ++ [d]).get ⟨ds.length, hk⟩ = d := by simp
          rw [e1, e2, ← hpos]; exact hend
      by_cases hday : (d : Int) < 1000
      · refine ⟨(rec ++ [(d : Int)], pos + d), ?_, ds ++ [d], ?_, ?_, ?_, hI⟩
        · simp only [Option.bind_eq_bind, Option.pure_def, hd, Option.some_bind, if_pos hday]
        · simp only [List.length_append, List.length_singleton]; push_cast; omega
        · simp [hpos]
        · have hd' : d < 1000 := by omega
          simp [hrec, List.filter_append, hd']
      · refine ⟨(rec, pos + d), ?_, ds ++ [d], ?_, ?_, ?_, hI⟩
        · simp only [Option.bind_eq_bind, Option.pure_def, hd, Option.some_bind, if_neg hday]
        · simp only [List.length_append, List.length_singleton]; push_cast; omega
        · simp [hpos]
        · have hd' : ¬ d < 1000 := by omega
          simp [hrec, List.filter_append, hd'])
  simp only at hpos hrec
  refine ⟨ds, by exact_mod_cast hlen, hends, ?_⟩
  have hneg : ¬ ((n : Int) < 0) := by omega
  unfold monteCarloSimulation
  rw [if_neg hneg]
  simp only [Option.bind_eq_bind, Option.pure_def, Option.some_bind] at he ⊢
  simp only [he, Option.some_bind]
  have hl : rec.length = (ds.filter (· < 1000)).length := by rw [hrec]; simp
  have hsum : rec.foldl (fun sum d => sum + d) (0 : Int)
      = (((ds.filter (· < 1000)).sum : Nat) : Int) := by
    rw [hrec]
    generalize ds.filter (· < 1000) = l
    have : ∀ (l : List Nat) (a : Int),
        (l.map (fun (d : Nat) => (d : Int))).foldl (fun sum d => sum + d) a
          = a + ((l.sum : Nat) : Int) := by
      intro l
      induction l with
      | nil => intro a; simp
      | cons x l ih => intro a; simp [ih]; ring
    rw [this]; simp
  by_cases hz : (ds.filter (· < 1000)).length = 0
  · rw [if_pos hz, if_pos (by rw [hl]; exact hz)]
  · rw [if_neg hz, if_neg (by rw [hl]; exact hz), hsum, hl, Int.cast_natCast]

/-! ## CalculateProfitProbability -/

/-- The cumulative return of one trial of a horizon. -/
theorem periodReturn_spec (draws : Nat → ℚ) (mean std : ℚ) (period : Int) (pos : Nat) :
    periodReturn draws mean std period pos
      = some (cumReturn draws mean std pos period.toNat, pos + period.toNat) := by
  by_cases hp : period ≤ 0
  · have h0 : period.toNat = 0 := by omega
    unfold periodReturn
    rw [forUp_of_le 0 period _ _ hp, h0, cumReturn_zero]
    rfl
  · obtain ⟨⟨c, q⟩, he, hI⟩ := forUp_inv
      (fun (j : Int) (c : ℚ × Nat) =>
        c = (cumReturn draws mean std pos j.toNat, pos + j.toNat))
      0 period
      (fun _ (c : ℚ × Nat) => pure (c.1 + (draws c.2 * std + mean), c.2 + 1))
      ((0 : ℚ), pos) (by omega)
      (by simp [cumReturn_zero])
      (by
        rintro j ⟨c, q⟩ hj0 hj1 hI
        simp only [Prod.mk.injEq] at hI
        obtain ⟨hc, hq⟩ := hI
        refine ⟨_, rfl, ?_⟩
        have e : (j + 1).toNat = j.toNat + 1 := by omega
        simp only [e, cumReturn_succ, hc, hq]
        rfl)
    unfold periodReturn
    rw [he, hI]

/-- The 1000 trials of a horizon. -/
theorem periodTrials_spec (draws : Nat → ℚ) (mean std : ℚ) (period : Int) (pos : Nat) :
    periodTrials draws mean std period pos
      = some ((((trialReturns draws mean std pos period).filter (fun x => 0 < x)).length : Int),
          trialReturns draws mean std pos period, pos + 1000 * period.toNat) := by
  obtain ⟨⟨cnt, R, q⟩, he, hq, hlen, hR, hcnt⟩ := forUp_inv
    (fun (j : Int) (t : Int × List ℚ × Nat) =>
      t.2.2 = pos + j.toNat * period.toNat ∧ t.2.1.length = 1000 ∧
      (∀ k : Nat, (k : Int) < j → nth t.2.1 k
        = cumReturn draws mean std (pos + k * period.toNat) period.toNat) ∧
      t.1 = ((((List.range j.toNat).map fun (k : Nat) =>
        cumReturn draws mean std (pos + k * period.toNat) period.toNat).filter
          (fun x => 0 < x)).length : Int))
    0 1000
    (fun j (t : Int × List ℚ × Nat) => do
      let (cumReturn, pos) ← periodReturn draws mean std period t.2.2
      let returns ← setIdx t.2.1 j cumReturn
      let profitCount := if cumReturn > 0 then t.1 + 1 else t.1
      pure (profitCount, returns, pos))
    ((0 : Int), make 1000, pos) (by omega)
    ⟨by simp, length_make 1000, fun k hk => absurd hk (by omega), by simp⟩
    (by
      rintro j ⟨cnt, R, q⟩ hj0 hj1 ⟨hq, hlen, hR, hcnt⟩
      simp only at hq hlen hR hcnt
      have hset := setIdx_eq R j (cumReturn draws mean std q period.toNat) hj0
        (by rw [hlen]; exact_mod_cast hj1)
      have e : (j + 1).toNat = j.toNat + 1 := by omega
      have hjn : ((j.toNat : Nat) : Int) = j := Int.toNat_of_nonneg hj0
      refine ⟨((if cumReturn draws mean std q period.toNat > 0 then cnt + 1 else cnt),
        R.set j.toNat (cumReturn draws mean std q period.toNat), q + period.toNat),
        ?_, ?_, ?_, ?_, ?_⟩
      · simp only [Option.bind_eq_bind, Option.pure_def, periodReturn_spec, Option.some_bind,
          hset]
      · simp only [hq, e]; ring
      · simp only [List.length_set, hlen]
      · intro k hk
        simp only
        by_cases hkj : (k : Int) = j
        · rw [hkj, nth_set_self R j _ hj0 (by rw [hlen]; exact_mod_cast hj1), hq]
          have : k = j.toNat := by omega
          rw [this]
        · rw [nth_set_ne R j k _ hj0 (fun h => hkj h.symm)]
          exact hR k (by omega)
      · simp only [e, List.range_succ, List.map_append, List.map_singleton, List.filter_append,
          List.length_append, hq]
        by_cases hpos : cumReturn draws mean std (pos + j.toNat * period.toNat) period.toNat > 0
        · rw [if_pos hpos, hcnt]
          simp [List.filter_singleton, gt_iff_lt.mp hpos]
        · rw [if_neg hpos, hcnt]
          simp [List.filter_singleton, hpos])
  simp only at hq hlen hR hcnt
  have hReq : R = trialReturns draws mean std pos period := by
    apply list_eq_of_nth
    · simp [hlen, trialReturns]
    · intro i hi0 hi1
      obtain ⟨m, rfl⟩ := Int.eq_ofNat_of_zero_le hi0
      rw [hlen] at hi1
      have hlt : m < 1000 := by exact_mod_cast hi1
      rw [hR m (by exact_mod_cast hi1), nth_natCast, trialReturns]
      simp [List.getD_eq_getElem?_getD, hlt]
  unfold periodTrials
  rw [he, hcnt, hq, hReq]
  have e : (1000 : Int).toNat = 1000 := rfl
  simp only [e, trialReturns]

/-- The statistics loop over the returns: the sum, the least and the greatest
seen, from the starting values `a`, `m` and `M`. -/
theorem statsFold_spec (l : List ℚ) :
    ∀ (a m M : ℚ),
      (l.foldl (fun (s : ℚ × ℚ × ℚ) r =>
        (s.1 + r, (if r < s.2.1 then r else s.2.1), (if r > s.2.2 then r else s.2.2)))
        (a, m, M)).1 = a + l.sum ∧
      ((l.foldl (fun (s : ℚ × ℚ × ℚ) r =>
        (s.1 + r, (if r < s.2.1 then r else s.2.1), (if r > s.2.2 then r else s.2.2)))
        (a, m, M)).2.1 = m ∨
       (l.foldl (fun (s : ℚ × ℚ × ℚ) r =>
        (s.1 + r, (if r < s.2.1 then r else s.2.1), (if r > s.2.2 then r else s.2.2)))
        (a, m, M)).2.1 ∈ l) ∧
      (l.foldl (fun (s : ℚ × ℚ × ℚ) r =>
        (s.1 + r, (if r < s.2.1 then r else s.2.1), (if r > s.2.2 then r else s.2.2)))
        (a, m, M)).2.1 ≤ m ∧
      (∀ x ∈ l, (l.foldl (fun (s : ℚ × ℚ × ℚ) r =>
        (s.1 + r, (if r < s.2.1 then r else s.2.1), (if r > s.2.2 then r else s.2.2)))
        (a, m, M)).2.1 ≤ x) ∧
      ((l.foldl (fun (s : ℚ × ℚ × ℚ) r =>
        (s.1 + r, (if r < s.2.1 then r else s.2.1), (if r > s.2.2 then r else s.2.2)))
        (a, m, M)).2.2 = M ∨
       (l.foldl (fun (s : ℚ × ℚ × ℚ) r =>
        (s.1 + r, (if r < s.2.1 then r else s.2.1), (if r > s.2.2 then r else s.2.2)))
        (a, m, M)).2.2 ∈ l) ∧
      M ≤ (l.foldl (fun (s : ℚ × ℚ × ℚ) r =>
        (s.1 + r, (if r < s.2.1 then r else s.2.1), (if r > s.2.2 then r else s.2.2)))
        (a, m, M)).2.2 ∧
      (∀ x ∈ l, x ≤ (l.foldl (fun (s : ℚ × ℚ × ℚ) r =>
        (s.1 + r, (if r < s.2.1 then r else s.2.1), (if r > s.2.2 then r else s.2.2)))
        (a, m, M)).2.2) := by
  induction l with
  | nil =>
    intro a m M
    simp
  | cons r l ih =>
    intro a m M
    simp only [List.foldl_cons, List.sum_cons, List.mem_cons]
    obtain ⟨h1, h2, h3, h4, h5, h6, h7⟩ :=
      ih (a + r) (if r < m then r else m) (if r > M then r else M)
    have hm : (if r < m then r else m) ≤ m ∧ (if r < m then r else m) ≤ r ∧
        ((if r < m then r else m) = m ∨ (if r < m then r else m) = r) := by
      split_ifs with h
      · exact ⟨h.le, le_rfl, Or.inr rfl⟩
      · exact ⟨le_rfl, not_lt.mp h, Or.inl rfl⟩
    have hM : M ≤ (if r > M then r else M) ∧ r ≤ (if r > M then r else M) ∧
        ((if r > M then r else M) = M ∨ (if r > M then r else M) = r) := by
      split_ifs with h
      · exact ⟨le_of_lt h, le_rfl, Or.inr rfl⟩
      · exact ⟨le_rfl, not_lt.mp h, Or.inl rfl⟩
    refine ⟨by rw [h1]; ring, ?_, le_trans h3 hm.1, ?_, ?_, le_trans hM.1 h6, ?_⟩
    · rcases h2 with h | h
      · rcases hm.2.2 with h' | h'
        · left; rw [h, h']
        · right; left; rw [h, h']
      · right; right; exact h
    · rintro x (hx | hx)
      · rw [hx]; exact le_trans h3 hm.2.1
      · exact h4 x hx
    · rcases h5 with h | h
      · rcases hM.2.2 with h' | h'
        · left; rw [h, h']
        · right; left; rw [h, h']
      · right; right; exact h
    · rintro x (hx | hx)
      · rw [hx]; exact le_trans hM.2.1 h6
      · exact h7 x hx

theorem trialReturns_length (draws : Nat → ℚ) (mean std : ℚ) (pos : Nat) (period : Int) :
    (trialReturns draws mean std pos period).length = 1000 := by
  simp [trialReturns]

theorem horizonStart_succ (periods : List Int) (k : Nat) (hk : k < periods.length) :
    horizonStart periods (k + 1)
      = horizonStart periods k + 1000 * (periods.get ⟨k, hk⟩).toNat := by
  have h : (periods.take (k + 1)).map Int.toNat
      = (periods.take k).map Int.toNat ++ [(periods.get ⟨k, hk⟩).toNat] := by
    rw [List.take_succ, List.getElem?_eq_getElem hk, List.map_append]
    rfl
  unfold horizonStart
  rw [h, List.sum_append, List.sum_singleton, Nat.mul_add]

/-- The record that `CalculateProfitProbability` builds from the 1000 returns
of a horizon reports their statistics. -/
theorem horizon_record (R : List ℚ) (hR : R.length = 1000) (period : Int) :
    ∃ r0, idx R 0 = some r0 ∧
      horizonStats
        { Period := period,
          ProfitProb := ((((R.filter (fun x => 0 < x)).length : Int)) : ℚ) / 10,
          ExpectedReturn := (R.foldl (fun (s : ℚ × ℚ × ℚ) r =>
            (s.1 + r, (if r < s.2.1 then r else s.2.1), (if r > s.2.2 then r else s.2.2)))
            ((0 : ℚ), r0, r0)).1 / 1000,
          WorstCase := (R.foldl (fun (s : ℚ × ℚ × ℚ) r =>
            (s.1 + r, (if r < s.2.1 then r else s.2.1), (if r > s.2.2 then r else s.2.2)))
            ((0 : ℚ), r0, r0)).2.1,
          BestCase := (R.foldl (fun (s : ℚ × ℚ × ℚ) r =>
            (s.1 + r, (if r < s.2.1 then r else s.2.1), (if r > s.2.2 then r else s.2.2)))
            ((0 : ℚ), r0, r0)).2.2 } period R := by
  have h0 : (0 : Int) < R.length := by rw [hR]; norm_num
  have hget := idx_eq_get R 0 le_rfl h0
  refine ⟨_, hget, ?_⟩
  set r0 := R.get ⟨(0 : Int).toNat, by omega⟩ with hr0
  have hmem : r0 ∈ R := List.get_mem _ _ _
  obtain ⟨h1, h2, -, h4, h5, -, h7⟩ := statsFold_spec R 0 r0 r0
  refine ⟨rfl, ?_, ?_, ⟨?_, h4⟩, ⟨?_, h7⟩⟩
  · show ((((R.filter (fun x => 0 < x)).length : Int)) : ℚ) / 10
      = 100 * ((R.filter (fun x => 0 < x)).length : ℚ) / 1000
    rw [Int.cast_natCast]; ring
  · show _ / 1000 = R.sum / 1000
    rw [h1, zero_add]
  · rcases h2 with h | h
    · show _ ∈ R
      rw [h]; exact hmem
    · exact h
  · rcases h5 with h | h
    · show _ ∈ R
      rw [h]; exact hmem
    · exact h

set_option maxRecDepth 10000 in
/-- What `CalculateProfitProbability` returns once the return statistics
`mean` and `std` are computed: one record per horizon, in order, each over its
own 1000 trials. -/
theorem CalculateProfitProbability_char (sqrt : ℚ → ℚ) (draws : Nat → ℚ)
    (histories : List NetValueHistory) (periods : List Int) (mean std : ℚ)
    (hret : calculateHistoricalReturn sqrt histories none = some (mean, std, none)) :
    ∃ results, CalculateProfitProbability sqrt draws histories none periods
        = some (some results, none) ∧ results.length = periods.length ∧
      ∀ (k : Nat) (hk : k < periods.length), ∃ r, results.get? k = some r ∧
        horizonStats r (periods.get ⟨k, hk⟩)
          (trialReturns draws mean std (horizonStart periods k) (periods.get ⟨k, hk⟩)) := by
  obtain ⟨⟨results, q⟩, he, hlen, -, hres⟩ := forUp_inv
    (fun (i : Int) (s : List ProbabilityResult × Nat) =>
      s.1.length = periods.length ∧ s.2 = horizonStart periods i.toNat ∧
      ∀ (k : Nat) (hk : k < periods.length), (k : Int) < i → ∃ r, s.1.get? k = some r ∧
        horizonStats r (periods.get ⟨k, hk⟩)
          (trialReturns draws mean std (horizonStart periods k) (periods.get ⟨k, hk⟩)))
    0 (periods.length : Int)
    (fun i (s : List ProbabilityResult × Nat) => do
        let period ← idx periods i
        let (profitCount, returns, pos) ← periodTrials draws mean std period s.2
        let r0 ← idx returns 0
        let (sum, minR, maxR) := returns.foldl (fun (a : ℚ × ℚ × ℚ) r =>
          (a.1 + r, (if r < a.2.1 then r else a.2.1), (if r > a.2.2 then r else a.2.2)))
          ((0 : ℚ), r0, r0)
        let results ← setIdx s.1 i
          { Period := period, ProfitProb := ((profitCount : Int) : ℚ) / 10,
            ExpectedReturn := sum / 1000, WorstCase := minR, BestCase := maxR }
        pure (results, pos))
    (List.replicate periods.length
      { Period := 0, ProfitProb := 0, ExpectedReturn := 0, WorstCase := 0, BestCase := 0 }, 0)
    (by omega)
    ⟨by simp, by simp [horizonStart], fun k _ hk => absurd hk (by omega)⟩
    (by
      rintro i ⟨res, q⟩ hi0 hi1 ⟨hlen, hq, hres⟩
      simp only at hlen hq hres
      obtain ⟨m, rfl⟩ := Int.eq_ofNat_of_zero_le hi0
      have hm : m < periods.length := by exact_mod_cast hi1
      have hidx := idx_eq_get periods (m : Int) hi0 hi1
      have hmm : ((m : Int)).toNat = m := Int.toNat_natCast m
      simp only [hmm] at hidx hq
      set period := periods.get ⟨m, hm⟩ with hperiod
      obtain ⟨r0, hr0, hstats⟩ := horizon_record (trialReturns draws mean std q period)
        (trialReturns_length draws mean std q period) period
      set rcd : ProbabilityResult :=
        { Period := period,
          ProfitProb := (((((trialReturns draws mean std q period).filter
            (fun x => 0 < x)).length : Int)) : ℚ) / 10,
          ExpectedReturn := ((trialReturns draws mean std q period).foldl
            (fun (s : ℚ × ℚ × ℚ) r =>
              (s.1 + r, (if r < s.2.1 then r else s.2.1), (if r > s.2.2 then r else s.2.2)))
            ((0 : ℚ), r0, r0)).1 / 1000,
          WorstCase := ((trialReturns draws mean std q period).foldl
            (fun (s : ℚ × ℚ × ℚ) r =>
              (s.1 + r, (if r < s.2.1 then r else s.2.1), (if r > s.2.2 then r else s.2.2)))
            ((0 : ℚ), r0, r0)).2.1,
          BestCase := ((trialReturns draws mean std q period).foldl
            (fun (s : ℚ × ℚ × ℚ) r =>
              (s.1 + r, (if r < s.2.1 then r else s.2.1), (if r > s.2.2 then r else s.2.2)))
            ((0 : ℚ), r0, r0)).2.2 } with hrcd
      have hset := setIdx_eq res (m : Int) rcd hi0 (by rw [hlen]; exact hi1)
      rw [hmm] at hset
      refine ⟨(res.set m rcd, q + 1000 * period.toNat), ?_, ?_, ?_, ?_⟩
      · simp only [Option.bind_eq_bind, Option.pure_def, hidx, Option.some_bind,
          periodTrials_spec, hr0]
        simp only [hset, Option.some_bind]
      · simp only [List.length_set, hlen]
      · have e : ((m : Int) + 1).toNat = m + 1 := by omega
        simp only [e]
        rw [horizonStart_succ periods m hm, hq]
      · intro k hk hki
        simp only
        by_cases hkm : k = m
        · subst hkm
          refine ⟨rcd, ?_, ?_⟩
          · rw [List.get?_eq_getElem?, List.getElem?_set_self (by rw [hlen]; exact hk)]
          · rw [← hq]; exact hstats
        · obtain ⟨r, hr, hs⟩ := hres k hk (by omega)
          refine ⟨r, ?_, hs⟩
          rw [List.get?_eq_getElem?, List.getElem?_set_ne (fun h => hkm h.symm),
            ← List.get?_eq_getElem?]
          exact hr)
  simp only at hlen hres
  refine ⟨results, ?_, hlen, fun k hk => hres k hk (by exact_mod_cast hk)⟩
  unfold CalculateProfitProbability
  simp only [Option.bind_eq_bind, Option.pure_def, Option.some_bind] at he ⊢
  simp only [hret, Option.some_bind]
  have hn : ¬ ((none : Option String) ≠ none) := fun h => h rfl
  simp only [if_neg hn, he, Option.some_bind]

/-! ## checkConsecutiveAlert -/

/-- The counting loop of `checkConsecutiveAlert`: the numbers of rising and of
falling records among all but the oldest. -/
theorem countLoop_spec (histories : List NetValueHistory) :
    forUp 0 ((histories.length : Int) - 1)
      (fun i (s : Int × Int) => do
        let h ← idx histories i
        if h.DayGrowth > 0 then pure (s.1 + 1, s.2)
        else do
          let h' ← idx histories i
          if h'.DayGrowth < 0 then pure (s.1, s.2 + 1) else pure s) ((0 : Int), (0 : Int))
    = some ((((histories.take (histories.length - 1)).countP
          (fun h => decide (0 < h.DayGrowth)) : Nat) : Int),
        (((histories.take (histories.length - 1)).countP
          (fun h => decide (h.DayGrowth < 0)) : Nat) : Int)) := by
  by_cases hlen : histories.length = 0
  · rw [forUp_of_le _ _ _ _ (by omega), hlen]
    simp
  obtain ⟨⟨u, d⟩, he, hu, hd⟩ := forUp_inv
    (fun (i : Int) (s : Int × Int) =>
      s.1 = (((histories.take i.toNat).countP (fun h => decide (0 < h.DayGrowth)) : Nat) : Int) ∧
      s.2 = (((histories.take i.toNat).countP (fun h => decide (h.DayGrowth < 0)) : Nat) : Int))
    0 ((histories.length : Int) - 1)
    (fun i (s : Int × Int) => do
        let h ← idx histories i
        if h.DayGrowth > 0 then pure (s.1 + 1, s.2)
        else do
          let h' ← idx histories i
          if h'.DayGrowth < 0 then pure (s.1, s.2 + 1) else pure s) ((0 : Int), (0 : Int))
    (by omega) ⟨by simp, by simp⟩
    (by
      rintro i ⟨u, d⟩ hi0 hi1 ⟨hu, hd⟩
      simp only at hu hd
      obtain ⟨m, rfl⟩ := Int.eq_ofNat_of_zero_le hi0
      have hm : m < histories.length := by omega
      have hidx := idx_eq_get histories (m : Int) hi0 (by omega)
      have hmm : ((m : Int)).toNat = m := Int.toNat_natCast m
      have e : ((m : Int) + 1).toNat = m + 1 := by omega
      simp only [hmm] at hidx hu hd
      have htake : histories.take (m + 1) = histories.take m ++ [histories.get ⟨m, hm⟩] := by
        rw [List.take_succ, List.getElem?_eq_getElem hm]
        rfl
      generalize histories.get ⟨m, hm⟩ = x at hidx htake
      simp only [Option.bind_eq_bind, Option.pure_def, hidx, Option.some_bind, e, htake,
        List.countP_append, List.countP_singleton]
      by_cases hup : x.DayGrowth > 0
      · have hnd : ¬ x.DayGrowth < 0 := not_lt.mpr (le_of_lt hup)
        have hup' : 0 < x.DayGrowth := hup
        refine ⟨(u + 1, d), by rw [if_pos hup], ?_, ?_⟩
        · simp [hu, hup']
        · simp [hd, hnd]
      · have hup' : ¬ 0 < x.DayGrowth := hup
        by_cases hdn : x.DayGrowth < 0
        · refine ⟨(u, d + 1), by rw [if_neg hup, if_pos hdn], ?_, ?_⟩
          · simp [hu, hup']
          · simp [hd, hdn]
        · refine ⟨(u, d), by rw [if_neg hup, if_neg hdn], ?_, ?_⟩
          · simp [hu, hup']
          · simp [hd, hdn])
  simp only at hu hd
  have e : ((histories.length : Int) - 1).toNat = histories.length - 1 := by omega
  rw [he, hu, hd, e]

/-- What `checkConsecutiveAlert` returns on a fetched history that is not
shorter than the number of days of the rule. -/
theorem checkConsecutiveAlert_char (now : Int) (rule : AlertRule)
    (histories : List NetValueHistory)
    (hlen : ¬ ((histories.length : Int) < rule.ConsecutiveDays)) :
    checkConsecutiveAlert now (some rule) histories none =
      if rule.Direction = "up" ∧ ((((histories.take (histories.length - 1)).countP
          (fun h => decide (0 < h.DayGrowth)) : Nat) : Int)) ≥ rule.ConsecutiveDays then
        some (some
          { RuleID := rule.ID, FundCode := rule.FundCode, FundName := rule.FundName,
            AlertType := AlertTypeConsecutive,
            Message := rule.FundName ++ " 连涨" ++ toString ((((histories.take
              (histories.length - 1)).countP (fun h => decide (0 < h.DayGrowth)) : Nat) : Int))
              ++ "天",
            Value := ((((histories.take (histories.length - 1)).countP
              (fun h => decide (0 < h.DayGrowth)) : Nat) : Int) : ℚ),
            TriggeredAt := now, IsRead := false })
      else if rule.Direction = "down" ∧ ((((histories.take (histories.length - 1)).countP
          (fun h => decide (h.DayGrowth < 0)) : Nat) : Int)) ≥ rule.ConsecutiveDays then
        some (some
          { RuleID := rule.ID, FundCode := rule.FundCode, FundName := rule.FundName,
            AlertType := AlertTypeConsecutive,
            Message := rule.FundName ++ " 连跌" ++ toString ((((histories.take
              (histories.length - 1)).countP (fun h => decide (h.DayGrowth < 0)) : Nat) : Int))
              ++ "天",
            Value := ((((histories.take (histories.length - 1)).countP
              (fun h => decide (0 < h.DayGrowth)) : Nat) : Int) : ℚ),
            TriggeredAt := now, IsRead := false })
      else some none := by
  have hg : ¬ ((none : Option String) ≠ none ∨ (histories.length : Int) < rule.ConsecutiveDays) := by
    rintro (h | h)
    · exact h rfl
    · exact hlen h
  have hloop := countLoop_spec histories
  unfold checkConsecutiveAlert
  simp only [Option.bind_eq_bind, Option.pure_def, Option.some_bind] at hloop ⊢
  simp only [if_neg hg, hloop, Option.some_bind]
  by_cases h1 : rule.Direction = "up" ∧ ((((histories.take (histories.length - 1)).countP
      (fun h => decide (0 < h.DayGrowth)) : Nat) : Int)) ≥ rule.ConsecutiveDays
  · simp only [if_pos h1]
    rfl
  · by_cases h2 : rule.Direction = "down" ∧ ((((histories.take (histories.length - 1)).countP
        (fun h => decide (h.DayGrowth < 0)) : Nat) : Int)) ≥ rule.ConsecutiveDays
    · simp only [if_neg h1, if_pos h2]
      rfl
    · simp only [if_neg h1, if_neg h2]
      rfl

/-- A failed fetch or a history shorter than the number of days of the rule
gives no alert. -/
theorem checkConsecutiveAlert_short (now : Int) (rule : AlertRule)
    (histories : List NetValueHistory) (err : Option String)
    (h : err ≠ none ∨ (histories.length : Int) < rule.ConsecutiveDays) :
    checkConsecutiveAlert now (some rule) histories err = some none := by
  unfold checkConsecutiveAlert
  simp only [Option.bind_eq_bind, Option.pure_def, Option.some_bind, if_pos h]

/-- On at most `n + 1` records, `n` of all but the oldest satisfy `p` exactly
when there are `n + 1` records and each of the `n` most recent satisfies
`p`. -/
theorem countP_take_ge (histories : List NetValueHistory) (p : NetValueHistory → Bool)
    (n : Nat) (hn : 1 ≤ n) (hlen : histories.length ≤ n + 1) :
    n ≤ (histories.take (histories.length - 1)).countP p ↔
      histories.length = n + 1 ∧ ∀ h ∈ histories.take n, p h = true := by
  have hle := List.countP_le_length (p := p) (l := histories.take (histories.length - 1))
  have htl : (histories.take (histories.length - 1)).length = histories.length - 1 := by
    simp
  constructor
  · intro h
    have hl : histories.length = n + 1 := by omega
    refine ⟨hl, ?_⟩
    have hc : (histories.take (histories.length - 1)).countP p
        = (histories.take (histories.length - 1)).length := by omega
    have hall := List.countP_eq_length.mp hc
    have e : histories.length - 1 = n := by omega
    rw [e] at hall
    exact hall
  · rintro ⟨hl, hall⟩
    have e : histories.length - 1 = n := by omega
    rw [e]
    have hc := List.countP_eq_length.mpr hall
    rw [hc]
    simp
    omega

/-! ## The range of the RSI -/

theorem nth_lt_of_pairwise (prices : List ℚ) (h : prices.Pairwise (fun a b => a < b)) :
    ∀ i j : Int, 0 ≤ i → i < j → j < prices.length → nth prices i < nth prices j := by
  intro i j hi hij hj
  lift i to Nat using hi
  lift j to Nat using (by omega)
  have hi' : i < prices.length := by omega
  have hj' : j < prices.length := by omega
  have := List.pairwise_iff_get.mp h ⟨i, hi'⟩ ⟨j, hj'⟩ (by simp only [Fin.mk_lt_mk]; omega)
  simp only [nth_natCast, List.getD_eq_getElem?_getD, List.getElem?_eq_getElem hi',
    List.getElem?_eq_getElem hj', Option.getD_some]
  exact this

theorem nth_gt_of_pairwise (prices : List ℚ) (h : prices.Pairwise (fun a b => b < a)) :
    ∀ i j : Int, 0 ≤ i → i < j → j < prices.length → nth prices j < nth prices i := by
  intro i j hi hij hj
  lift i to Nat using hi
  lift j to Nat using (by omega)
  have hi' : i < prices.length := by omega
  have hj' : j < prices.length := by omega
  have := List.pairwise_iff_get.mp h ⟨i, hi'⟩ ⟨j, hj'⟩ (by simp only [Fin.mk_lt_mk]; omega)
  simp only [nth_natCast, List.getD_eq_getElem?_getD, List.getElem?_eq_getElem hi',
    List.getElem?_eq_getElem hj', Option.getD_some]
  exact this

theorem wilderAvg_nonneg (x : Int → ℚ) (period : Int) (hp : 1 ≤ period) :
    ∀ n : Nat, (∀ k : Int, 1 ≤ k → k ≤ period + n → 0 ≤ x k) → 0 ≤ wilderAvg x period n := by
  have hpq : (0 : ℚ) < (period : ℚ) := by exact_mod_cast (by omega : 0 < period)
  have hpq1 : (0 : ℚ) ≤ (period : ℚ) - 1 := by
    have : (1 : ℚ) ≤ (period : ℚ) := by exact_mod_cast hp
    linarith
  intro n
  induction n with
  | zero =>
    intro hx
    simp only [wilderAvg]
    apply div_nonneg _ hpq.le
    apply List.sum_nonneg
    intro y hy
    obtain ⟨i, hi, rfl⟩ := List.mem_map.mp hy
    have hi' := List.mem_range.mp hi
    exact hx _ (by omega) (by push_cast; omega)
  | succ n ih =>
    intro hx
    simp only [wilderAvg]
    apply div_nonneg _ hpq.le
    have h1 := ih (fun k hk1 hk2 => hx k hk1 (by push_cast; omega))
    have h2 := hx (period + n + 1) (by omega) (by push_cast; omega)
    have := mul_nonneg h1 hpq1
    linarith

theorem wilderAvg_pos (x : Int → ℚ) (period : Int) (hp : 1 ≤ period) :
    ∀ n : Nat, (∀ k : Int, 1 ≤ k → k ≤ period + n → 0 < x k) → 0 < wilderAvg x period n := by
  have hpq : (0 : ℚ) < (period : ℚ) := by exact_mod_cast (by omega : 0 < period)
  have hpq1 : (0 : ℚ) ≤ (period : ℚ) - 1 := by
    have : (1 : ℚ) ≤ (period : ℚ) := by exact_mod_cast hp
    linarith
  intro n
  induction n with
  | zero =>
    intro hx
    simp only [wilderAvg]
    apply div_pos _ hpq
    apply List.sum_pos
    · intro y hy
      obtain ⟨i, hi, rfl⟩ := List.mem_map.mp hy
      have hi' := List.mem_range.mp hi
      exact hx _ (by omega) (by push_cast; omega)
    · intro h
      have hl := congrArg List.length h
      simp at hl
      omega
  | succ n ih =>
    intro hx
    simp only [wilderAvg]
    apply div_pos _ hpq
    have h1 := ih (fun k hk1 hk2 => hx k hk1 (by push_cast; omega))
    have h2 := hx (period + n + 1) (by omega) (by push_cast; omega)
    have := mul_nonneg h1.le hpq1
    linarith

theorem gainSpec_nonneg (prices : List ℚ) (j : Int) : 0 ≤ gainSpec prices j := le_max_right _ _

theorem lossSpec_nonneg (prices : List ℚ) (j : Int) : 0 ≤ lossSpec prices j := le_max_right _ _

/-- The RSI of a non-negative average gain and loss lies between 0 and 100. -/
theorem rsiSpec_bounds (prices : List ℚ) (period : Int) (hp : 1 ≤ period) (n : Nat) :
    0 ≤ rsiSpec prices period n ∧ rsiSpec prices period n ≤ 100 := by
  have hG := wilderAvg_nonneg (gainSpec prices) period hp n (fun k _ _ => gainSpec_nonneg prices k)
  have hL := wilderAvg_nonneg (lossSpec prices) period hp n (fun k _ _ => lossSpec_nonneg prices k)
  unfold rsiSpec
  split_ifs with h0
  · constructor <;> norm_num
  · have hLpos : 0 < wilderAvg (lossSpec prices) period n := lt_of_le_of_ne hL (Ne.symm h0)
    have hrs : 0 ≤ wilderAvg (gainSpec prices) period n / wilderAvg (lossSpec prices) period n :=
      div_nonneg hG hLpos.le
    have hden : (0 : ℚ) < 1 + wilderAvg (gainSpec prices) period n
        / wilderAvg (lossSpec prices) period n := by linarith
    have h1 : (100 : ℚ) / (1 + wilderAvg (gainSpec prices) period n
        / wilderAvg (lossSpec prices) period n) ≤ 100 := by
      rw [div_le_iff₀ hden]; nlinarith
    have h2 : (0 : ℚ) ≤ 100 / (1 + wilderAvg (gainSpec prices) period n
        / wilderAvg (lossSpec prices) period n) := div_nonneg (by norm_num) hden.le
    constructor <;> linarith

/-- The RSI that `CalculateRSI` returns: between 0 and 100 everywhere, 100 on
a strictly increasing series and 0 on a strictly decreasing one. -/
theorem CalculateRSI_range (prices : List ℚ) (period : Int) (hp : 1 ≤ period)
    (hlen : period + 1 ≤ prices.length) :
    ∃ r, CalculateRSI prices period = some (some r) ∧ r.length = prices.length ∧
      (∀ j : Int, 0 ≤ nth r j ∧ nth r j ≤ 100) ∧
      (prices.Pairwise (fun a b => a < b) →
        ∀ j : Int, period ≤ j → j < prices.length → nth r j = 100) ∧
      (prices.Pairwise (fun a b => b < a) →
        ∀ j : Int, period ≤ j → j < prices.length → nth r j = 0) := by
  obtain ⟨r, hr, hrl, hlow, hval⟩ := CalculateRSI_char prices period hp hlen
  have hat : ∀ j : Int, period ≤ j → j < prices.length →
      nth r j = rsiSpec prices period (j - period).toNat := by
    intro j hj0 hj1
    have e : period + ((j - period).toNat : Nat) = j := by
      rw [Int.toNat_of_nonneg (by omega)]; ring
    have := hval (j - period).toNat (by rw [e]; exact hj1)
    rw [e] at this
    exact this
  refine ⟨r, hr, hrl, ?_, ?_, ?_⟩
  · intro j
    by_cases h1 : j < period
    · rw [hlow j h1]; constructor <;> norm_num
    · by_cases h2 : j < prices.length
      · rw [hat j (by omega) h2]
        exact rsiSpec_bounds prices period hp _
      · rw [nth_of_length_le r j (by rw [hrl]; omega)]; constructor <;> norm_num
  · intro hinc j hj0 hj1
    rw [hat j hj0 hj1]
    have hzero : wilderAvg (lossSpec prices) period (j - period).toNat = 0 := by
      rw [wilderAvg_congr (lossSpec prices) (fun _ => 0) period (by omega) _ (by
        intro k hk1 hk2
        have hk3 : k < prices.length := by
          have : period + ((j - period).toNat : Nat) = j := by
            rw [Int.toNat_of_nonneg (by omega)]; ring
          omega
        have := nth_lt_of_pairwise prices hinc (k - 1) k (by omega) (by omega) hk3
        unfold lossSpec
        exact max_eq_right (by linarith))]
      exact wilderAvg_zero period _
    unfold rsiSpec
    rw [if_pos hzero]
  · intro hdec j hj0 hj1
    rw [hat j hj0 hj1]
    have hrange : ∀ k : Int, 1 ≤ k → k ≤ period + ((j - period).toNat : Nat) →
        k < prices.length := by
      intro k _ hk2
      have : period + ((j - period).toNat : Nat) = j := by
        rw [Int.toNat_of_nonneg (by omega)]; ring
      omega
    have hG : wilderAvg (gainSpec prices) period (j - period).toNat = 0 := by
      rw [wilderAvg_congr (gainSpec prices) (fun _ => 0) period (by omega) _ (by
        intro k hk1 hk2
        have := nth_gt_of_pairwise prices hdec (k - 1) k (by omega) (by omega)
          (hrange k hk1 hk2)
        unfold gainSpec
        exact max_eq_right (by linarith))]
      exact wilderAvg_zero period _
    have hL : 0 < wilderAvg (lossSpec prices) period (j - period).toNat := by
      apply wilderAvg_pos (lossSpec prices) period hp
      intro k hk1 hk2
      have := nth_gt_of_pairwise prices hdec (k - 1) k (by omega) (by omega)
        (hrange k hk1 hk2)
      unfold lossSpec
      exact lt_max_of_lt_left (by linarith)
    unfold rsiSpec
    rw [if_neg (ne_of_gt hL), hG]
    norm_num

/-! ## The maximum drawdown over all pairs -/

theorem nth_navs_pos (histories : List NetValueHistory)
    (hpos : ∀ h ∈ histories, 0 < h.NetValue) (i : Int) (h0 : 0 ≤ i)
    (h1 : i < histories.length) : 0 < nth (navs histories) i := by
  obtain ⟨h, hh, hv⟩ := idx_navs histories i h0 h1
  rw [← hv]
  apply hpos
  rw [idx_eq_get histories i h0 h1] at hh
  rw [← Option.some.inj hh]
  exact List.get_mem _ _ _

/-- The drawdown from an older point is the greater the higher that point. -/
theorem drawdown_mono (x p q : ℚ) (hx : 0 < x) (hp : 0 < p) (hpq : p ≤ q) :
    (p - x) / p * 100 ≤ (q - x) / q * 100 := by
  have hq : 0 < q := lt_of_lt_of_le hp hpq
  have h1 : (p - x) / p = 1 - x / p := by field_simp
  have h2 : (q - x) / q = 1 - x / q := by field_simp
  have h3 : x / q ≤ x / p := div_le_div_of_nonneg_left hx.le hp hpq
  rw [h1, h2]
  linarith

/-- The running-peak loop of `CalculateMaxDrawdown` returns the greatest
drawdown over all pairs of an older and a later point. -/
theorem CalculateMaxDrawdown_pairs (histories : List NetValueHistory)
    (hlen : 2 ≤ histories.length) (hpos : ∀ h ∈ histories, 0 < h.NetValue) :
    ∃ d, CalculateMaxDrawdown histories none = some (d, none) ∧ 0 ≤ d ∧
      (∀ a b : Int, 0 ≤ a → a < b → b < histories.length →
        (nth (navs histories) b - nth (navs histories) a) / nth (navs histories) b * 100 ≤ d) ∧
      (d = 0 ∨ ∃ a b : Int, 0 ≤ a ∧ a < b ∧ b < histories.length ∧
        d = (nth (navs histories) b - nth (navs histories) a) / nth (navs histories) b * 100) := by
  have hvpos := nth_navs_pos histories hpos
  obtain ⟨last, hlast, hlastv⟩ := idx_navs histories ((histories.length : Int) - 1) (by omega)
    (by omega)
  obtain ⟨⟨d, pk⟩, he, -, -, -, hd0, hdub, hdat⟩ := forDown_inv
    (fun (i : Int) (s : ℚ × ℚ) => 0 < s.2 ∧
      (∀ b : Int, i < b → b < histories.length → nth (navs histories) b ≤ s.2) ∧
      (∃ b : Int, i < b ∧ b < histories.length ∧ s.2 = nth (navs histories) b) ∧
      0 ≤ s.1 ∧
      (∀ a b : Int, i < a → a < b → b < histories.length →
        (nth (navs histories) b - nth (navs histories) a) / nth (navs histories) b * 100
          ≤ s.1) ∧
      (s.1 = 0 ∨ ∃ a b : Int, i < a ∧ a < b ∧ b < histories.length ∧
        s.1 = (nth (navs histories) b - nth (navs histories) a) / nth (navs histories) b * 100))
    ((histories.length : Int) - 2)
    (fun i (s : ℚ × ℚ) => do
        let h ← idx histories i
        let peak := if h.NetValue > s.2 then h.NetValue else s.2
        let h' ← idx histories i
        let drawdown := (peak - h'.NetValue) / peak * 100
        let maxDrawdown := if drawdown > s.1 then drawdown else s.1
        pure (maxDrawdown, peak)) ((0 : ℚ), last.NetValue) (by omega)
    (by
      refine ⟨?_, ?_, ⟨(histories.length : Int) - 1, by omega, by omega, hlastv⟩, le_rfl, ?_,
        Or.inl rfl⟩
      · show 0 < last.NetValue
        rw [hlastv]; exact hvpos _ (by omega) (by omega)
      · intro b hb0 hb1
        have : b = (histories.length : Int) - 1 := by omega
        show _ ≤ last.NetValue
        rw [this, hlastv]
      · intro a b ha hab hb
        omega)
    (by
      rintro k ⟨md, pk⟩ hk0 hk1 ⟨hpk, hub, ⟨b0, hb0, hb1, hb2⟩, hmd, hpairs, hat⟩
      simp only at hpk hub hb2 hmd hpairs hat
      obtain ⟨h, hh, hv⟩ := idx_navs histories k hk0 (by omega)
      have hx : 0 < nth (navs histories) k := hvpos k hk0 (by omega)
      set x := nth (navs histories) k with hxdef
      set peak := if x > pk then x else pk with hpeak
      have hpeak_pos : 0 < peak := by
        rw [hpeak]; split_ifs <;> assumption
      have hpeak_ge : x ≤ peak := by
        rw [hpeak]; split_ifs with hc
        · exact le_rfl
        · exact le_of_not_lt hc
      have hpeak_pk : pk ≤ peak := by
        rw [hpeak]; split_ifs with hc
        · exact le_of_lt hc
        · exact le_rfl
      have hdd0 : 0 ≤ (peak - x) / peak * 100 :=
        mul_nonneg (div_nonneg (by linarith) hpeak_pos.le) (by norm_num)
      refine ⟨(if (peak - x) / peak * 100 > md then (peak - x) / peak * 100 else md, peak),
        ?_, hpeak_pos, ?_, ?_, ?_, ?_, ?_⟩
      · simp only [Option.bind_eq_bind, Option.pure_def, hh, Option.some_bind, hv]
      · intro b hb hbl
        simp only
        rcases eq_or_lt_of_le (show k ≤ b by omega) with heq | hlt
        · rw [← heq]; exact hpeak_ge
        · exact le_trans (hub b hlt hbl) hpeak_pk
      · simp only
        by_cases hc : x > pk
        · exact ⟨k, by omega, by omega, by rw [hpeak, if_pos hc]⟩
        · exact ⟨b0, by omega, hb1, by rw [hpeak, if_neg hc, hb2]⟩
      · simp only
        split_ifs <;> assumption
      · intro a b ha hab hbl
        simp only
        have hmd' : md ≤ (if (peak - x) / peak * 100 > md then (peak - x) / peak * 100 else md) := by
          split_ifs with hc
          · exact le_of_lt hc
          · exact le_rfl
        have hdd' : (peak - x) / peak * 100
            ≤ (if (peak - x) / peak * 100 > md then (peak - x) / peak * 100 else md) := by
          split_ifs with hc
          · exact le_rfl
          · exact le_of_not_lt hc
        rcases eq_or_lt_of_le (show k ≤ a by omega) with heq | hlt
        · rw [← heq]
          have hbpos : 0 < nth (navs histories) b := hvpos b (by omega) hbl
          have hble : nth (navs histories) b ≤ peak :=
            le_trans (hub b (by omega) hbl) hpeak_pk
          exact le_trans (drawdown_mono x _ _ hx hbpos hble) hdd'
        · exact le_trans (hpairs a b hlt hab hbl) hmd'
      · simp only
        by_cases hc : (peak - x) / peak * 100 > md
        · rw [if_pos hc]
          right
          have hddpos : 0 < (peak - x) / peak * 100 := lt_of_le_of_lt hmd hc
          have hne : ¬ x > pk := by
            intro hgt
            have : peak = x := by rw [hpeak, if_pos hgt]
            rw [this, sub_self, zero_div, zero_mul] at hddpos
            exact lt_irrefl 0 hddpos
          have hpk_eq : peak = nth (navs histories) b0 := by rw [hpeak, if_neg hne, hb2]
          exact ⟨k, b0, by omega, by omega, hb1, by rw [hpk_eq]⟩
        · rw [if_neg hc]
          rcases hat with h0 | ⟨a, b, ha, hab, hbl, hval⟩
          · exact Or.inl h0
          · exact Or.inr ⟨a, b, by omega, hab, hbl, hval⟩)
  simp only at hd0 hdub hdat
  refine ⟨d, ?_, hd0, fun a b ha hab hb => hdub a b (by omega) hab hb, ?_⟩
  · have hnot : ¬ ((none : Option String) ≠ none ∨ histories.length < 2) := by
      rintro (h | h)
      · exact h rfl
      · omega
    unfold CalculateMaxDrawdown
    rw [if_neg hnot]
    simp only [Option.bind_eq_bind, Option.pure_def, Option.some_bind] at he ⊢
    simp only [hlast, he, Option.some_bind]
  · rcases hdat with h0 | ⟨a, b, ha, hab, hbl, hval⟩
    · exact Or.inl h0
    · exact Or.inr ⟨a, b, by omega, hab, hbl, hval⟩

/-- The naive maximum: at least `0` and every pair's drawdown, and equal to
`0` or to some pair's drawdown. -/
theorem pairwiseDrawdown_spec (v : List ℚ) :
    0 ≤ pairwiseDrawdown v ∧
    (∀ i j : Nat, i < j → j < v.length → pairDrawdown v i j ≤ pairwiseDrawdown v) ∧
    (pairwiseDrawdown v = 0 ∨
      ∃ i j : Nat, i < j ∧ j < v.length ∧ pairwiseDrawdown v = pairDrawdown v i j) := by
  have hmem : ∀ x : ℚ, x ∈ ((List.range v.length).flatMap fun (j : Nat) =>
      (List.range j).map fun (i : Nat) => pairDrawdown v i j) ↔
      ∃ i j : Nat, i < j ∧ j < v.length ∧ x = pairDrawdown v i j := by
    intro x
    simp only [List.mem_flatMap, List.mem_map, List.mem_range]
    constructor
    · rintro ⟨j, hj, i, hi, rfl⟩
      exact ⟨i, j, hi, hj, rfl⟩
    · rintro ⟨i, j, hi, hj, rfl⟩
      exact ⟨j, hj, i, hi, rfl⟩
  obtain ⟨h0, hall⟩ := foldr_max_ge ((List.range v.length).flatMap fun (j : Nat) =>
      (List.range j).map fun (i : Nat) => pairDrawdown v i j) 0
  refine ⟨h0, fun i j hij hj => hall _ ((hmem _).mpr ⟨i, j, hij, hj, rfl⟩), ?_⟩
  rcases foldr_max_mem ((List.range v.length).flatMap fun (j : Nat) =>
      (List.range j).map fun (i : Nat) => pairDrawdown v i j) 0 with h | h
  · exact Or.inl h
  · exact Or.inr ((hmem _).mp h)

/-- The running-peak computation equals the naive pairwise maximum. -/
theorem CalculateMaxDrawdown_eq_pairwise (histories : List NetValueHistory)
    (hlen : 2 ≤ histories.length) (hpos : ∀ h ∈ histories, 0 < h.NetValue) :
    CalculateMaxDrawdown histories none = some (pairwiseDrawdown (navs histories), none) := by
  obtain ⟨d, hd, hd0, hub, hat⟩ := CalculateMaxDrawdown_pairs histories hlen hpos
  obtain ⟨hp0, hpub, hpat⟩ := pairwiseDrawdown_spec (navs histories)
  have hnl : (navs histories).length = histories.length := by simp [navs]
  have h1 : d ≤ pairwiseDrawdown (navs histories) := by
    rcases hat with h | ⟨a, b, ha, hab, hbl, hval⟩
    · rw [h]; exact hp0
    · lift a to Nat using ha
      lift b to Nat using (by omega)
      rw [hval]
      exact hpub a b (by omega) (by rw [hnl]; omega)
  have h2 : pairwiseDrawdown (navs histories) ≤ d := by
    rcases hpat with h | ⟨i, j, hij, hj, hval⟩
    · rw [h]; exact hd0
    · rw [hval]
      exact hub i j (by omega) (by omega) (by rw [hnl] at hj; omega)
  rw [hd, le_antisymm h1 h2]

/-! ## Non-positive periods -/

theorem setIdx_of_neg {α : Type} (a : List α) (i : Int) (v : α) (h : i < 0) :
    setIdx a i v = none := by
  have hn : ¬ (0 ≤ i ∧ i < a.length) := fun hc => by omega
  simp only [setIdx, if_neg hn]

/-- A loop whose first iteration panics, panics. -/
theorem forUp_first_none {σ : Type} (lo hi : Int) (body : Int → σ → Option σ) (s : σ)
    (h : lo < hi) (hb : body lo s = none) : forUp lo hi body s = none := by
  unfold forUp
  obtain ⟨n, hn⟩ : ∃ n : Nat, (hi - lo).toNat = n + 1 := ⟨(hi - lo).toNat - 1, by omega⟩
  rw [hn]
  simp only [forUpAux, hb, Option.none_bind]

/-- With a non-positive period `CalculateEMA` writes at a negative index. -/
theorem CalculateEMA_nonpos (prices : List ℚ) (period : Int) (hp : period ≤ 0) :
    CalculateEMA prices period = none := by
  have hg : ¬ ((prices.length : Int) < period) := by omega
  unfold CalculateEMA
  rw [if_neg hg]
  simp only [Option.bind_eq_bind, Option.pure_def, forUp_of_le 0 period _ _ hp,
    Option.some_bind, setIdx_of_neg _ (period - 1) _ (by omega), Option.none_bind]

/-- With a non-positive period `CalculateKDJ` reads at a negative index. -/
theorem CalculateKDJ_nonpos (prices : List ℚ) (period : Int) (hp : period ≤ 0) :
    CalculateKDJ prices period = none := by
  have hg : ¬ ((prices.length : Int) < period) := by omega
  unfold CalculateKDJ
  rw [if_neg hg]
  simp only [Option.bind_eq_bind, Option.pure_def]
  rw [forUp_first_none (period - 1) (prices.length : Int) _ _ (by omega) (by
    simp only [idx_of_neg prices (period - 1) (by omega), Option.none_bind])]
  rfl

/-- With a non-positive period `CalculateBollinger` writes at a negative
index. -/
theorem CalculateBollinger_nonpos (sqrt : ℚ → ℚ) (prices : List ℚ) (period : Int)
    (hp : period ≤ 0) : CalculateBollinger sqrt prices period = none := by
  have hg : ¬ ((prices.length : Int) < period) := by omega
  unfold CalculateBollinger
  rw [if_neg hg]
  simp only [Option.bind_eq_bind, Option.pure_def]
  rw [forUp_first_none (period - 1) (prices.length : Int) _ _ (by omega) (by
    simp only [windowSum, windowVariance, forUp_of_le 0 period _ _ hp, Option.some_bind,
      setIdx_of_neg _ (period - 1) _ (by omega), Option.none_bind])]
  rfl

/-- The gains and losses loop of `CalculateRSI` returns on every price list. -/
theorem rsiGainLoss_returns (prices : List ℚ) :
    ∃ g l, forUp 1 prices.length (fun j (gl : List ℚ × List ℚ) => do
      let pj ← idx prices j
      let pj1 ← idx prices (j - 1)
      let change := pj - pj1
      if change > 0 then do
        let g ← setIdx gl.1 j change
        pure (g, gl.2)
      else do
        let l ← setIdx gl.2 j (-change)
        pure (gl.1, l)) (make prices.length, make prices.length) = some (g, l) ∧
      g.length = prices.length ∧ l.length = prices.length := by
  by_cases h : 1 ≤ prices.length
  · obtain ⟨g, l, he, hg, hl, -⟩ := rsiGainLoss_spec prices h
    exact ⟨g, l, he, hg, hl⟩
  · refine ⟨make prices.length, make prices.length, ?_, length_make _, length_make _⟩
    rw [forUp_of_le 1 (prices.length : Int) _ _ (by omega)]

/-- With a negative period `CalculateRSI` writes at a negative index. -/
theorem CalculateRSI_neg (prices : List ℚ) (period : Int) (hp : period < 0) :
    CalculateRSI prices period = none := by
  have hg : ¬ ((prices.length : Int) < period + 1) := by omega
  obtain ⟨g, l, he, -, -⟩ := rsiGainLoss_returns prices
  unfold CalculateRSI
  rw [if_neg hg]
  simp only [Option.bind_eq_bind, Option.pure_def, Option.some_bind] at he ⊢
  simp only [he, Option.some_bind, forUp_of_le 1 (period + 1) _ _ (by omega : period + 1 ≤ 1),
    zero_div, if_true, setIdx_of_neg _ period _ hp, Option.none_bind]

/-- With the period `0` `CalculateRSI` returns a list as long as a non-empty
price list. -/
theorem CalculateRSI_zero (prices : List ℚ) (hne : 1 ≤ prices.length) :
    ∃ r, CalculateRSI prices 0 = some (some r) ∧ r.length = prices.length := by
  have hg : ¬ ((prices.length : Int) < 0 + 1) := by omega
  obtain ⟨g, l, he, hgl, hll⟩ := rsiGainLoss_returns prices
  have hset := setIdx_eq (make prices.length) 0 (100 : ℚ) le_rfl
    (by rw [length_make]; omega)
  obtain ⟨⟨a, b, r⟩, hloop, hr⟩ := forUp_inv
    (fun (_ : Int) (s : ℚ × ℚ × List ℚ) => s.2.2.length = prices.length)
    (0 + 1) (prices.length : Int)
    (fun j (s : ℚ × ℚ × List ℚ) => do
        let x ← idx g j
        let avgGain := (s.1 * (((0 : Int) - 1 : Int) : ℚ) + x) / (((0 : Int) : Int) : ℚ)
        let y ← idx l j
        let avgLoss := (s.2.1 * (((0 : Int) - 1 : Int) : ℚ) + y) / (((0 : Int) : Int) : ℚ)
        let rsi ← if avgLoss = 0 then setIdx s.2.2 j 100
          else setIdx s.2.2 j (100 - 100 / (1 + avgGain / avgLoss))
        pure (avgGain, avgLoss, rsi))
    ((0 : ℚ), (0 : ℚ), (make prices.length).set (0 : Int).toNat 100) (by omega)
    (by simp [length_make])
    (by
      rintro j ⟨a, b, r⟩ hj0 hj1 hr
      simp only at hr
      have hx := idx_eq_nth g j (by omega) (by rw [hgl]; exact hj1)
      have hy := idx_eq_nth l j (by omega) (by rw [hll]; exact hj1)
      simp only [Option.bind_eq_bind, Option.pure_def, hx, hy, Option.some_bind]
      split_ifs with hc
      · rw [setIdx_eq r j _ (by omega) (by rw [hr]; exact hj1)]
        exact ⟨_, rfl, by simp [hr]⟩
      · rw [setIdx_eq r j _ (by omega) (by rw [hr]; exact hj1)]
        exact ⟨_, rfl, by simp [hr]⟩)
  simp only at hr
  refine ⟨r, ?_, hr⟩
  unfold CalculateRSI
  rw [if_neg hg]
  simp only [Option.bind_eq_bind, Option.pure_def, Option.some_bind] at he hloop ⊢
  simp only [he, Option.some_bind, forUp_of_le 1 (0 + 1) _ _ (by omega : (0 : Int) + 1 ≤ 1),
    zero_div, if_true, hset, Int.cast_zero, div_zero] at hloop ⊢
  simp only [hloop, Option.some_bind]

/-! ## Bounds of the simulations -/

theorem sum_filter_lt_le (ds : List Nat) :
    (ds.filter (· < 1000)).sum ≤ 999 * (ds.filter (· < 1000)).length := by
  induction ds with
  | nil => simp
  | cons d ds ih =>
    by_cases h : d < 1000
    · simp only [List.filter_cons, h, decide_True, if_true, List.sum_cons, List.length_cons]
      omega
    · simp only [List.filter_cons, h, decide_False]
      exact ih

theorem tdiv_natCast_bounds (s l : Nat) (hl : 0 < l) (hs : s ≤ 999 * l) :
    0 ≤ Int.tdiv (s : Int) (l : Int) ∧ Int.tdiv (s : Int) (l : Int) ≤ 999 := by
  rw [Int.tdiv_eq_ediv (by omega) (by omega), ← Int.natCast_div]
  have h : s / l ≤ 999 := by
    apply Nat.div_le_of_le_mul
    rw [Nat.mul_comm]; exact hs
  constructor
  · exact_mod_cast Nat.zero_le (s / l)
  · exact_mod_cast h

/-- The result of `monteCarloSimulation` for `n >= 1` simulations: the
sentinel when no trial is completed, otherwise the share of completed trials
in percent and a day count between 0 and 999. -/
theorem monteCarloSimulation_bounds (draws : Nat → ℚ) (lossRate mean std : ℚ) (n : Nat)
    (hn : 1 ≤ n) :
    ∃ ds : List Nat, ds.length = n ∧
      (∀ (k : Nat) (hk : k < ds.length),
        trialEnds draws lossRate mean std (ds.take k).sum (ds.get ⟨k, hk⟩) ∧
        (ds.get ⟨k, hk⟩ < 1000 ↔
          ∃ j : Nat, j < 1000 ∧ lossRate ≤ cumReturn draws mean std (ds.take k).sum j)) ∧
      ∃ days confidence,
        monteCarloSimulation draws lossRate mean std (n : Int) = some (days, confidence) ∧
        ((ds.filter (· < 1000)).length = 0 → days = 999 ∧ confidence = 0) ∧
        ((ds.filter (· < 1000)).length ≠ 0 →
          confidence = ((ds.filter (· < 1000)).length : ℚ) / (n : ℚ) * 100 ∧
          days = Int.tdiv (((ds.filter (· < 1000)).sum : Nat) : Int)
            ((ds.filter (· < 1000)).length : Int)) ∧
        0 ≤ confidence ∧ confidence ≤ 100 ∧
        (confidence = 0 → (ds.filter (· < 1000)).length = 0 ∧ days = 999) ∧
        0 ≤ days ∧ days ≤ 999 := by
  obtain ⟨ds, hlen, hends, hres⟩ := monteCarloSimulation_char draws lossRate mean std n
  refine ⟨ds, hlen, fun k hk => ⟨hends k hk, trialEnds_lt_iff _ _ _ _ _ _ (hends k hk)⟩, ?_⟩
  have hnq : (0 : ℚ) < (n : ℚ) := by exact_mod_cast hn
  by_cases hz : (ds.filter (· < 1000)).length = 0
  · rw [if_pos hz] at hres
    exact ⟨999, 0, hres, fun _ => ⟨rfl, rfl⟩, fun h => absurd hz h, le_rfl, by norm_num,
      fun _ => ⟨hz, rfl⟩, by norm_num, le_rfl⟩
  · rw [if_neg hz] at hres
    have hlpos : 0 < (ds.filter (· < 1000)).length := Nat.pos_of_ne_zero hz
    have hlle : (ds.filter (· < 1000)).length ≤ n := by
      rw [← hlen]; exact List.length_filter_le _ _
    have hlq : (0 : ℚ) < ((ds.filter (· < 1000)).length : ℚ) := by exact_mod_cast hlpos
    have hlq' : ((ds.filter (· < 1000)).length : ℚ) ≤ (n : ℚ) := by exact_mod_cast hlle
    have hratio : ((ds.filter (· < 1000)).length : ℚ) / (n : ℚ) ≤ 1 := by
      rw [div_le_one hnq]; exact hlq'
    have hcpos : 0 < ((ds.filter (· < 1000)).length : ℚ) / (n : ℚ) * 100 :=
      mul_pos (div_pos hlq hnq) (by norm_num)
    obtain ⟨hd0, hd1⟩ := tdiv_natCast_bounds _ _ hlpos (sum_filter_lt_le ds)
    exact ⟨_, _, hres, fun h => absurd h hz, fun _ => ⟨rfl, rfl⟩, hcpos.le, by linarith,
      fun h => absurd h (ne_of_gt hcpos), hd0, hd1⟩

theorem card_mul_le_sum (l : List ℚ) (m : ℚ) (h : ∀ x ∈ l, m ≤ x) :
    m * (l.length : ℚ) ≤ l.sum := by
  induction l with
  | nil => simp
  | cons a l ih =>
    have h1 := h a (List.mem_cons_self _ _)
    have h2 := ih (fun x hx => h x (List.mem_cons_of_mem _ hx))
    simp only [List.length_cons, List.sum_cons]
    push_cast
    linarith

theorem sum_le_card_mul (l : List ℚ) (m : ℚ) (h : ∀ x ∈ l, x ≤ m) :
    l.sum ≤ m * (l.length : ℚ) := by
  induction l with
  | nil => simp
  | cons a l ih =>
    have h1 := h a (List.mem_cons_self _ _)
    have h2 := ih (fun x hx => h x (List.mem_cons_of_mem _ hx))
    simp only [List.length_cons, List.sum_cons]
    push_cast
    linarith

/-- The bounds that follow from the statistics of 1000 returns. -/
theorem horizonStats_bounds (r : ProbabilityResult) (period : Int) (R : List ℚ)
    (hR : R.length = 1000) (h : horizonStats r period R) :
    0 ≤ r.ProfitProb ∧ r.ProfitProb ≤ 100 ∧ r.WorstCase ≤ r.ExpectedReturn ∧
      r.ExpectedReturn ≤ r.BestCase := by
  obtain ⟨-, hprob, hexp, ⟨-, hmin⟩, ⟨-, hmax⟩⟩ := h
  have hc : (R.filter (fun x => 0 < x)).length ≤ 1000 := by
    rw [← hR]; exact List.length_filter_le _ _
  have hcq : ((R.filter (fun x => 0 < x)).length : ℚ) ≤ 1000 := by exact_mod_cast hc
  have hc0 : (0 : ℚ) ≤ ((R.filter (fun x => 0 < x)).length : ℚ) := Nat.cast_nonneg _
  have h1 := card_mul_le_sum R r.WorstCase hmin
  have h2 := sum_le_card_mul R r.BestCase hmax
  rw [hR] at h1 h2
  push_cast at h1 h2
  rw [hprob, hexp]
  refine ⟨by positivity, by linarith, ?_, ?_⟩
  · rw [le_div_iff₀ (by norm_num)]; exact h1
  · rw [div_le_iff₀ (by norm_num)]; exact h2

/-- The return statistics are computed on every fetched history. -/
theorem calculateHistoricalReturn_returns (sqrt : ℚ → ℚ) (histories : List NetValueHistory) :
    ∃ mean std, calculateHistoricalReturn sqrt histories none = some (mean, std, none) := by
  obtain ⟨h1, h2⟩ := calculateHistoricalReturn_char sqrt histories
  by_cases h : 30 ≤ histories.length
  · exact ⟨_, _, h1 h⟩
  · exact ⟨_, _, h2 (by omega)⟩

/-- When `checkConsecutiveAlert` produces an alert, on at most `N + 1`
records. -/
theorem checkConsecutiveAlert_iff (now : Int) (rule : AlertRule)
    (histories : List NetValueHistory) (hN : 1 ≤ rule.ConsecutiveDays)
    (hlen : (histories.length : Int) ≤ rule.ConsecutiveDays + 1) :
    (rule.Direction = "up" →
      ((∃ a, checkConsecutiveAlert now (some rule) histories none = some (some a)) ↔
        ((histories.length : Int) = rule.ConsecutiveDays + 1 ∧
          ∀ h ∈ histories.take rule.ConsecutiveDays.toNat, 0 < h.DayGrowth))) ∧
    (rule.Direction = "down" →
      ((∃ a, checkConsecutiveAlert now (some rule) histories none = some (some a)) ↔
        ((histories.length : Int) = rule.ConsecutiveDays + 1 ∧
          ∀ h ∈ histories.take rule.ConsecutiveDays.toNat, h.DayGrowth < 0))) ∧
    (rule.Direction = "both" →
      checkConsecutiveAlert now (some rule) histories none = some none) ∧
    ((histories.length : Int) < rule.ConsecutiveDays + 1 →
      checkConsecutiveAlert now (some rule) histories none = some none) ∧
    ∃ o, checkConsecutiveAlert now (some rule) histories none = some o := by
  obtain ⟨n, hn⟩ : ∃ n : Nat, rule.ConsecutiveDays = (n : Int) :=
    ⟨rule.ConsecutiveDays.toNat, by omega⟩
  have hn1 : 1 ≤ n := by omega
  have hlen' : histories.length ≤ n + 1 := by omega
  have hnn : rule.ConsecutiveDays.toNat = n := by omega
  have hup := countP_take_ge histories (fun h => decide (0 < h.DayGrowth)) n hn1 hlen'
  have hdown := countP_take_ge histories (fun h => decide (h.DayGrowth < 0)) n hn1 hlen'
  by_cases hshort : (histories.length : Int) < rule.ConsecutiveDays
  · have hnone := checkConsecutiveAlert_short now rule histories none (Or.inr hshort)
    rw [hnone]
    refine ⟨fun _ => ⟨?_, ?_⟩, fun _ => ⟨?_, ?_⟩, fun _ => rfl, fun _ => rfl, ⟨_, rfl⟩⟩
    · rintro ⟨a, ha⟩; exact absurd (Option.some.inj ha) (by simp)
    · rintro ⟨h, -⟩; omega
    · rintro ⟨a, ha⟩; exact absurd (Option.some.inj ha) (by simp)
    · rintro ⟨h, -⟩; omega
  · have hchar := checkConsecutiveAlert_char now rule histories hshort
    have hupc : ((((histories.take (histories.length - 1)).countP
          (fun h => decide (0 < h.DayGrowth)) : Nat) : Int)) ≥ rule.ConsecutiveDays ↔
        ((histories.length : Int) = rule.ConsecutiveDays + 1 ∧
          ∀ h ∈ histories.take rule.ConsecutiveDays.toNat, 0 < h.DayGrowth) := by
      rw [hnn, hn]
      constructor
      · intro h
        obtain ⟨h1, h2⟩ := hup.mp (by exact_mod_cast h)
        exact ⟨by exact_mod_cast h1, fun x hx => by simpa using h2 x hx⟩
      · rintro ⟨h1, h2⟩
        have := hup.mpr ⟨by exact_mod_cast h1, fun x hx => by simpa using h2 x hx⟩
        exact_mod_cast this
    have hdownc : ((((histories.take (histories.length - 1)).countP
          (fun h => decide (h.DayGrowth < 0)) : Nat) : Int)) ≥ rule.ConsecutiveDays ↔
        ((histories.length : Int) = rule.ConsecutiveDays + 1 ∧
          ∀ h ∈ histories.take rule.ConsecutiveDays.toNat, h.DayGrowth < 0) := by
      rw [hnn, hn]
      constructor
      · intro h
        obtain ⟨h1, h2⟩ := hdown.mp (by exact_mod_cast h)
        exact ⟨by exact_mod_cast h1, fun x hx => by simpa using h2 x hx⟩
      · rintro ⟨h1, h2⟩
        have := hdown.mpr ⟨by exact_mod_cast h1, fun x hx => by simpa using h2 x hx⟩
        exact_mod_cast this
    refine ⟨?_, ?_, ?_, ?_, ?_⟩
    · intro hdir
      have hnd : ¬ rule.Direction = "down" := by rw [hdir]; decide
      rw [hchar]
      by_cases hc : ((((histories.take (histories.length - 1)).countP
          (fun h => decide (0 < h.DayGrowth)) : Nat) : Int)) ≥ rule.ConsecutiveDays
      · rw [if_pos ⟨hdir, hc⟩]
        exact ⟨fun _ => hupc.mp hc, fun _ => ⟨_, rfl⟩⟩
      · rw [if_neg (fun h => hc h.2), if_neg (fun h => hnd h.1)]
        constructor
        · rintro ⟨a, ha⟩; exact absurd (Option.some.inj ha) (by simp)
        · intro h; exact absurd (hupc.mpr h) hc
    · intro hdir
      have hnu : ¬ rule.Direction = "up" := by rw [hdir]; decide
      rw [hchar, if_neg (fun h => hnu h.1)]
      by_cases hc : ((((histories.take (histories.length - 1)).countP
          (fun h => decide (h.DayGrowth < 0)) : Nat) : Int)) ≥ rule.ConsecutiveDays
      · rw [if_pos ⟨hdir, hc⟩]
        exact ⟨fun _ => hdownc.mp hc, fun _ => ⟨_, rfl⟩⟩
      · rw [if_neg (fun h => hc h.2)]
        constructor
        · rintro ⟨a, ha⟩; exact absurd (Option.some.inj ha) (by simp)
        · intro h; exact absurd (hdownc.mpr h) hc
    · intro hdir
      have hnu : ¬ rule.Direction = "up" := by rw [hdir]; decide
      have hnd : ¬ rule.Direction = "down" := by rw [hdir]; decide
      rw [hchar, if_neg (fun h => hnu h.1), if_neg (fun h => hnd h.1)]
    · intro hlt
      have h1 : ¬ ((((histories.take (histories.length - 1)).countP
          (fun h => decide (0 < h.DayGrowth)) : Nat) : Int)) ≥ rule.ConsecutiveDays :=
        fun h => by have := (hupc.mp h).1; omega
      have h2 : ¬ ((((histories.take (histories.length - 1)).countP
          (fun h => decide (h.DayGrowth < 0)) : Nat) : Int)) ≥ rule.ConsecutiveDays :=
        fun h => by have := (hdownc.mp h).1; omega
      rw [hchar, if_neg (fun h => h1 h.2), if_neg (fun h => h2 h.2)]
    · rw [hchar]
      split_ifs <;> exact ⟨_, rfl⟩

/-! ## The properties of the specification: holdings, prediction, parameters,
alerts -/

/-- C21: the `Holding` methods report the market value `Shares * CurrentNav`,
the profit `MarketValue - Cost` and the profit rate `Profit/Cost*100` (`0` on
a zero cost), and `CalculateCurrentProfit` reports the same profit and rate on
a holding whose cost is not zero: 1200, 200 and 20 on the scenario's holding.
On a holding whose cost is zero `CalculateCurrentProfit` returns the profit
`0` whatever the market value is: on 100 shares at 12 that cost nothing, it
returns `0` where `Holding.Profit` returns `1200`. -/
theorem CalculateCurrentProfit_zero_cost :
    (∀ h : Holding, h.MarketValue = h.Shares * h.CurrentNav ∧
      h.Profit = h.MarketValue - h.Cost ∧
      (h.Cost ≠ 0 → h.ProfitRate = h.Profit / h.Cost * 100) ∧
      (h.Cost = 0 → h.ProfitRate = 0) ∧
      (h.Cost ≠ 0 →
        CalculateCurrentProfit (some h) = some (h.Profit, h.Profit / h.Cost * 100)) ∧
      (h.Cost = 0 → CalculateCurrentProfit (some h) = some (0, 0))) ∧
    (scenarioHolding.MarketValue = 1200 ∧ scenarioHolding.Profit = 200 ∧
      scenarioHolding.ProfitRate = 20 ∧
      CalculateCurrentProfit (some scenarioHolding) = some (200, 20)) ∧
    (giftedHolding.Cost = 0 ∧ giftedHolding.MarketValue = 1200 ∧
      giftedHolding.Profit = 1200 ∧
      CalculateCurrentProfit (some giftedHolding) = some (0, 0)) := by
  refine ⟨fun h => ⟨rfl, rfl, ?_, ?_, (CalculateCurrentProfit_char h).1,
    (CalculateCurrentProfit_char h).2⟩, by decide!, by decide!⟩
  · intro hc
    simp [Holding.ProfitRate, Holding.Profit, hc]
  · intro hc
    simp [Holding.ProfitRate, hc]

/-- C22: the holding that `AddHolding` creates satisfies the holding invariant
(no shares, no cost, cost price `0`), and a holding that satisfies it satisfies
it again, as the repository holds it, after every `Buy` with `netValue > 0` and
`amount >= fee >= 0` and after every accepted `Sell` of
`0 <= shares <= held shares`, whether `SaveHolding` succeeds or fails. Where
the operation hands a holding of numbers to `SaveHolding`, that holding is the
one read back; the accepted `Sell` of `0` shares from a holding without shares
computes a NaN cost, which is read back as `0`. -/
theorem holding_invariant :
    (∀ fundCode fundName : String, ∃ h,
      AddHolding none none fundCode fundName = (some h, none) ∧ holdingInv h ∧
        h.Shares = 0 ∧ h.Cost = 0 ∧ h.CostPrice = 0) ∧
    (∀ (h : Holding) (saveErr : Option String) (amount netValue fee : ℚ), holdingInv h →
      0 < netValue → 0 ≤ fee → fee ≤ amount →
      ∃ h', BuyStored h saveErr amount netValue fee = some h' ∧ holdingInv h') ∧
    (∀ (h : Holding) (saveErr : Option String) (shares netValue fee : ℚ), holdingInv h →
      0 ≤ shares → shares ≤ h.Shares →
      ∃ h', SellStored h saveErr shares netValue fee = some h' ∧ holdingInv h') ∧
    (∀ (h h' : Holding) (amount netValue fee : ℚ),
      Buy (some h) amount netValue fee = Booking.saved h' →
      BuyStored h none amount netValue fee = some h') ∧
    (∀ (h h' : Holding) (shares netValue fee : ℚ),
      Sell (some h) shares netValue fee = Booking.saved h' →
      SellStored h none shares netValue fee = some h') ∧
    (AddHolding none none "000001" "x" = (some emptyHolding, none) ∧
      Sell (some emptyHolding) 0 1 0 = Booking.notANumber ∧
      SellStored emptyHolding none 0 1 0 = some { emptyHolding with CurrentNav := 1 } ∧
      holdingInv { emptyHolding with CurrentNav := 1 } ∧
      BuyStored { emptyHolding with CurrentNav := 1 } none 10 2 0
        = some { emptyHolding with Shares := 5, Cost := 10, CostPrice := 2, CurrentNav := 2 }) := by
  refine ⟨fun fundCode fundName => ⟨_, rfl, ?_, rfl, rfl, rfl⟩, BuyStored_inv, SellStored_inv,
    BuyStored_of_saved, SellStored_of_saved, by decide!, by decide!, by decide!, ?_, by decide!⟩
  · exact ⟨le_rfl, le_rfl, fun h => absurd h (lt_irrefl 0), fun _ => rfl⟩
  · exact ⟨by decide!, by decide!, fun h => absurd h (by decide!), fun _ => by decide!⟩

/-- C23: `monteCarloSimulation` returns as `days` the sum of the day counts of
the completed trials divided by their number, rounded toward zero: their mean.
With the threshold 1, mean 0, deviation 1, three simulations and the draws
`sampleDraws`, the trials are completed after 1, 1 and 4 days: their median is
1, and `monteCarloSimulation` returns 2. -/
theorem monteCarloSimulation_days :
    (∀ (draws : Nat → ℚ) (lossRate mean std : ℚ) (n : Nat), ∃ ds : List Nat, ds.length = n ∧
      (∀ (k : Nat) (hk : k < ds.length),
        trialEnds draws lossRate mean std (ds.take k).sum (ds.get ⟨k, hk⟩)) ∧
      ((ds.filter (· < 1000)).length ≠ 0 →
        ∃ confidence, monteCarloSimulation draws lossRate mean std (n : Int) =
          some (Int.tdiv (((ds.filter (· < 1000)).sum : Nat) : Int)
            ((ds.filter (· < 1000)).length : Int), confidence))) ∧
    (trialEnds sampleDraws 1 0 1 0 1 ∧ trialEnds sampleDraws 1 0 1 1 1 ∧
      trialEnds sampleDraws 1 0 1 2 4) ∧
    medianSpec [1, 1, 4] = 1 ∧
    monteCarloSimulation sampleDraws 1 0 1 3 = some (2, 100) := by
  refine ⟨?_, ?_, by decide!, by decide!⟩
  · intro draws lossRate mean std n
    obtain ⟨ds, hlen, hends, hres⟩ := monteCarloSimulation_char draws lossRate mean std n
    refine ⟨ds, hlen, hends, fun hz =>
      ⟨((ds.filter (· < 1000)).length : ℚ) / (n : ℚ) * 100, ?_⟩⟩
    rw [hres, if_neg hz]
  · unfold trialEnds
    decide!

/-- C24: for `n >= 1` simulations, with `ds` the day counts of the `n` trials
(each starting at the draw where the one before it ended), a trial is counted
as completed, `ds[k] < 1000`, exactly when its cumulative return reaches the
threshold on a day before day 1000; `monteCarloSimulation` returns `(999, 0)`
when no trial is completed and `confidence = completed/n*100` otherwise; the
confidence lies in `[0, 100]` and is `0` only with the days `999` of no
completed trial, and the days lie in `[0, 999]`. -/
theorem monteCarloSimulation_spec (draws : Nat → ℚ) (lossRate mean std : ℚ) (n : Nat)
    (hn : 1 ≤ n) :
    ∃ ds : List Nat, ds.length = n ∧
      (∀ (k : Nat) (hk : k < ds.length),
        trialEnds draws lossRate mean std (ds.take k).sum (ds.get ⟨k, hk⟩) ∧
        (ds.get ⟨k, hk⟩ < 1000 ↔
          ∃ j : Nat, j < 1000 ∧ lossRate ≤ cumReturn draws mean std (ds.take k).sum j)) ∧
      ∃ days confidence,
        monteCarloSimulation draws lossRate mean std (n : Int) = some (days, confidence) ∧
        ((ds.filter (· < 1000)).length = 0 → days = 999 ∧ confidence = 0) ∧
        ((ds.filter (· < 1000)).length ≠ 0 →
          confidence = ((ds.filter (· < 1000)).length : ℚ) / (n : ℚ) * 100 ∧
          days = Int.tdiv (((ds.filter (· < 1000)).sum : Nat) : Int)
            ((ds.filter (· < 1000)).length : Int)) ∧
        0 ≤ confidence ∧ confidence ≤ 100 ∧
        (confidence = 0 → (ds.filter (· < 1000)).length = 0 ∧ days = 999) ∧
        0 ≤ days ∧ days ≤ 999 :=
  monteCarloSimulation_bounds draws lossRate mean std n hn

theorem monteCarloSimulation_spec_witness :
    1 ≤ 3 ∧
    ∃ ds : List Nat, ds.length = 3 ∧
      (∀ (k : Nat) (hk : k < ds.length),
        trialEnds sampleDraws 1 0 1 (ds.take k).sum (ds.get ⟨k, hk⟩) ∧
        (ds.get ⟨k, hk⟩ < 1000 ↔
          ∃ j : Nat, j < 1000 ∧ 1 ≤ cumReturn sampleDraws 0 1 (ds.take k).sum j)) ∧
      ∃ days confidence,
        monteCarloSimulation sampleDraws 1 0 1 ((3 : Nat) : Int) = some (days, confidence) ∧
        ((ds.filter (· < 1000)).length = 0 → days = 999 ∧ confidence = 0) ∧
        ((ds.filter (· < 1000)).length ≠ 0 →
          confidence = ((ds.filter (· < 1000)).length : ℚ) / ((3 : Nat) : ℚ) * 100 ∧
          days = Int.tdiv (((ds.filter (· < 1000)).sum : Nat) : Int)
            ((ds.filter (· < 1000)).length : Int)) ∧
        0 ≤ confidence ∧ confidence ≤ 100 ∧
        (confidence = 0 → (ds.filter (· < 1000)).length = 0 ∧ days = 999) ∧
        0 ≤ days ∧ days ≤ 999 :=
  ⟨by decide, monteCarloSimulation_spec sampleDraws 1 0 1 3 (by decide)⟩

/-- C25: on a fetched history, `CalculateProfitProbability` computes the return
statistics `mean` and `std` and returns one record per horizon, in input
order; the record `k` has `Period = periods[k]` and, over its own 1000 trials
of `periods[k]` accumulated daily draws, `ProfitProb = 100 *` (trials with
cumulative return `> 0`) `/ 1000`, `ExpectedReturn` their mean, `WorstCase`
their least and `BestCase` their greatest; hence `0 <= ProfitProb <= 100` and
`WorstCase <= ExpectedReturn <= BestCase`. -/
theorem CalculateProfitProbability_spec (sqrt : ℚ → ℚ) (draws : Nat → ℚ)
    (histories : List NetValueHistory) (periods : List Int) :
    ∃ mean std, calculateHistoricalReturn sqrt histories none = some (mean, std, none) ∧
      ∃ results, CalculateProfitProbability sqrt draws histories none periods
          = some (some results, none) ∧ results.length = periods.length ∧
        ∀ (k : Nat) (hk : k < periods.length), ∃ r, results.get? k = some r ∧
          r.Period = periods.get ⟨k, hk⟩ ∧
          horizonStats r (periods.get ⟨k, hk⟩)
            (trialReturns draws mean std (horizonStart periods k) (periods.get ⟨k, hk⟩)) ∧
          (trialReturns draws mean std (horizonStart periods k) (periods.get ⟨k, hk⟩)).length
            = 1000 ∧
          0 ≤ r.ProfitProb ∧ r.ProfitProb ≤ 100 ∧ r.WorstCase ≤ r.ExpectedReturn ∧
          r.ExpectedReturn ≤ r.BestCase := by
  obtain ⟨mean, std, hret⟩ := calculateHistoricalReturn_returns sqrt histories
  obtain ⟨results, hres, hlen, hall⟩ :=
    CalculateProfitProbability_char sqrt draws histories periods mean std hret
  refine ⟨mean, std, hret, results, hres, hlen, fun k hk => ?_⟩
  obtain ⟨r, hr, hstats⟩ := hall k hk
  obtain ⟨h1, h2, h3, h4⟩ := horizonStats_bounds r _ _ (trialReturns_length _ _ _ _ _) hstats
  exact ⟨r, hr, hstats.1, hstats, trialReturns_length _ _ _ _ _, h1, h2, h3, h4⟩

/-- C26, as stated, fails: with the period `0` on the prices `[1, 2]`,
`CalculateEMA`, `CalculateKDJ` and `CalculateBollinger` panic on an index out
of range, `CalculateRSI` returns a list and not the nil result, and with the
period `-1` `CalculateRSI` panics too. -/
theorem nonpositive_period_counterexample :
    CalculateEMA [1, 2] 0 = none ∧ CalculateKDJ [1, 2] 0 = none ∧
    CalculateBollinger ratSqrt [1, 2] 0 = none ∧ CalculateRSI [1, 2] (-1) = none ∧
    (∃ r, CalculateRSI [1, 2] 0 = some (some r) ∧ r.length = 2) ∧
    CalculateEMA [1, 2] 0 ≠ some none ∧ CalculateKDJ [1, 2] 0 ≠ some none ∧
    CalculateBollinger ratSqrt [1, 2] 0 ≠ some none ∧ CalculateRSI [1, 2] 0 ≠ some none := by
  have h1 := CalculateEMA_nonpos [1, 2] 0 le_rfl
  have h2 := CalculateKDJ_nonpos [1, 2] 0 le_rfl
  have h3 := CalculateBollinger_nonpos ratSqrt [1, 2] 0 le_rfl
  have h4 := CalculateRSI_neg [1, 2] (-1) (by decide)
  obtain ⟨r, h5, h6⟩ := CalculateRSI_zero [1, 2] (by decide)
  refine ⟨h1, h2, h3, h4, ⟨r, h5, h6⟩, ?_, ?_, ?_, ?_⟩
  · rw [h1]; exact fun h => Option.noConfusion h
  · rw [h2]; exact fun h => Option.noConfusion h
  · rw [h3]; exact fun h => Option.noConfusion h
  · rw [h5]; exact fun h => Option.noConfusion (Option.some.inj h)

/-- C26, amended: for a period `<= 0` no function reports the parameter:
`CalculateEMA`, `CalculateKDJ` and `CalculateBollinger` panic on an index out
of range on every price list; `CalculateRSI` panics on every price list for a
period `< 0`, and for the period `0` it returns nil on the empty list and a
list as long as the prices on any other. -/
theorem nonpositive_period (sqrt : ℚ → ℚ) (prices : List ℚ) (period : Int) (hp : period ≤ 0) :
    CalculateEMA prices period = none ∧ CalculateKDJ prices period = none ∧
    CalculateBollinger sqrt prices period = none ∧
    (period < 0 → CalculateRSI prices period = none) ∧
    (period = 0 → prices = [] → CalculateRSI prices period = some none) ∧
    (period = 0 → prices ≠ [] →
      ∃ r, CalculateRSI prices period = some (some r) ∧ r.length = prices.length) := by
  refine ⟨CalculateEMA_nonpos prices period hp, CalculateKDJ_nonpos prices period hp,
    CalculateBollinger_nonpos sqrt prices period hp, CalculateRSI_neg prices period, ?_, ?_⟩
  · intro h0 he
    exact CalculateRSI_nil prices period (by rw [h0, he]; decide)
  · intro h0 hne
    rw [h0]
    exact CalculateRSI_zero prices (List.length_pos.mpr hne)

theorem nonpositive_period_witness :
    (0 : Int) ≤ 0 ∧
    (CalculateEMA [1, 2] 0 = none ∧ CalculateKDJ [1, 2] 0 = none ∧
      CalculateBollinger ratSqrt [1, 2] 0 = none ∧
      ((0 : Int) < 0 → CalculateRSI [1, 2] 0 = none) ∧
      ((0 : Int) = 0 → ([1, 2] : List ℚ) = [] → CalculateRSI [1, 2] 0 = some none) ∧
      ((0 : Int) = 0 → ([1, 2] : List ℚ) ≠ [] →
        ∃ r, CalculateRSI [1, 2] 0 = some (some r) ∧ r.length = ([1, 2] : List ℚ).length)) :=
  ⟨le_rfl, nonpositive_period ratSqrt [1, 2] 0 le_rfl⟩

/-- C27: the divisions by the cost in `Holding.ProfitRate` and
`CalculateCurrentProfit` are guarded, with the result `0` on a zero cost;
`Buy` divides by zero only on a zero net value; but an accepted `Sell` divides
by zero exactly when the holding has no shares, in `shares / holding.Shares`:
on the holding without shares that `Buy` leaves after an amount equal to the
fee, the accepted `Sell` of `0` shares stores a cost that is not a number. -/
theorem division_guards :
    (∀ h : Holding, h.Cost = 0 →
      h.ProfitRate = 0 ∧ CalculateCurrentProfit (some h) = some (0, 0)) ∧
    (∀ (h : Holding) (amount netValue fee : ℚ),
      Buy (some h) amount netValue fee = Booking.notANumber ↔ netValue = 0) ∧
    (∀ (h : Holding) (shares netValue fee : ℚ), ¬ h.Shares < shares →
      (Sell (some h) shares netValue fee = Booking.notANumber ↔ h.Shares = 0)) ∧
    (Buy (some emptyHolding) 5 1 5 = Booking.saved feeOnlyHolding ∧
      feeOnlyHolding.Shares = 0 ∧ ¬ feeOnlyHolding.Shares < 0 ∧
      Sell (some feeOnlyHolding) 0 1 0 = Booking.notANumber) := by
  refine ⟨fun h hc => ⟨?_, (CalculateCurrentProfit_char h).2 hc⟩, Buy_notANumber,
    Sell_notANumber, by decide!, by decide!, by decide!, by decide!⟩
  simp [Holding.ProfitRate, hc]

/-- C28: for `period >= 1` and at least `period + 1` prices, every entry of
the list that `CalculateRSI` returns lies in `[0, 100]`; it is `100` at every
index from `period` on when the prices are strictly increasing, and `0` there
when they are strictly decreasing. -/
theorem CalculateRSI_bounds (prices : List ℚ) (period : Int) (hp : 1 ≤ period)
    (hlen : period + 1 ≤ prices.length) :
    ∃ r, CalculateRSI prices period = some (some r) ∧ r.length = prices.length ∧
      (∀ j : Int, 0 ≤ nth r j ∧ nth r j ≤ 100) ∧
      (prices.Pairwise (fun a b => a < b) →
        ∀ j : Int, period ≤ j → j < prices.length → nth r j = 100) ∧
      (prices.Pairwise (fun a b => b < a) →
        ∀ j : Int, period ≤ j → j < prices.length → nth r j = 0) :=
  CalculateRSI_range prices period hp hlen

theorem CalculateRSI_bounds_witness :
    (1 : Int) ≤ 2 ∧ (2 : Int) + 1 ≤ ([3, 2, 1] : List ℚ).length ∧
    ∃ r, CalculateRSI [3, 2, 1] 2 = some (some r) ∧ r.length = ([3, 2, 1] : List ℚ).length ∧
      (∀ j : Int, 0 ≤ nth r j ∧ nth r j ≤ 100) ∧
      (([3, 2, 1] : List ℚ).Pairwise (fun a b => a < b) →
        ∀ j : Int, 2 ≤ j → j < ([3, 2, 1] : List ℚ).length → nth r j = 100) ∧
      (([3, 2, 1] : List ℚ).Pairwise (fun a b => b < a) →
        ∀ j : Int, 2 ≤ j → j < ([3, 2, 1] : List ℚ).length → nth r j = 0) :=
  ⟨by decide, by decide, CalculateRSI_bounds [3, 2, 1] 2 (by decide) (by decide)⟩

/-- C29: on a newest-first NAV history of at least 2 points, all positive,
the running-peak computation of `CalculateMaxDrawdown` returns the naive
pairwise maximum: the greatest of `0` and of `(h[j] - h[i])/h[j]*100` over all
pairs of positions `i < j`. -/
theorem CalculateMaxDrawdown_pairwise (histories : List NetValueHistory)
    (hlen : 2 ≤ histories.length) (hpos : ∀ h ∈ histories, 0 < h.NetValue) :
    CalculateMaxDrawdown histories none = some (pairwiseDrawdown (navs histories), none) ∧
    0 ≤ pairwiseDrawdown (navs histories) ∧
    (∀ i j : Nat, i < j → j < histories.length →
      (nth (navs histories) j - nth (navs histories) i) / nth (navs histories) j * 100
        ≤ pairwiseDrawdown (navs histories)) ∧
    (pairwiseDrawdown (navs histories) = 0 ∨
      ∃ i j : Nat, i < j ∧ j < histories.length ∧ pairwiseDrawdown (navs histories)
        = (nth (navs histories) j - nth (navs histories) i) / nth (navs histories) j * 100) := by
  have hnl : (navs histories).length = histories.length := by simp [navs]
  obtain ⟨h0, hub, hat⟩ := pairwiseDrawdown_spec (navs histories)
  refine ⟨CalculateMaxDrawdown_eq_pairwise histories hlen hpos, h0, ?_, ?_⟩
  · intro i j hij hj
    exact hub i j hij (by rw [hnl]; exact hj)
  · rcases hat with h | ⟨i, j, hij, hj, hval⟩
    · exact Or.inl h
    · exact Or.inr ⟨i, j, hij, by rw [hnl] at hj; exact hj, hval⟩

theorem CalculateMaxDrawdown_pairwise_witness :
    2 ≤ [navPoint 3, navPoint 4, navPoint 2, navPoint 1].length ∧
    (∀ h ∈ [navPoint 3, navPoint 4, navPoint 2, navPoint 1], 0 < h.NetValue) ∧
    pairwiseDrawdown (navs [navPoint 3, navPoint 4, navPoint 2, navPoint 1]) = 25 ∧
    CalculateMaxDrawdown [navPoint 3, navPoint 4, navPoint 2, navPoint 1] none
      = some (pairwiseDrawdown (navs [navPoint 3, navPoint 4, navPoint 2, navPoint 1]), none) :=
  ⟨by decide, by decide!, by decide!,
    (CalculateMaxDrawdown_pairwise [navPoint 3, navPoint 4, navPoint 2, navPoint 1] (by decide)
      (by decide!)).1⟩

/-- C30: for a rule with `ConsecutiveDays = N >= 1` and a fetched newest-first
history of at most `N + 1` records, `checkConsecutiveAlert` returns (without a
panic) and, for the direction `up` (respectively `down`), produces an alert
exactly when the history has `N + 1` records and each of the `N` most recent
has a strictly positive (respectively strictly negative) day growth; for the
direction `both`, and on fewer than `N + 1` records, it produces none. -/
theorem checkConsecutiveAlert_spec (now : Int) (rule : AlertRule)
    (histories : List NetValueHistory) (hN : 1 ≤ rule.ConsecutiveDays)
    (hlen : (histories.length : Int) ≤ rule.ConsecutiveDays + 1) :
    (rule.Direction = "up" →
      ((∃ a, checkConsecutiveAlert now (some rule) histories none = some (some a)) ↔
        ((histories.length : Int) = rule.ConsecutiveDays + 1 ∧
          ∀ h ∈ histories.take rule.ConsecutiveDays.toNat, 0 < h.DayGrowth))) ∧
    (rule.Direction = "down" →
      ((∃ a, checkConsecutiveAlert now (some rule) histories none = some (some a)) ↔
        ((histories.length : Int) = rule.ConsecutiveDays + 1 ∧
          ∀ h ∈ histories.take rule.ConsecutiveDays.toNat, h.DayGrowth < 0))) ∧
    (rule.Direction = "both" →
      checkConsecutiveAlert now (some rule) histories none = some none) ∧
    ((histories.length : Int) < rule.ConsecutiveDays + 1 →
      checkConsecutiveAlert now (some rule) histories none = some none) ∧
    ∃ o, checkConsecutiveAlert now (some rule) histories none = some o :=
  checkConsecutiveAlert_iff now rule histories hN hlen

theorem checkConsecutiveAlert_spec_witness :
    (1 : Int) ≤ twoUpRule.ConsecutiveDays ∧
    (([growthPoint 1, growthPoint 2, growthPoint (-1)].length : Int)
      ≤ twoUpRule.ConsecutiveDays + 1) ∧
    twoUpRule.Direction = "up" ∧
    ((∃ a, checkConsecutiveAlert 0 (some twoUpRule)
        [growthPoint 1, growthPoint 2, growthPoint (-1)] none = some (some a)) ↔
      ((([growthPoint 1, growthPoint 2, growthPoint (-1)].length : Int)
          = twoUpRule.ConsecutiveDays + 1) ∧
        ∀ h ∈ [growthPoint 1, growthPoint 2, growthPoint (-1)].take
          twoUpRule.ConsecutiveDays.toNat, 0 < h.DayGrowth)) ∧
    checkConsecutiveAlert 0 (some twoUpRule) [growthPoint 1, growthPoint 2, growthPoint (-1)]
        none
      = some (some { RuleID := 1, FundCode := "000001", FundName := "x",
                     AlertType := "consecutive", Message := "x 连涨2天", Value := 2,
                     TriggeredAt := 0, IsRead := false }) :=
  ⟨by decide, by decide, rfl,
    (checkConsecutiveAlert_spec 0 twoUpRule [growthPoint 1, growthPoint 2, growthPoint (-1)]
      (by decide) (by decide)).1 rfl,
    by decide!⟩

end Jijin
